import Mathlib

/-!
# Scancode table and key-press state machine of `drivers/media/IR/ir-keytable.c`

A shallow embedding of the IR keytable code.  The scancode table is the C
struct: a buffer `scan` of `size` slots of which the first `len` are in use,
together with the byte size `alloc` of the buffer.  Unsigned C integers are
natural numbers, reduced modulo `2 ^ 32` where the C arithmetic can wrap.
Memory handed out by `kmalloc` is uninitialised: an allocation outcome is
`none` (failure) or `some junk`, a block whose slot `k` initially holds
`junk k`.  Calls into the input core (`input_event`, `input_report_key`,
`input_sync`) are recorded, in order, as a trace of `sink_call`s.
-/

namespace IrKeytable

/-! ## Constants -/

/-- Size in bytes of `struct ir_scancode` (two 32-bit words); the source notes
that 256 bytes hold 32 entries. -/
def SIZEOF_IR_SCANCODE : Nat := 8

def IR_TAB_MIN_SIZE : Nat := 256

def IR_TAB_MAX_SIZE : Nat := 8192

def IR_KEYPRESS_TIMEOUT : Nat := 250

def KEY_RESERVED : Nat := 0

def KEY_UNKNOWN : Nat := 240

def ENOMEM : Int := 12

def EINVAL : Int := 22

def INPUT_KEYMAP_BY_INDEX : Nat := 1

/-- Number of values of a C `unsigned int`. -/
def UINT_MOD : Nat := 4294967296

/-- The value `-1U`. -/
def MINUS_ONE_U : Nat := 4294967295

/-- Number of values of a `__u16`. -/
def U16_MOD : Nat := 65536

/-- Subtraction of `unsigned int` values, wrapping around below zero. -/
def uint_sub (a b : Nat) : Nat := if b ≤ a then a - b else a + UINT_MOD - b

/-- Conversion of an `unsigned int` to `int`. -/
def int_of_uint (x : Nat) : Int :=
  if x < 2147483648 then (x : Int) else (x : Int) - 4294967296

/-- Conversion of an `int` to `unsigned int`. -/
def uint_of_int (x : Int) : Nat := (x % 4294967296).toNat

/-! ## Data model -/

/-- One table slot, `struct ir_scancode`. -/
structure ir_scancode where
  scancode : Nat
  keycode : Nat
deriving DecidableEq, Repr

instance : Inhabited ir_scancode := ⟨⟨0, 0⟩⟩

/-- The table, `struct ir_scancode_table`; a `NULL` buffer is the empty list. -/
structure ir_scancode_table where
  scan : List ir_scancode
  size : Nat
  len : Nat
  alloc : Nat
  ir_type : Nat
  name : String
deriving DecidableEq, Repr

/-- The part of `struct ir_dev_props` the keytable code reads. -/
structure ir_dev_props where
  scanmask : Nat
deriving DecidableEq, Repr

/-- A call into the input core, as made by the keytable code. -/
inductive sink_call where
  | msc_scan (value : Nat)
  | report_key (code : Nat) (value : Nat)
  | sync
deriving DecidableEq, Repr

/-- The device, `struct ir_input_dev`, with the `keybit` capability bitmap of
its `input_dev` (the set of bit numbers that are set) and the expiry time of
the pending `timer_keyup`, if any. -/
structure ir_input_dev where
  rc_tab : ir_scancode_table
  props : Option ir_dev_props
  keybit : Finset Nat
  keypressed : Bool
  last_keycode : Nat
  last_scancode : Nat
  last_toggle : Nat
  keyup_jiffies : Nat
  timer_keyup : Option Nat
deriving DecidableEq

/-- A request of the keymap ioctls, `struct input_keymap_entry`: `flags` and
`len` are `__u8`, `index` is `__u16`, `keycode` is `__u32`. -/
structure input_keymap_entry where
  flags : Nat
  len : Nat
  index : Nat
  keycode : Nat
  scancode : List Nat
deriving DecidableEq, Repr

/-- Outcome of one `kmalloc` call: failure, or a block with arbitrary content. -/
abbrev kmalloc_result := Option (Nat → ir_scancode)

/-- The entries in use, `scan[0..len)`. -/
def entries (t : ir_scancode_table) : List ir_scancode := t.scan.take t.len

/-- Strictly ascending by scancode. -/
def ascending (l : List ir_scancode) : Prop :=
  l.Pairwise (fun a b => a.scancode < b.scancode)

instance (l : List ir_scancode) : Decidable (ascending l) :=
  inferInstanceAs (Decidable (l.Pairwise (fun (a b : ir_scancode) => a.scancode < b.scancode)))

/-- Representation invariant of a live table: the buffer has `size` slots,
`size` is the number of slots that fit into `alloc` bytes, at most `size`
entries are in use, and `alloc` is an `unsigned int` with room for at least
one slot. -/
def table_ok (t : ir_scancode_table) : Prop :=
  t.len ≤ t.size ∧ t.scan.length = t.size ∧
    t.size = t.alloc / SIZEOF_IR_SCANCODE ∧ SIZEOF_IR_SCANCODE ≤ t.alloc ∧
    t.alloc < UINT_MOD

instance (t : ir_scancode_table) : Decidable (table_ok t) :=
  inferInstanceAs (Decidable (t.len ≤ t.size ∧ t.scan.length = t.size ∧
    t.size = t.alloc / SIZEOF_IR_SCANCODE ∧ SIZEOF_IR_SCANCODE ≤ t.alloc ∧
    t.alloc < UINT_MOD))

/-! ## Memory primitives -/

/-- A block of `n` slots as returned by a successful `kmalloc`. -/
def fresh_block (junk : Nat → ir_scancode) (n : Nat) : List ir_scancode :=
  (List.range n).map junk

/-- The call `memmove(&buf[dst], &buf[src], n * sizeof(struct ir_scancode))`. -/
def memmove (buf : List ir_scancode) (dst src n : Nat) : List ir_scancode :=
  buf.take dst ++ (buf.drop src).take n ++ buf.drop (dst + n)

/-- The call `memcpy(dst, src, n * sizeof(struct ir_scancode))`. -/
def memcpy (dst src : List ir_scancode) (n : Nat) : List ir_scancode :=
  src.take n ++ dst.drop n

/-- Modelled from the spec: `roundup_pow_of_two`, a kernel helper absent from
the source file; the spec says capacity is "rounded up to the next
power-of-two".  Searches the powers of two upward from `p`. -/
def roundup_from (n : Nat) : Nat → Nat → Nat
  | 0, p => p
  | fuel + 1, p => if n ≤ p then p else roundup_from n fuel (2 * p)

/-- Modelled from the spec: the least power of two that is at least `n`. -/
def roundup_pow_of_two (n : Nat) : Nat := roundup_from n n 1

/-! ## Table operations -/

/-- Embedding of `ir_create_table`; `len` is not touched. -/
def ir_create_table (rc_tab : ir_scancode_table) (name : String) (ir_type : Nat)
    (size : Nat) (km : kmalloc_result) : Int × ir_scancode_table :=
  let alloc := roundup_pow_of_two (size * SIZEOF_IR_SCANCODE) % UINT_MOD
  let t1 := { rc_tab with name := name, ir_type := ir_type, alloc := alloc,
                          size := alloc / SIZEOF_IR_SCANCODE }
  match km with
  | none => (-ENOMEM, { t1 with scan := [] })
  | some junk => (0, { t1 with scan := fresh_block junk (alloc / SIZEOF_IR_SCANCODE) })

/-- Embedding of `ir_free_table`. -/
def ir_free_table (rc_tab : ir_scancode_table) : ir_scancode_table :=
  { rc_tab with size := 0, scan := [] }

/-- Embedding of `ir_resize_table`. -/
def ir_resize_table (rc_tab : ir_scancode_table) (km : kmalloc_result) :
    Int × ir_scancode_table :=
  let oldalloc := rc_tab.alloc
  if rc_tab.size = rc_tab.len ∧ rc_tab.alloc ≥ IR_TAB_MAX_SIZE then
    (-ENOMEM, rc_tab)
  else
    let newalloc1 :=
      if rc_tab.size = rc_tab.len then (oldalloc * 2) % UINT_MOD else oldalloc
    let newalloc :=
      if (rc_tab.len * 3) % UINT_MOD < rc_tab.size ∧ oldalloc > IR_TAB_MIN_SIZE then
        newalloc1 / 2
      else newalloc1
    if newalloc = oldalloc then (0, rc_tab)
    else
      match km with
      | none => (-ENOMEM, rc_tab)
      | some junk =>
        let newscan := memcpy (fresh_block junk (newalloc / SIZEOF_IR_SCANCODE))
          rc_tab.scan rc_tab.len
        (0, { rc_tab with scan := newscan, alloc := newalloc,
                          size := newalloc / SIZEOF_IR_SCANCODE })

/-- The loop of `ir_update_mapping` that looks for another user of a keycode:
does some `i < len` have `scan[i].keycode == keycode`? -/
def keycode_in_use (scan : List ir_scancode) (len keycode : Nat) : Bool :=
  (List.range len).any (fun i => (scan.getD i default).keycode == keycode)

/-- Embedding of `ir_update_mapping`: returns the previous keycode, the new
bitmap and the new table. -/
def ir_update_mapping (keybit : Finset Nat) (rc_tab : ir_scancode_table)
    (index new_keycode : Nat) (km : kmalloc_result) :
    Nat × Finset Nat × ir_scancode_table :=
  let old_keycode := (rc_tab.scan.getD index default).keycode
  let st1 : Finset Nat × ir_scancode_table :=
    if new_keycode = KEY_RESERVED ∨ new_keycode = KEY_UNKNOWN then
      let len1 := uint_sub rc_tab.len 1
      (keybit, { rc_tab with len := len1,
                             scan := memmove rc_tab.scan index (index + 1) (len1 - index) })
    else
      let entry := rc_tab.scan.getD index default
      (insert new_keycode keybit,
       { rc_tab with scan := rc_tab.scan.set index { entry with keycode := new_keycode } })
  if old_keycode ≠ KEY_RESERVED then
    let kb2 := st1.1.erase old_keycode
    let kb3 := if keycode_in_use st1.2.scan st1.2.len old_keycode then insert old_keycode kb2
               else kb2
    (old_keycode, kb3, (ir_resize_table st1.2 km).2)
  else
    (old_keycode, st1.1, st1.2)

/-- The search loop of `ir_establish_scancode`, at index `i` with `n = len - i`
slots still to visit.  The result is `(true, i)` when the loop returns `i`
(exact match) and `(false, i)` when the loop is left with index `i`. -/
def establish_loop (scan : List ir_scancode) (scancode : Nat) : Nat → Nat → Bool × Nat
  | 0, i => (false, i)
  | n + 1, i =>
    if (scan.getD i default).scancode = scancode then (true, i)
    else if (scan.getD i default).scancode ≥ scancode then (false, i)
    else establish_loop scan scancode n (i + 1)

/-- The scancode after the optional scan mask of the device is applied. -/
def apply_scanmask (props : Option ir_dev_props) (scancode : Nat) : Nat :=
  match props with
  | some p => if p.scanmask ≠ 0 then scancode &&& p.scanmask else scancode
  | none => scancode

/-- Embedding of `ir_establish_scancode`: returns the index (or `-1U`) and the
new table. -/
def ir_establish_scancode (props : Option ir_dev_props) (rc_tab : ir_scancode_table)
    (scancode : Nat) (resize : Bool) (km : kmalloc_result) : Nat × ir_scancode_table :=
  let scancode := apply_scanmask props scancode
  match establish_loop rc_tab.scan scancode rc_tab.len 0 with
  | (true, i) => (i, rc_tab)
  | (false, i) =>
    let grown : Option ir_scancode_table :=
      if rc_tab.size = rc_tab.len then
        if resize = false ∨ (ir_resize_table rc_tab km).1 ≠ 0 then none
        else some (ir_resize_table rc_tab km).2
      else some rc_tab
    match grown with
    | none => (MINUS_ONE_U, rc_tab)
    | some t =>
      let scan1 := if i < t.len then memmove t.scan (i + 1) i (t.len - i) else t.scan
      let scan2 := scan1.set i ⟨scancode, KEY_RESERVED⟩
      (i, { t with scan := scan2, len := (t.len + 1) % UINT_MOD })

/-- The binary-search loop of `ir_lookup_by_scancode`; `none` when the fuel
runs out before the loop ends. -/
def lookup_loop (scan : List ir_scancode) (scancode : Nat) : Nat → Int → Int → Option Nat
  | 0, _, _ => none
  | fuel + 1, start, stop =>
    if start ≤ stop then
      let mid := Int.tdiv (start + stop) 2
      if (scan.getD mid.toNat default).scancode < scancode then
        lookup_loop scan scancode fuel (mid + 1) stop
      else if (scan.getD mid.toNat default).scancode > scancode then
        lookup_loop scan scancode fuel start (mid - 1)
      else some (uint_of_int mid)
    else some MINUS_ONE_U

/-- Embedding of `ir_lookup_by_scancode`, run with `len + 1` units of fuel. -/
def ir_lookup_by_scancode (rc_tab : ir_scancode_table) (scancode : Nat) : Option Nat :=
  lookup_loop rc_tab.scan scancode (rc_tab.len + 1) 0
    (int_of_uint (uint_sub rc_tab.len 1))

/-- Embedding of `ir_setkeycode`.  `scalar` is the outcome of the input-core
helper `input_scancode_to_scalar` on the request (return value and scancode),
`retval0` the indeterminate initial content of the local `retval`, `km1` and
`km2` the outcomes of the allocations in `ir_establish_scancode` and
`ir_update_mapping`.  Returns the return value, the previous keycode written
through `old_keycode` (if any) and the new device. -/
def ir_setkeycode (ir_dev : ir_input_dev) (ke : input_keymap_entry)
    (scalar : Int × Nat) (retval0 : Int) (km1 km2 : kmalloc_result) :
    Int × Option Nat × ir_input_dev :=
  if ke.flags &&& INPUT_KEYMAP_BY_INDEX ≠ 0 then
    let index := ke.index
    if index ≥ ir_dev.rc_tab.len then (-EINVAL, none, ir_dev)
    else
      let r := ir_update_mapping ir_dev.keybit ir_dev.rc_tab index ke.keycode km2
      (retval0, some r.1, { ir_dev with keybit := r.2.1, rc_tab := r.2.2 })
  else
    if scalar.1 ≠ 0 then (scalar.1, none, ir_dev)
    else
      let e := ir_establish_scancode ir_dev.props ir_dev.rc_tab scalar.2 true km1
      if e.1 ≥ e.2.len then (-ENOMEM, none, { ir_dev with rc_tab := e.2 })
      else
        let r := ir_update_mapping ir_dev.keybit e.2 e.1 ke.keycode km2
        (scalar.1, some r.1, { ir_dev with keybit := r.2.1, rc_tab := r.2.2 })

/-- The loop of `ir_setkeytable` from source index `i`, with `n = from->size - i`
entries still to load; `kms i` is the outcome of the allocation attempted
while entry `i` is loaded. -/
def setkeytable_loop (src : ir_scancode_table) (kms : Nat → kmalloc_result) :
    Nat → Nat → ir_input_dev → Int × ir_input_dev
  | 0, _, ir_dev => (0, ir_dev)
  | n + 1, i, ir_dev =>
    let e := ir_establish_scancode ir_dev.props ir_dev.rc_tab
      (src.scan.getD i default).scancode false (kms i)
    if e.1 ≥ e.2.len then (-ENOMEM, { ir_dev with rc_tab := e.2 })
    else
      let r := ir_update_mapping ir_dev.keybit e.2 e.1 (src.scan.getD i default).keycode (kms i)
      setkeytable_loop src kms n (i + 1) { ir_dev with keybit := r.2.1, rc_tab := r.2.2 }

/-- Embedding of `ir_setkeytable`; `km0` is the outcome of the allocation in
`ir_create_table`. -/
def ir_setkeytable (ir_dev : ir_input_dev) (src : ir_scancode_table)
    (km0 : kmalloc_result) (kms : Nat → kmalloc_result) : Int × ir_input_dev :=
  let c := ir_create_table ir_dev.rc_tab src.name src.ir_type src.size km0
  if c.1 ≠ 0 then (c.1, { ir_dev with rc_tab := c.2 })
  else
    let r := setkeytable_loop src kms src.size 0 { ir_dev with rc_tab := c.2 }
    if r.1 ≠ 0 then (r.1, { r.2 with rc_tab := ir_free_table r.2.rc_tab })
    else r

/-- Embedding of `ir_getkeycode`: returns the return value and the request as
left for the caller; `none` when the lookup loop runs out of fuel.  The
assignment `ke->index = index` stores an `unsigned int` into the `__u16` field,
which keeps the low 16 bits. -/
def ir_getkeycode (ir_dev : ir_input_dev) (ke : input_keymap_entry)
    (scalar : Int × Nat) : Option (Int × input_keymap_entry) :=
  let rc_tab := ir_dev.rc_tab
  let found : Option (Except Int Nat) :=
    if ke.flags &&& INPUT_KEYMAP_BY_INDEX ≠ 0 then some (.ok ke.index)
    else if scalar.1 ≠ 0 then some (.error scalar.1)
    else (ir_lookup_by_scancode rc_tab scalar.2).map .ok
  match found with
  | none => none
  | some (.error retval) => some (retval, ke)
  | some (.ok index) =>
    if index < rc_tab.len then
      let entry := rc_tab.scan.getD index default
      some (0, { ke with index := index % U16_MOD, keycode := entry.keycode, len := 4,
                         scancode := [entry.scancode] })
    else if ke.flags &&& INPUT_KEYMAP_BY_INDEX = 0 then
      some (0, { ke with index := index % U16_MOD, keycode := KEY_RESERVED })
    else some (-EINVAL, ke)

/-- Embedding of `ir_g_keycode_from_table`; `none` when the lookup loop runs
out of fuel. -/
def ir_g_keycode_from_table (ir_dev : ir_input_dev) (scancode : Nat) : Option Nat :=
  (ir_lookup_by_scancode ir_dev.rc_tab scancode).map fun index =>
    if index < ir_dev.rc_tab.len then (ir_dev.rc_tab.scan.getD index default).keycode
    else KEY_RESERVED

/-! ## Key-press state machine -/

/-- Modelled from the spec: `msecs_to_jiffies`, a kernel helper absent from the
source file.  The spec computes the deadline as `now + KEYPRESS_TIMEOUT` with
the timeout in milliseconds, so time is counted in milliseconds and the
conversion is the identity. -/
def msecs_to_jiffies (m : Nat) : Nat := m

/-- Modelled from the spec: `time_is_before_eq_jiffies`, a kernel helper absent
from the source file: the deadline `a` has been reached at time `jiffies`,
that is, it has not been "pushed further into the future". -/
def time_is_before_eq_jiffies (jiffies a : Nat) : Bool := decide (a ≤ jiffies)

/-- Embedding of `ir_keyup`. -/
def ir_keyup (ir : ir_input_dev) : ir_input_dev × List sink_call :=
  if ir.keypressed = false then (ir, [])
  else ({ ir with keypressed := false },
        [sink_call.report_key ir.last_keycode 0, sink_call.sync])

/-- Embedding of `ir_timer_keyup`, run at time `jiffies`. -/
def ir_timer_keyup (ir : ir_input_dev) (jiffies : Nat) : ir_input_dev × List sink_call :=
  if time_is_before_eq_jiffies jiffies ir.keyup_jiffies then ir_keyup ir
  else (ir, [])

/-- The code after the label `set_timer` in `ir_keydown`, also the tail of
`ir_repeat`. -/
def set_timer (ir : ir_input_dev) (jiffies : Nat) : ir_input_dev :=
  { ir with keyup_jiffies := jiffies + msecs_to_jiffies IR_KEYPRESS_TIMEOUT,
            timer_keyup := some (jiffies + msecs_to_jiffies IR_KEYPRESS_TIMEOUT) }

/-- Embedding of `ir_repeat`, run at time `jiffies`. -/
def ir_repeat (ir : ir_input_dev) (jiffies : Nat) : ir_input_dev × List sink_call :=
  if ir.keypressed = false then (ir, [sink_call.msc_scan ir.last_scancode])
  else (set_timer ir jiffies, [sink_call.msc_scan ir.last_scancode])

/-- Embedding of `ir_keydown`, run at time `jiffies`; `none` when the lookup
loop runs out of fuel. -/
def ir_keydown (ir : ir_input_dev) (scancode toggle jiffies : Nat) :
    Option (ir_input_dev × List sink_call) :=
  (ir_g_keycode_from_table ir scancode).map fun keycode =>
    if ir.keypressed = true ∧ ir.last_scancode = scancode ∧ ir.last_toggle = toggle then
      (set_timer ir jiffies, [sink_call.msc_scan scancode])
    else
      let up := ir_keyup ir
      let ir1 := { up.1 with last_scancode := scancode, last_toggle := toggle,
                             last_keycode := keycode }
      if keycode = KEY_RESERVED then
        (ir1, sink_call.msc_scan scancode :: up.2)
      else
        let ir2 := { ir1 with keypressed := true }
        (set_timer ir2 jiffies,
          sink_call.msc_scan scancode :: up.2 ++
            [sink_call.report_key ir2.last_keycode 1, sink_call.sync])

/-! ## Operation sequences -/

/-- One operation on the table of a device, with the outcomes of the
allocations it may attempt. -/
inductive table_op where
  | establish (scancode : Nat) (resize : Bool) (km : kmalloc_result)
  | update (index new_keycode : Nat) (km : kmalloc_result)
  | setkeycode (ke : input_keymap_entry) (scalar : Int × Nat) (retval0 : Int)
      (km1 km2 : kmalloc_result)
  | resize (km : kmalloc_result)

/-- Runs one operation.  `ir_update_mapping` is only ever called with an index
below `len`; an `update` with another index is not run. -/
def apply_op (d : ir_input_dev) : table_op → ir_input_dev
  | .establish scancode resize km =>
    { d with rc_tab := (ir_establish_scancode d.props d.rc_tab scancode resize km).2 }
  | .update index new_keycode km =>
    if index < d.rc_tab.len then
      let r := ir_update_mapping d.keybit d.rc_tab index new_keycode km
      { d with keybit := r.2.1, rc_tab := r.2.2 }
    else d
  | .setkeycode ke scalar retval0 km1 km2 =>
    (ir_setkeycode d ke scalar retval0 km1 km2).2.2
  | .resize km => { d with rc_tab := (ir_resize_table d.rc_tab km).2 }

/-- Runs a sequence of operations, first to last. -/
def run_ops (d : ir_input_dev) (ops : List table_op) : ir_input_dev :=
  ops.foldl apply_op d

/-- A table structure as zeroed by `kzalloc`. -/
def zeroed_table : ir_scancode_table := ⟨[], 0, 0, 0, 0, ""⟩

/-- The device right after `ir_create_table` succeeded on the zeroed structure
that `__ir_input_register` allocates: an empty table created for `n` entries
(with room for at least `n` entries when the byte size fits `unsigned int`),
an empty bitmap, no key pressed. -/
def fresh_dev (props : Option ir_dev_props) (name : String) (ir_type n : Nat)
    (junk : Nat → ir_scancode) : ir_input_dev :=
  { rc_tab := (ir_create_table zeroed_table name ir_type n (some junk)).2,
    props := props, keybit := ∅, keypressed := false, last_keycode := 0,
    last_scancode := 0, last_toggle := 0, keyup_jiffies := 0, timer_keyup := none }

/-- The table after the insertion code at the end of `ir_establish_scancode`
has run on `t` with index `i`. -/
def insert_at (t : ir_scancode_table) (i scancode : Nat) : ir_scancode_table :=
  { t with
    scan := (if i < t.len then memmove t.scan (i + 1) i (t.len - i) else t.scan).set i
      ⟨scancode, KEY_RESERVED⟩,
    len := (t.len + 1) % UINT_MOD }

/-- What the search loop establishes about the entries around the index it
stops at. -/
def loop_bounds (l : List ir_scancode) (S i : Nat) : Prop :=
  i ≤ l.length ∧
    (∀ j (hj : j < l.length), j < i → (l.get ⟨j, hj⟩).scancode < S) ∧
    (∀ hj : i < l.length, S < (l.get ⟨i, hj⟩).scancode)

/-- The table after the deletion branch of `ir_update_mapping`. -/
def delete_at (t : ir_scancode_table) (index : Nat) : ir_scancode_table :=
  { t with len := uint_sub t.len 1,
           scan := memmove t.scan index (index + 1) (uint_sub t.len 1 - index) }

/-- The table after the overwrite branch of `ir_update_mapping`. -/
def overwrite_at (t : ir_scancode_table) (index new_keycode : Nat) : ir_scancode_table :=
  { t with
    scan := t.scan.set index ⟨(t.scan.getD index default).scancode, new_keycode⟩ }

/-- A small table used in the examples: three entries in a buffer of four
slots, scancodes 1, 3 and 5 mapped to keycodes 2, 4 and 4. -/
def example_table : ir_scancode_table :=
  ⟨[⟨1, 2⟩, ⟨3, 4⟩, ⟨5, 4⟩, ⟨9, 9⟩], 4, 3, 32, 0, "rc-example"⟩

/-- An idle device that owns `example_table`, without scan mask, with the
bitmap that belongs to the table. -/
def example_dev : ir_input_dev :=
  { rc_tab := example_table, props := none, keybit := {2, 4}, keypressed := false,
    last_keycode := 0, last_scancode := 0, last_toggle := 0, keyup_jiffies := 0,
    timer_keyup := none }

/-- The example device with a scan mask that keeps the low eight bits. -/
def masked_dev : ir_input_dev := { example_dev with props := some ⟨255⟩ }

/-- The example device while the key with scancode 3 is held (pressed at time
100) and after the mapping of scancode 3 has been deleted from its table. -/
def held_dev : ir_input_dev :=
  { rc_tab := ⟨[⟨1, 2⟩, ⟨5, 4⟩, ⟨5, 4⟩, ⟨9, 9⟩], 4, 2, 32, 0, "rc-example"⟩,
    props := none, keybit := {2, 4}, keypressed := true, last_keycode := 4,
    last_scancode := 3, last_toggle := 0, keyup_jiffies := 350,
    timer_keyup := some 350 }

/-- A full table: one entry in a buffer of one slot. -/
def full_table : ir_scancode_table := ⟨[⟨1, 2⟩], 1, 1, 8, 0, "rc-full"⟩

/-- The bitmap agrees with the table: a keycode other than `KEY_RESERVED` is
marked used exactly when some entry in use maps to it. -/
def keybit_matches (d : ir_input_dev) : Prop :=
  ∀ k, k ≠ KEY_RESERVED → (k ∈ d.keybit ↔ ∃ e ∈ entries d.rc_tab, e.keycode = k)

/-- The key events of a trace: the `input_report_key` calls. -/
def key_events (tr : List sink_call) : List sink_call :=
  tr.filter fun c => match c with
    | .report_key _ _ => true
    | _ => false

/-- A full table at the maximum allocation: 1024 entries in 8192 bytes, with
scancodes 0 to 1023, all mapped to keycode 1. -/
def max_table : ir_scancode_table :=
  ⟨⟨0, 1⟩ :: (List.range 1023).map (fun i => ⟨i + 1, 1⟩), 1024, 1024, 8192, 0, "rc-max"⟩

/-- An idle device that owns `max_table`, with a scan mask that keeps the low
ten bits. -/
def max_dev : ir_input_dev :=
  { rc_tab := max_table, props := some ⟨1023⟩, keybit := {1}, keypressed := false,
    last_keycode := 0, last_scancode := 0, last_toggle := 0, keyup_jiffies := 0,
    timer_keyup := none }

/-- The allocation is a power of two between `lo` and `hi` bytes. -/
def alloc_within (lo hi : Nat) (t : ir_scancode_table) : Prop :=
  (∃ k, t.alloc = 2 ^ k) ∧ lo ≤ t.alloc ∧ t.alloc ≤ hi

/-- A sparse table: one entry in a buffer of 64 slots (512 bytes). -/
def sparse_table : ir_scancode_table :=
  ⟨⟨5, 7⟩ :: List.replicate 63 ⟨0, 0⟩, 64, 1, 512, 0, "rc-sparse"⟩

/-- An idle device that owns `full_table`. -/
def full_dev : ir_input_dev := { example_dev with rc_tab := full_table, keybit := {2} }

/-- An idle device that owns `sparse_table`. -/
def sparse_dev : ir_input_dev := { example_dev with rc_tab := sparse_table, keybit := {7} }

/-- One step of the key-press state machine: the four entry points. -/
inductive key_op where
  | keydown (scancode toggle jiffies : Nat)
  | rpt (jiffies : Nat)
  | keyup
  | timer (jiffies : Nat)

/-- Runs one step; `none` when the lookup loop of `ir_keydown` runs out of
fuel. -/
def apply_key (d : ir_input_dev) : key_op → Option (ir_input_dev × List sink_call)
  | .keydown scancode toggle jiffies => ir_keydown d scancode toggle jiffies
  | .rpt jiffies => some (ir_repeat d jiffies)
  | .keyup => some (ir_keyup d)
  | .timer jiffies => some (ir_timer_keyup d jiffies)

/-- Runs a sequence of steps, first to last, and collects the trace. -/
def run_keys : ir_input_dev → List key_op → Option (ir_input_dev × List sink_call)
  | d, [] => some (d, [])
  | d, op :: ops =>
    (apply_key d op).bind fun r =>
      (run_keys r.1 ops).map fun r2 => (r2.1, r.2 ++ r2.2)

/-- Recogniser of well-formed key event sequences.  The state is `none` after
a violation, `some none` when no key is down and `some (some k)` when the last
key event was the key-down of `k`.  A key-down (value not 0) is accepted only
when no key is down, a key-up (value 0) only for the key that is down; other
calls are skipped. -/
def alt_step : Option (Option Nat) → sink_call → Option (Option Nat)
  | none, _ => none
  | some none, .report_key k v => if v = 0 then none else some (some k)
  | some (some k0), .report_key k v => if v = 0 ∧ k0 = k then some none else none
  | some st, _ => some st

/-- Runs the recogniser over a trace, from the state "no key is down". -/
def alt_run (tr : List sink_call) : Option (Option Nat) := tr.foldl alt_step (some none)

/-- The recogniser state that belongs to a device state. -/
def key_state (d : ir_input_dev) : Option Nat :=
  if d.keypressed = true then some d.last_keycode else none

/-- The time at which a step renews the deadline, if it does: an `ir_keydown`
that ends pressed, or an `ir_repeat` while pressed. -/
def renewal (d : ir_input_dev) : key_op → Option Nat
  | .keydown scancode toggle jiffies =>
    (ir_keydown d scancode toggle jiffies).bind fun r =>
      if r.1.keypressed = true then some jiffies else none
  | .rpt jiffies => if d.keypressed = true then some jiffies else none
  | .keyup => none
  | .timer _ => none

/-- The time of the most recent renewal in a sequence of steps, `acc` when
there is none. -/
def last_renewal : ir_input_dev → List key_op → Option Nat → Option Nat
  | _, [], acc => acc
  | d, op :: ops, acc =>
    ((apply_key d op).map fun r =>
      last_renewal r.1 ops (match renewal d op with
        | some t => some t
        | none => acc)).getD acc

/-- The key-state invariant relative to the time `acc` of the most recent
renewal: a pressed key has a keycode other than `KEY_RESERVED` and a renewal
behind it, and the deadline is the most recent renewal plus the timeout. -/
def key_inv (d : ir_input_dev) (acc : Option Nat) : Prop :=
  (d.keypressed = true → d.last_keycode ≠ KEY_RESERVED ∧ ∃ t, acc = some t) ∧
  (∀ t, acc = some t → d.keyup_jiffies = t + msecs_to_jiffies IR_KEYPRESS_TIMEOUT)

/-- The renewal time after a step: that of the step if it renews, else the
earlier one. -/
def renew_acc (d : ir_input_dev) (op : key_op) (acc : Option Nat) : Option Nat :=
  (match renewal d op with
    | some t => some t
    | none => acc)

/-- The device structure as `__ir_input_register` has it when it calls
`ir_setkeytable`: zeroed by `kzalloc`, with the driver's `props`. -/
def zeroed_dev (props : Option ir_dev_props) : ir_input_dev :=
  { rc_tab := zeroed_table, props := props, keybit := ∅, keypressed := false,
    last_keycode := 0, last_scancode := 0, last_toggle := 0, keyup_jiffies := 0,
    timer_keyup := none }

/-- The device after the body of the loop of `ir_setkeytable` has run for the
source entry `e` with a valid index. -/
def load_entry (d : ir_input_dev) (e : ir_scancode) (km : kmalloc_result) : ir_input_dev :=
  { d with
    keybit := (ir_update_mapping d.keybit
      (ir_establish_scancode d.props d.rc_tab e.scancode false km).2
      (ir_establish_scancode d.props d.rc_tab e.scancode false km).1 e.keycode km).2.1,
    rc_tab := (ir_update_mapping d.keybit
      (ir_establish_scancode d.props d.rc_tab e.scancode false km).2
      (ir_establish_scancode d.props d.rc_tab e.scancode false km).1 e.keycode km).2.2 }

/-- A source table of 34 entries in which scancode 1 occurs twice; the other
32 scancodes are 2, ..., 33. -/
def dup_source : ir_scancode_table :=
  { scan := ⟨1, 10⟩ :: ⟨1, 11⟩ :: (List.range 32).map (fun i => ⟨i + 2, 20⟩),
    size := 34, len := 0, alloc := 0, ir_type := 0, name := "rc-dup" }

/-- A source table of four entries in no particular order, two of them with a
sentinel keycode. -/
def small_source : ir_scancode_table :=
  { scan := [⟨5, 30⟩, ⟨2, 0⟩, ⟨9, 31⟩, ⟨1, 240⟩],
    size := 4, len := 0, alloc := 0, ir_type := 0, name := "rc-small" }

/-- A source table with the single entry (0x1234, 30). -/
def wide_source : ir_scancode_table :=
  { scan := [⟨4660, 30⟩], size := 1, len := 0, alloc := 0, ir_type := 0, name := "rc-wide" }

/-- A table of 65537 entries in a buffer of 2 ^ 20 bytes (131072 slots): slot
`i` holds scancode `i`, mapped to keycode 1. -/
def huge_table : ir_scancode_table :=
  { scan := (List.range 131072).map (fun i => ⟨i, 1⟩),
    size := 131072, len := 65537, alloc := 1048576, ir_type := 0, name := "rc-huge" }

/-- An idle device that owns `huge_table`, without scan mask. -/
def huge_dev : ir_input_dev :=
  { rc_tab := huge_table, props := none, keybit := {1}, keypressed := false,
    last_keycode := 0, last_scancode := 0, last_toggle := 0, keyup_jiffies := 0,
    timer_keyup := none }

/-! ## Buffer lemmas -/

theorem memmove_up_split (p q rest : List ir_scancode) (r e : ir_scancode) :
    (memmove (p ++ q ++ r :: rest) (p.length + 1) p.length q.length).set p.length e
      = p ++ e :: q ++ rest := by
  unfold memmove
  have h1 : List.take (p.length + 1) (p ++ q ++ r :: rest)
      = p ++ List.take 1 (q ++ r :: rest) := by
    rw [List.append_assoc, List.take_append_eq_append_take]
    simp
  have h2 : List.take q.length (List.drop p.length (p ++ q ++ r :: rest)) = q := by
    rw [List.append_assoc, List.drop_left]
    simp
  have h3 : List.drop (p.length + 1 + q.length) (p ++ q ++ r :: rest) = rest := by
    have hl : p.length + 1 + q.length = (p ++ q ++ [r]).length := by simp; omega
    have hb : p ++ q ++ r :: rest = (p ++ q ++ [r]) ++ rest := by simp
    rw [hl, hb, List.drop_left]
  rw [h1, h2, h3]
  cases q with
  | nil => simp [List.set_append]
  | cons x q => simp [List.set_append]

theorem memmove_down_split (p q rest : List ir_scancode) (x : ir_scancode) :
    ∃ y, memmove (p ++ x :: q ++ rest) p.length (p.length + 1) q.length
      = p ++ q ++ y :: rest := by
  unfold memmove
  have h1 : List.take p.length (p ++ x :: q ++ rest) = p := by
    rw [List.append_assoc, List.take_left]
  have h2 : List.take q.length (List.drop (p.length + 1) (p ++ x :: q ++ rest)) = q := by
    have hb : p ++ x :: q ++ rest = (p ++ [x]) ++ (q ++ rest) := by simp
    have hl : p.length + 1 = (p ++ [x]).length := by simp
    rw [hb, hl, List.drop_left, List.take_left]
  have h3 : ∃ y, List.drop (p.length + q.length) (p ++ x :: q ++ rest) = y :: rest := by
    rw [List.append_assoc, List.drop_append]
    clear h1 h2
    induction q generalizing x with
    | nil => exact ⟨x, by simp⟩
    | cons z q ih =>
      obtain ⟨y, hy⟩ := ih z
      refine ⟨y, ?_⟩
      simpa using hy
  obtain ⟨y, hy⟩ := h3
  exact ⟨y, by rw [h1, h2, hy]⟩

/-- Splitting a buffer at `i ≤ len < length`. -/
theorem buf_split_room (buf : List ir_scancode) (i len : Nat) (hi : i ≤ len)
    (hlen : len < buf.length) :
    ∃ p q r rest, buf = p ++ q ++ r :: rest ∧ p.length = i ∧ q.length = len - i ∧
      buf.take len = p ++ q := by
  refine ⟨buf.take i, (buf.take len).drop i, buf.getD len default, buf.drop (len + 1), ?_, ?_, ?_, ?_⟩
  · have h1 : buf.take i ++ (buf.take len).drop i = buf.take len := by
      have := List.take_append_drop i (buf.take len)
      rw [List.take_take, min_eq_left hi] at this
      exact this
    rw [h1]
    have h2 : buf.getD len default :: buf.drop (len + 1) = buf.drop len := by
      rw [List.getD_eq_getElem _ _ hlen]
      exact (List.drop_eq_getElem_cons hlen).symm
    rw [h2, List.take_append_drop]
  · simp; omega
  · simp; omega
  · have := List.take_append_drop i (buf.take len)
    rw [List.take_take, min_eq_left hi] at this
    exact this.symm

theorem memmove_insert (buf : List ir_scancode) (i len : Nat) (e : ir_scancode)
    (hi : i ≤ len) (hlen : len < buf.length) :
    let buf1 := (if i < len then memmove buf (i + 1) i (len - i) else buf).set i e
    buf1.length = buf.length ∧
      buf1.take (len + 1) = (buf.take len).take i ++ e :: (buf.take len).drop i := by
  obtain ⟨p, q, r, rest, hb, hp, hq, ht⟩ := buf_split_room buf i len hi hlen
  have hm : (if i < len then memmove buf (i + 1) i (len - i) else buf).set i e
      = p ++ e :: q ++ rest := by
    by_cases h : i < len
    · rw [if_pos h, hb, ← hq, ← hp]
      exact memmove_up_split p q rest r e
    · rw [if_neg h, hb]
      have hq0 : q = [] := List.length_eq_zero.mp (by omega)
      subst hq0
      rw [← hp]
      simp [List.set_append]
  simp only []
  rw [hm, ht]
  constructor
  · rw [hb]; simp; omega
  · have hl : (p ++ e :: q).length = len + 1 := by simp; omega
    rw [List.take_left' hl, List.take_left' hp, List.drop_left' hp]

theorem memmove_delete (buf : List ir_scancode) (i len : Nat)
    (hi : i < len) (hlen : len ≤ buf.length) :
    let buf1 := memmove buf i (i + 1) (len - 1 - i)
    buf1.length = buf.length ∧ buf1.take (len - 1) = (buf.take len).eraseIdx i := by
  have hi2 : i < buf.length := by omega
  have hb : buf = buf.take i ++ buf.getD i default :: (buf.take len).drop (i + 1) ++ buf.drop len := by
    have h1 : buf.getD i default :: (buf.take len).drop (i + 1) = (buf.take len).drop i := by
      have hi3 : i < (buf.take len).length := by simp; omega
      rw [List.drop_eq_getElem_cons hi3, List.getD_eq_getElem _ _ hi2]
      simp
    rw [List.append_assoc, h1]
    have h2 : buf.take i ++ ((buf.take len).drop i ++ buf.drop len) = buf := by
      have := List.take_append_drop i (buf.take len)
      rw [List.take_take, min_eq_left (le_of_lt hi)] at this
      rw [← List.append_assoc, this, List.take_append_drop]
    exact h2.symm
  generalize hp : buf.take i = p at hb
  generalize hq : (buf.take len).drop (i + 1) = q at hb
  generalize hx : buf.getD i default = x at hb
  generalize hr : buf.drop len = rest at hb
  have hpl : p.length = i := by rw [← hp]; simp; omega
  have hql : q.length = len - 1 - i := by rw [← hq]; simp; omega
  obtain ⟨y, hy⟩ := memmove_down_split p q rest x
  clear hp hq hx hr
  subst hpl
  subst hb
  simp only []
  rw [← hql, hy]
  have hlen2 : len = (p ++ x :: q).length := by simp; omega
  have hlen3 : (p ++ q).length = len - 1 := by simp; omega
  constructor
  · simp; omega
  · rw [List.take_left' hlen3]
    have hlen4 : (p ++ x :: q).length = len := hlen2.symm
    rw [List.take_left' hlen4, List.eraseIdx_append_of_length_le (le_refl _)]
    simp

theorem memcpy_length (dst src : List ir_scancode) (n : Nat) (hs : n ≤ src.length)
    (hd : n ≤ dst.length) : (memcpy dst src n).length = dst.length := by
  unfold memcpy
  simp; omega

theorem memcpy_take (dst src : List ir_scancode) (n : Nat) (hs : n ≤ src.length) :
    (memcpy dst src n).take n = src.take n := by
  unfold memcpy
  have hl : (src.take n).length = n := by simp; omega
  rw [List.take_left' hl]

/-! ## Resizing -/

theorem table_ok_len_le (t : ir_scancode_table) (h : table_ok t) :
    t.len ≤ t.scan.length ∧ t.len < 536870912 := by
  unfold table_ok SIZEOF_IR_SCANCODE UINT_MOD at h
  omega

theorem resize_len (t : ir_scancode_table) (km : kmalloc_result) :
    (ir_resize_table t km).2.len = t.len := by
  unfold ir_resize_table
  simp only []
  split_ifs <;> try rfl
  all_goals cases km <;> rfl

theorem resize_entries (t : ir_scancode_table) (km : kmalloc_result)
    (h : t.len ≤ t.scan.length) :
    entries (ir_resize_table t km).2 = entries t := by
  unfold ir_resize_table
  simp only []
  split_ifs <;> try rfl
  all_goals
    cases km with
    | none => rfl
    | some junk => exact memcpy_take _ _ _ h

theorem resize_ok (t : ir_scancode_table) (km : kmalloc_result) (h : table_ok t) :
    table_ok (ir_resize_table t km).2 := by
  obtain ⟨h1, h2, h3, h4, h5⟩ := h
  have e3 : (t.len * 3) % UINT_MOD = t.len * 3 := by
    unfold SIZEOF_IR_SCANCODE UINT_MOD at *
    exact Nat.mod_eq_of_lt (by omega)
  unfold ir_resize_table
  simp only []
  rw [e3]
  split_ifs with c1 c2 c3 c4 c5 c6 c7 c8
  all_goals first
    | exact ⟨h1, h2, h3, h4, h5⟩
    | (cases km with
       | none => exact ⟨h1, h2, h3, h4, h5⟩
       | some junk =>
         unfold SIZEOF_IR_SCANCODE UINT_MOD IR_TAB_MAX_SIZE IR_TAB_MIN_SIZE at *
         refine ⟨?_, ?_, rfl, ?_, ?_⟩
         · show t.len ≤ _
           simp only []
           omega
         · show (memcpy _ _ _).length = _
           rw [memcpy_length]
           · simp [fresh_block]
           · omega
           · simp [fresh_block]; omega
         · show 8 ≤ _
           simp only []
           omega
         · show _ < 4294967296
           simp only []
           omega)

theorem resize_grow (t : ir_scancode_table) (km : kmalloc_result) (h : table_ok t)
    (hfull : t.size = t.len) (hret : (ir_resize_table t km).1 = 0) :
    t.len < (ir_resize_table t km).2.size := by
  obtain ⟨h1, h2, h3, h4, h5⟩ := h
  have e3 : (t.len * 3) % UINT_MOD = t.len * 3 := by
    unfold SIZEOF_IR_SCANCODE UINT_MOD at *
    exact Nat.mod_eq_of_lt (by omega)
  revert hret
  unfold ir_resize_table
  simp only []
  rw [e3]
  unfold SIZEOF_IR_SCANCODE UINT_MOD IR_TAB_MAX_SIZE IR_TAB_MIN_SIZE ENOMEM at *
  split_ifs with c1 c2 c3 c4
  all_goals first
    | (exfalso; omega)
    | (intro hret; simp at hret)
    | (cases km with
       | none => intro hret; simp at hret
       | some junk => intro _; show t.len < _ / 8; omega)

/-! ## Find-or-create -/

theorem getD_entries (t : ir_scancode_table) (j : Nat) (hj : j < t.len)
    (hlen : t.len ≤ t.scan.length) :
    ∃ hj2 : j < (entries t).length, (entries t)[j] = t.scan.getD j default := by
  have hj2 : j < (entries t).length := by
    unfold entries; rw [List.length_take]; omega
  refine ⟨hj2, ?_⟩
  rw [List.getD_eq_getElem _ _ (by omega)]
  unfold entries
  rw [List.getElem_take]

theorem entries_length (t : ir_scancode_table) (hlen : t.len ≤ t.scan.length) :
    (entries t).length = t.len := by
  unfold entries; rw [List.length_take]; omega

theorem mem_entries_iff (t : ir_scancode_table) (hlen : t.len ≤ t.scan.length)
    (e : ir_scancode) :
    e ∈ entries t ↔ ∃ j, j < t.len ∧ t.scan.getD j default = e := by
  constructor
  · intro he
    obtain ⟨j, hj, hje⟩ := List.getElem_of_mem he
    rw [entries_length t hlen] at hj
    obtain ⟨_, h2⟩ := getD_entries t j hj hlen
    exact ⟨j, hj, by rw [← h2]; exact hje⟩
  · rintro ⟨j, hj, hje⟩
    obtain ⟨hj2, h2⟩ := getD_entries t j hj hlen
    rw [← hje, ← h2]
    exact List.getElem_mem hj2

theorem establish_loop_spec (scan : List ir_scancode) (S : Nat) :
    ∀ n k, k ≤ (establish_loop scan S n k).2 ∧ (establish_loop scan S n k).2 ≤ k + n ∧
      (∀ j, k ≤ j → j < (establish_loop scan S n k).2 → (scan.getD j default).scancode < S) ∧
      ((establish_loop scan S n k).1 = true →
        (establish_loop scan S n k).2 < k + n ∧
          (scan.getD (establish_loop scan S n k).2 default).scancode = S) ∧
      ((establish_loop scan S n k).1 = false → (establish_loop scan S n k).2 < k + n →
        S < (scan.getD (establish_loop scan S n k).2 default).scancode) := by
  intro n
  induction n with
  | zero =>
    intro k
    simp [establish_loop]
    intro j h1 h2
    omega
  | succ n ih =>
    intro k
    unfold establish_loop
    by_cases h1 : (scan.getD k default).scancode = S
    · rw [if_pos h1]
      refine ⟨le_refl _, by omega, fun j a b => by omega, fun _ => ⟨by omega, h1⟩, ?_⟩
      intro hf
      simp at hf
    · rw [if_neg h1]
      by_cases h2 : (scan.getD k default).scancode ≥ S
      · rw [if_pos h2]
        refine ⟨le_refl _, by omega, fun j a b => by omega, ?_, fun _ _ => ?_⟩
        · intro hf
          simp at hf
        · show S < (scan.getD k default).scancode
          omega
      · rw [if_neg h2]
        obtain ⟨a1, a2, a3, a4, a5⟩ := ih (k + 1)
        refine ⟨by omega, by omega, ?_, ?_, ?_⟩
        · intro j hj1 hj2
          by_cases hjk : j = k
          · subst hjk; omega
          · exact a3 j (by omega) hj2
        · intro hb
          obtain ⟨b1, b2⟩ := a4 hb
          exact ⟨by omega, b2⟩
        · intro hb hlt
          exact a5 hb (by omega)

/-- Inserting a scancode at the place the search loop stopped keeps the
entries strictly ascending. -/
theorem ascending_insert (l : List ir_scancode) (i : Nat) (e : ir_scancode)
    (hs : ascending l) (hi : i ≤ l.length)
    (hlo : ∀ j (hj : j < l.length), j < i → (l.get ⟨j, hj⟩).scancode < e.scancode)
    (hhi : ∀ hj : i < l.length, e.scancode < (l.get ⟨i, hj⟩).scancode) :
    ascending (l.take i ++ e :: l.drop i) := by
  unfold ascending at *
  rw [List.pairwise_append]
  refine ⟨hs.sublist (List.take_sublist _ _), ?_, ?_⟩
  · rw [List.pairwise_cons]
    refine ⟨?_, hs.sublist (List.drop_sublist _ _)⟩
    intro b hb
    obtain ⟨j, hj, hjb⟩ := List.getElem_of_mem hb
    rw [List.length_drop] at hj
    rw [List.getElem_drop] at hjb
    have hil : i < l.length := by omega
    have h0 := hhi hil
    by_cases hj0 : j = 0
    · subst hj0
      rw [← hjb]
      simpa using h0
    · have := List.pairwise_iff_getElem.mp hs i (i + j) hil (by omega) (by omega)
      rw [← hjb]
      simp only [List.get_eq_getElem] at h0
      omega
  · intro a ha b hb
    obtain ⟨j, hj, hja⟩ := List.getElem_of_mem ha
    rw [List.length_take] at hj
    rw [List.getElem_take] at hja
    have hja2 := hlo j (by omega) (by omega)
    simp only [List.get_eq_getElem] at hja2
    rw [hja] at hja2
    rcases List.mem_cons.mp hb with hbe | hbd
    · rw [hbe]; exact hja2
    · obtain ⟨k, hk, hkb⟩ := List.getElem_of_mem hbd
      rw [List.length_drop] at hk
      rw [List.getElem_drop] at hkb
      have := List.pairwise_iff_getElem.mp hs j (i + k) (by omega) (by omega) (by omega)
      rw [hja, hkb] at this
      exact this

theorem insert_at_spec (t : ir_scancode_table) (i S : Nat) (h : table_ok t)
    (hroom : t.len < t.size) (hi : i ≤ t.len) :
    table_ok (insert_at t i S) ∧ (insert_at t i S).len = t.len + 1 ∧
      (insert_at t i S).size = t.size ∧ (insert_at t i S).alloc = t.alloc ∧
      entries (insert_at t i S) =
        (entries t).take i ++ ⟨S, KEY_RESERVED⟩ :: (entries t).drop i := by
  obtain ⟨h1, h2, h3, h4, h5⟩ := h
  have hlen : t.len < t.scan.length := by omega
  obtain ⟨m1, m2⟩ := memmove_insert t.scan i t.len ⟨S, KEY_RESERVED⟩ hi hlen
  have hmod : (t.len + 1) % UINT_MOD = t.len + 1 := by
    unfold SIZEOF_IR_SCANCODE UINT_MOD at *
    exact Nat.mod_eq_of_lt (by omega)
  refine ⟨⟨?_, ?_, h3, h4, h5⟩, hmod, rfl, rfl, ?_⟩
  · show (t.len + 1) % UINT_MOD ≤ t.size
    rw [hmod]; omega
  · show ((if i < t.len then memmove t.scan (i + 1) i (t.len - i) else t.scan).set i
      ⟨S, KEY_RESERVED⟩).length = t.size
    rw [m1, h2]
  · show List.take ((t.len + 1) % UINT_MOD) ((if i < t.len then
      memmove t.scan (i + 1) i (t.len - i) else t.scan).set i ⟨S, KEY_RESERVED⟩) = _
    rw [hmod, m2]
    rfl

theorem establish_found (props : Option ir_dev_props) (t : ir_scancode_table)
    (S : Nat) (resize : Bool) (km : kmalloc_result) (i : Nat)
    (hl : establish_loop t.scan (apply_scanmask props S) t.len 0 = (true, i)) :
    ir_establish_scancode props t S resize km = (i, t) := by
  unfold ir_establish_scancode
  simp only [hl]

theorem establish_full (props : Option ir_dev_props) (t : ir_scancode_table)
    (S : Nat) (resize : Bool) (km : kmalloc_result) (i : Nat)
    (hl : establish_loop t.scan (apply_scanmask props S) t.len 0 = (false, i))
    (hfull : t.size = t.len)
    (hno : resize = false ∨ (ir_resize_table t km).1 ≠ 0) :
    ir_establish_scancode props t S resize km = (MINUS_ONE_U, t) := by
  unfold ir_establish_scancode
  simp only [hl, if_pos hfull, if_pos hno]

theorem establish_room (props : Option ir_dev_props) (t : ir_scancode_table)
    (S : Nat) (resize : Bool) (km : kmalloc_result) (i : Nat)
    (hl : establish_loop t.scan (apply_scanmask props S) t.len 0 = (false, i))
    (hroom : t.size ≠ t.len) :
    ir_establish_scancode props t S resize km =
      (i, insert_at t i (apply_scanmask props S)) := by
  unfold ir_establish_scancode insert_at
  simp only [hl, if_neg hroom]

theorem establish_grow (props : Option ir_dev_props) (t : ir_scancode_table)
    (S : Nat) (resize : Bool) (km : kmalloc_result) (i : Nat)
    (hl : establish_loop t.scan (apply_scanmask props S) t.len 0 = (false, i))
    (hfull : t.size = t.len)
    (hyes : ¬ (resize = false ∨ (ir_resize_table t km).1 ≠ 0)) :
    ir_establish_scancode props t S resize km =
      (i, insert_at (ir_resize_table t km).2 i (apply_scanmask props S)) := by
  unfold ir_establish_scancode insert_at
  simp only [hl, if_pos hfull, if_neg hyes]

theorem ascending_get_lt (t : ir_scancode_table) (hlen : t.len ≤ t.scan.length)
    (hs : ascending (entries t)) (i j : Nat) (hij : i < j) (hj : j < t.len) :
    (t.scan.getD i default).scancode < (t.scan.getD j default).scancode := by
  obtain ⟨hi2, e1⟩ := getD_entries t i (by omega) hlen
  obtain ⟨hj2, e2⟩ := getD_entries t j hj hlen
  have := List.pairwise_iff_getElem.mp hs i j hi2 hj2 hij
  rw [e1, e2] at this
  exact this

/-- When the search loop leaves without a match on an ascending table, the
scancode is not in the table. -/
theorem loop_false_absent (t : ir_scancode_table) (S i : Nat)
    (hlen : t.len ≤ t.scan.length) (hs : ascending (entries t))
    (hl : establish_loop t.scan S t.len 0 = (false, i)) :
    ∀ e ∈ entries t, e.scancode ≠ S := by
  intro e he
  obtain ⟨j, hj, hje⟩ := (mem_entries_iff t hlen e).mp he
  obtain ⟨a1, a2, a3, a4, a5⟩ := establish_loop_spec t.scan S t.len 0
  rw [hl] at a1 a2 a3 a4 a5
  simp only [] at a1 a2 a3 a4 a5
  rw [← hje]
  by_cases hji : j < i
  · have := a3 j (by omega) hji
    omega
  · have h1 := a5 trivial (by omega)
    by_cases hji2 : j = i
    · subst hji2; omega
    · have := ascending_get_lt t hlen hs i j (by omega) hj
      omega

/-- When the scancode is not in the table, the search loop leaves without a
match. -/
theorem loop_absent_false (t : ir_scancode_table) (S : Nat)
    (hlen : t.len ≤ t.scan.length) (hno : ∀ e ∈ entries t, e.scancode ≠ S) :
    ∃ i, establish_loop t.scan S t.len 0 = (false, i) ∧ i ≤ t.len := by
  obtain ⟨a1, a2, a3, a4, a5⟩ := establish_loop_spec t.scan S t.len 0
  rcases hl : establish_loop t.scan S t.len 0 with ⟨b, i⟩
  rw [hl] at a1 a2 a3 a4 a5
  simp only [] at a1 a2 a3 a4 a5
  cases b with
  | false => exact ⟨i, rfl, by omega⟩
  | true =>
    exfalso
    obtain ⟨b1, b2⟩ := a4 rfl
    exact hno _ ((mem_entries_iff t hlen _).mpr ⟨i, by omega, rfl⟩) b2

theorem loop_false_bounds (t : ir_scancode_table) (S i : Nat)
    (hlen : t.len ≤ t.scan.length)
    (hl : establish_loop t.scan S t.len 0 = (false, i)) :
    loop_bounds (entries t) S i := by
  obtain ⟨a1, a2, a3, a4, a5⟩ := establish_loop_spec t.scan S t.len 0
  rw [hl] at a1 a2 a3 a4 a5
  simp only [] at a1 a2 a3 a4 a5
  have hel := entries_length t hlen
  refine ⟨by omega, ?_, ?_⟩
  · intro j hj hji
    obtain ⟨_, e1⟩ := getD_entries t j (by omega) hlen
    rw [List.get_eq_getElem, e1]
    exact a3 j (by omega) hji
  · intro hj
    obtain ⟨_, e1⟩ := getD_entries t i (by omega) hlen
    rw [List.get_eq_getElem, e1]
    exact a5 trivial (by omega)

theorem insert_at_ascending (t : ir_scancode_table) (S i : Nat) (h : table_ok t)
    (hroom : t.len < t.size) (hs : ascending (entries t))
    (hb : loop_bounds (entries t) S i) :
    ascending (entries (insert_at t i S)) := by
  have hlen := (table_ok_len_le t h).1
  have hel := entries_length t hlen
  obtain ⟨b1, b2, b3⟩ := hb
  rw [(insert_at_spec t i S h hroom (by omega)).2.2.2.2]
  exact ascending_insert _ _ _ hs b1 b2 b3

/-- Classification of the outcomes of `ir_establish_scancode` on a table that
satisfies the representation invariant: the scancode is found, the insertion
is refused because the table is full and may not or cannot grow, or a new
entry is inserted at the returned index. -/
theorem establish_cases (props : Option ir_dev_props) (t : ir_scancode_table)
    (S : Nat) (resize : Bool) (km : kmalloc_result) (h : table_ok t) :
    ((ir_establish_scancode props t S resize km).1 < t.len ∧
      (ir_establish_scancode props t S resize km).2 = t ∧
      (t.scan.getD (ir_establish_scancode props t S resize km).1 default).scancode
        = apply_scanmask props S) ∨
    (ir_establish_scancode props t S resize km = (MINUS_ONE_U, t) ∧ t.size = t.len ∧
      (resize = false ∨ (ir_resize_table t km).1 ≠ 0) ∧
      (ascending (entries t) → ∀ e ∈ entries t, e.scancode ≠ apply_scanmask props S)) ∨
    ((ir_establish_scancode props t S resize km).1 ≤ t.len ∧
      table_ok (ir_establish_scancode props t S resize km).2 ∧
      (ir_establish_scancode props t S resize km).2.len = t.len + 1 ∧
      entries (ir_establish_scancode props t S resize km).2 =
        (entries t).take (ir_establish_scancode props t S resize km).1 ++
          ⟨apply_scanmask props S, KEY_RESERVED⟩ ::
            (entries t).drop (ir_establish_scancode props t S resize km).1 ∧
      (t.size = t.len → resize = true ∧ (ir_resize_table t km).1 = 0) ∧
      (ascending (entries t) →
        ascending (entries (ir_establish_scancode props t S resize km).2) ∧
        ∀ e ∈ entries t, e.scancode ≠ apply_scanmask props S)) := by
  have hlen := (table_ok_len_le t h).1
  obtain ⟨a1, a2, a3, a4, a5⟩ := establish_loop_spec t.scan (apply_scanmask props S) t.len 0
  rcases hl : establish_loop t.scan (apply_scanmask props S) t.len 0 with ⟨b, i⟩
  rw [hl] at a1 a2 a3 a4 a5
  simp only [] at a1 a2 a3 a4 a5
  cases b with
  | true =>
    left
    rw [establish_found props t S resize km i hl]
    obtain ⟨b1, b2⟩ := a4 rfl
    exact ⟨by simpa using b1, rfl, b2⟩
  | false =>
    right
    by_cases hfull : t.size = t.len
    · by_cases hno : resize = false ∨ (ir_resize_table t km).1 ≠ 0
      · left
        rw [establish_full props t S resize km i hl hfull hno]
        exact ⟨rfl, hfull, hno, fun hs => loop_false_absent t _ i hlen hs hl⟩
      · right
        rw [establish_grow props t S resize km i hl hfull hno]
        have hres : resize = true ∧ (ir_resize_table t km).1 = 0 := by
          constructor
          · cases resize with
            | true => rfl
            | false => exact absurd (Or.inl rfl) hno
          · by_contra hc
            exact hno (Or.inr hc)
        have hok := resize_ok t km h
        have hg := resize_grow t km h hfull hres.2
        have hrl := resize_len t km
        have hre := resize_entries t km hlen
        obtain ⟨s1, s2, s3, s4, s5⟩ := insert_at_spec (ir_resize_table t km).2 i
          (apply_scanmask props S) hok (by omega) (by omega)
        refine ⟨by simpa using a2, s1, by rw [s2, hrl], by rw [s5, hre], fun _ => hres,
          fun hs => ⟨?_, loop_false_absent t _ i hlen hs hl⟩⟩
        apply insert_at_ascending _ _ _ hok (by omega) (by rw [hre]; exact hs)
        rw [hre]
        exact loop_false_bounds t _ i hlen hl
    · right
      rw [establish_room props t S resize km i hl hfull]
      obtain ⟨h1, h2, h3, h4, h5⟩ := h
      obtain ⟨s1, s2, s3, s4, s5⟩ := insert_at_spec t i
        (apply_scanmask props S) ⟨h1, h2, h3, h4, h5⟩ (by omega) (by omega)
      exact ⟨by simpa using a2, s1, s2, s5, fun hc => absurd hc hfull,
        fun hs => ⟨insert_at_ascending t _ i ⟨h1, h2, h3, h4, h5⟩ (by omega) hs
            (loop_false_bounds t _ i hlen hl),
          loop_false_absent t _ i hlen hs hl⟩⟩

/-! ## Updating a mapping -/

theorem keycode_in_use_iff (t : ir_scancode_table) (hlen : t.len ≤ t.scan.length) (k : Nat) :
    keycode_in_use t.scan t.len k = true ↔ ∃ e ∈ entries t, e.keycode = k := by
  unfold keycode_in_use
  rw [List.any_eq_true]
  constructor
  · rintro ⟨j, hj, hjk⟩
    rw [List.mem_range] at hj
    exact ⟨_, (mem_entries_iff t hlen _).mpr ⟨j, hj, rfl⟩, by simpa using hjk⟩
  · rintro ⟨e, he, hek⟩
    obtain ⟨j, hj, hje⟩ := (mem_entries_iff t hlen e).mp he
    exact ⟨j, List.mem_range.mpr hj, by rw [hje]; simpa using hek⟩

theorem delete_at_spec (t : ir_scancode_table) (index : Nat) (h : table_ok t)
    (hi : index < t.len) :
    table_ok (delete_at t index) ∧ (delete_at t index).len = t.len - 1 ∧
      (delete_at t index).size = t.size ∧
      entries (delete_at t index) = (entries t).eraseIdx index := by
  obtain ⟨h1, h2, h3, h4, h5⟩ := h
  have hmod : uint_sub t.len 1 = t.len - 1 := by
    unfold uint_sub
    rw [if_pos (by omega)]
  obtain ⟨m1, m2⟩ := memmove_delete t.scan index t.len hi (by omega)
  unfold delete_at
  rw [hmod]
  refine ⟨⟨?_, ?_, h3, h4, h5⟩, rfl, rfl, ?_⟩
  · show t.len - 1 ≤ t.size
    omega
  · show (memmove t.scan index (index + 1) (t.len - 1 - index)).length = t.size
    rw [m1, h2]
  · exact m2

theorem overwrite_at_spec (t : ir_scancode_table) (index k : Nat) (h : table_ok t) :
    table_ok (overwrite_at t index k) ∧ (overwrite_at t index k).len = t.len ∧
      (overwrite_at t index k).size = t.size ∧
      entries (overwrite_at t index k) =
        (entries t).set index ⟨(t.scan.getD index default).scancode, k⟩ := by
  obtain ⟨h1, h2, h3, h4, h5⟩ := h
  unfold overwrite_at
  refine ⟨⟨h1, ?_, h3, h4, h5⟩, rfl, rfl, ?_⟩
  · show (t.scan.set index _).length = t.size
    rw [List.length_set, h2]
  · show List.take t.len (t.scan.set index _) = (List.take t.len t.scan).set index _
    rw [List.set_take]

theorem update_mapping_eq (kb : Finset Nat) (t : ir_scancode_table)
    (index k : Nat) (km : kmalloc_result) :
    ir_update_mapping kb t index k km =
      (if (t.scan.getD index default).keycode ≠ KEY_RESERVED then
        if k = KEY_RESERVED ∨ k = KEY_UNKNOWN then
          ((t.scan.getD index default).keycode,
           (if keycode_in_use (delete_at t index).scan (delete_at t index).len
                (t.scan.getD index default).keycode
            then insert (t.scan.getD index default).keycode
              (kb.erase (t.scan.getD index default).keycode)
            else kb.erase (t.scan.getD index default).keycode),
           (ir_resize_table (delete_at t index) km).2)
        else
          ((t.scan.getD index default).keycode,
           (if keycode_in_use (overwrite_at t index k).scan (overwrite_at t index k).len
                (t.scan.getD index default).keycode
            then insert (t.scan.getD index default).keycode
              ((insert k kb).erase (t.scan.getD index default).keycode)
            else (insert k kb).erase (t.scan.getD index default).keycode),
           (ir_resize_table (overwrite_at t index k) km).2)
      else
        if k = KEY_RESERVED ∨ k = KEY_UNKNOWN then
          ((t.scan.getD index default).keycode, kb, delete_at t index)
        else
          ((t.scan.getD index default).keycode, insert k kb, overwrite_at t index k)) := by
  unfold ir_update_mapping delete_at overwrite_at
  simp only []
  split_ifs <;> rfl

/-- The table part of the effect of `ir_update_mapping` at a valid index. -/
theorem update_mapping_table (kb : Finset Nat) (t : ir_scancode_table)
    (index k : Nat) (km : kmalloc_result) (h : table_ok t) (hi : index < t.len) :
    (ir_update_mapping kb t index k km).1 = (t.scan.getD index default).keycode ∧
    table_ok (ir_update_mapping kb t index k km).2.2 ∧
    (ir_update_mapping kb t index k km).2.2.len =
      (if k = KEY_RESERVED ∨ k = KEY_UNKNOWN then t.len - 1 else t.len) ∧
    entries (ir_update_mapping kb t index k km).2.2 =
      (if k = KEY_RESERVED ∨ k = KEY_UNKNOWN then (entries t).eraseIdx index
       else (entries t).set index ⟨(t.scan.getD index default).scancode, k⟩) := by
  obtain ⟨d1, d2, d3, d4⟩ := delete_at_spec t index h hi
  obtain ⟨o1, o2, o3, o4⟩ := overwrite_at_spec t index k h
  rw [update_mapping_eq]
  by_cases hold : (t.scan.getD index default).keycode ≠ KEY_RESERVED
  · rw [if_pos hold]
    by_cases hk : k = KEY_RESERVED ∨ k = KEY_UNKNOWN
    · simp only [if_pos hk]
      exact ⟨trivial, resize_ok _ km d1, by rw [resize_len, d2],
        by rw [resize_entries _ km (table_ok_len_le _ d1).1, d4]⟩
    · simp only [if_neg hk]
      exact ⟨trivial, resize_ok _ km o1, by rw [resize_len, o2],
        by rw [resize_entries _ km (table_ok_len_le _ o1).1, o4]⟩
  · rw [if_neg hold]
    by_cases hk : k = KEY_RESERVED ∨ k = KEY_UNKNOWN
    · simp only [if_pos hk]
      exact ⟨trivial, d1, d2, d4⟩
    · simp only [if_neg hk]
      exact ⟨trivial, o1, o2, o4⟩

/-- The bitmap part of the effect of `ir_update_mapping` at a valid index. -/
theorem update_mapping_keybit (kb : Finset Nat) (t : ir_scancode_table)
    (index k : Nat) (km : kmalloc_result) (h : table_ok t) (hi : index < t.len) :
    (ir_update_mapping kb t index k km).2.1 =
      (if (t.scan.getD index default).keycode ≠ KEY_RESERVED then
        if ∃ e ∈ entries (ir_update_mapping kb t index k km).2.2,
            e.keycode = (t.scan.getD index default).keycode then
          insert (t.scan.getD index default).keycode
            ((if k = KEY_RESERVED ∨ k = KEY_UNKNOWN then kb else insert k kb).erase
              (t.scan.getD index default).keycode)
        else (if k = KEY_RESERVED ∨ k = KEY_UNKNOWN then kb else insert k kb).erase
          (t.scan.getD index default).keycode
      else (if k = KEY_RESERVED ∨ k = KEY_UNKNOWN then kb else insert k kb)) := by
  obtain ⟨d1, d2, d3, d4⟩ := delete_at_spec t index h hi
  obtain ⟨o1, o2, o3, o4⟩ := overwrite_at_spec t index k h
  rw [update_mapping_eq]
  by_cases hold : (t.scan.getD index default).keycode ≠ KEY_RESERVED
  · rw [if_pos hold, if_pos hold]
    by_cases hk : k = KEY_RESERVED ∨ k = KEY_UNKNOWN
    · simp only [if_pos hk]
      rw [resize_entries _ km (table_ok_len_le _ d1).1]
      by_cases hu : ∃ e ∈ entries (delete_at t index),
          e.keycode = (t.scan.getD index default).keycode
      · rw [if_pos hu, if_pos ((keycode_in_use_iff _ (table_ok_len_le _ d1).1 _).mpr hu)]
      · rw [if_neg hu, if_neg (fun hc => hu ((keycode_in_use_iff _ (table_ok_len_le _ d1).1 _).mp hc))]
    · simp only [if_neg hk]
      rw [resize_entries _ km (table_ok_len_le _ o1).1]
      by_cases hu : ∃ e ∈ entries (overwrite_at t index k),
          e.keycode = (t.scan.getD index default).keycode
      · rw [if_pos hu, if_pos ((keycode_in_use_iff _ (table_ok_len_le _ o1).1 _).mpr hu)]
      · rw [if_neg hu, if_neg (fun hc => hu ((keycode_in_use_iff _ (table_ok_len_le _ o1).1 _).mp hc))]
  · rw [if_neg hold, if_neg hold]
    by_cases hk : k = KEY_RESERVED ∨ k = KEY_UNKNOWN
    · simp only [if_pos hk]
    · simp only [if_neg hk]

theorem ascending_eraseIdx (l : List ir_scancode) (i : Nat) (hs : ascending l) :
    ascending (l.eraseIdx i) :=
  List.Pairwise.sublist (List.eraseIdx_sublist l i) hs

theorem ascending_set_keycode (l : List ir_scancode) (i k : Nat) (e : ir_scancode)
    (hs : ascending l) (he : ∀ hi : i < l.length, (l.get ⟨i, hi⟩).scancode = e.scancode) :
    ascending (l.set i ⟨e.scancode, k⟩) := by
  unfold ascending at *
  have hm : (l.set i ⟨e.scancode, k⟩).map ir_scancode.scancode = l.map ir_scancode.scancode := by
    apply List.ext_getElem
    · simp
    · intro n h1 h2
      simp only [List.getElem_map, List.getElem_set]
      split_ifs with hc
      · subst hc
        have := he (by simpa using h1)
        simp only [List.get_eq_getElem] at this
        exact this.symm
      · rfl
  have h1 : (l.map ir_scancode.scancode).Pairwise (· < ·) := by
    rw [List.pairwise_map]; exact hs
  rw [← hm, List.pairwise_map] at h1
  exact h1

theorem update_mapping_ascending (kb : Finset Nat) (t : ir_scancode_table)
    (index k : Nat) (km : kmalloc_result) (h : table_ok t) (hi : index < t.len)
    (hs : ascending (entries t)) :
    ascending (entries (ir_update_mapping kb t index k km).2.2) := by
  rw [(update_mapping_table kb t index k km h hi).2.2.2]
  split_ifs
  · exact ascending_eraseIdx _ _ hs
  · apply ascending_set_keycode _ _ _ (t.scan.getD index default) hs
    intro hi2
    obtain ⟨_, e1⟩ := getD_entries t index hi (table_ok_len_le t h).1
    rw [List.get_eq_getElem, e1]

/-! ## Binary search -/

theorem lookup_loop_spec (scan : List ir_scancode) (S len : Nat)
    (hbig : len ≤ 1073741824)
    (hs : ∀ i j, i < j → j < len →
      (scan.getD i default).scancode < (scan.getD j default).scancode) :
    ∀ (fuel : Nat) (start stop : Int), 0 ≤ start → stop < len → start ≤ stop + 1 →
      stop - start + 1 < fuel →
      (∀ j : Nat, j < len → (j : Int) < start → (scan.getD j default).scancode < S) →
      (∀ j : Nat, j < len → stop < (j : Int) → S < (scan.getD j default).scancode) →
      ∃ r, lookup_loop scan S fuel start stop = some r ∧
        ((r < len ∧ (scan.getD r default).scancode = S) ∨
         (r = MINUS_ONE_U ∧ ∀ j, j < len → (scan.getD j default).scancode ≠ S)) := by
  intro fuel
  induction fuel with
  | zero =>
    intro start stop h0 h1 h2 h3
    omega
  | succ fuel ih =>
    intro start stop h0 h1 h2 h3 hlo hhi
    unfold lookup_loop
    by_cases hc : start ≤ stop
    · rw [if_pos hc]
      have hmid : Int.tdiv (start + stop) 2 = (start + stop) / 2 :=
        Int.tdiv_eq_ediv (by omega) (by omega)
      simp only [hmid]
      have hm0 : 0 ≤ (start + stop) / 2 := by omega
      have hmn : (((start + stop) / 2).toNat : Int) = (start + stop) / 2 := Int.toNat_of_nonneg hm0
      have hml : ((start + stop) / 2).toNat < len := by omega
      by_cases c1 : (scan.getD ((start + stop) / 2).toNat default).scancode < S
      · rw [if_pos c1]
        apply ih _ _ (by omega) h1 (by omega) (by omega) _ hhi
        intro j hj hjm
        by_cases hjeq : j = ((start + stop) / 2).toNat
        · rw [hjeq]; exact c1
        · have := hs j ((start + stop) / 2).toNat (by omega) hml
          omega
      · rw [if_neg c1]
        by_cases c2 : (scan.getD ((start + stop) / 2).toNat default).scancode > S
        · rw [if_pos c2]
          apply ih _ _ h0 (by omega) (by omega) (by omega) hlo
          intro j hj hjm
          by_cases hjeq : j = ((start + stop) / 2).toNat
          · rw [hjeq]; exact c2
          · have := hs ((start + stop) / 2).toNat j (by omega) hj
            omega
        · rw [if_neg c2]
          refine ⟨_, rfl, Or.inl ?_⟩
          have hu : uint_of_int ((start + stop) / 2) = ((start + stop) / 2).toNat := by
            unfold uint_of_int
            congr 1
            omega
          rw [hu]
          exact ⟨hml, by omega⟩
    · rw [if_neg hc]
      refine ⟨_, rfl, Or.inr ⟨rfl, ?_⟩⟩
      intro j hj
      by_cases hjs : (j : Int) < start
      · have := hlo j hj hjs
        omega
      · have := hhi j hj (by omega)
        omega

/-- Correctness of `ir_lookup_by_scancode` on an ascending table: the loop
ends within its fuel, with the index of the scancode if it is in the table
and with `-1U` otherwise. -/
theorem lookup_spec (t : ir_scancode_table) (S : Nat) (hlen : t.len ≤ t.scan.length)
    (hbig : t.len ≤ 1073741824) (hs : ascending (entries t)) :
    ∃ r, ir_lookup_by_scancode t S = some r ∧
      ((r < t.len ∧ (t.scan.getD r default).scancode = S) ∨
       (r = MINUS_ONE_U ∧ ∀ e ∈ entries t, e.scancode ≠ S)) := by
  unfold ir_lookup_by_scancode
  have hstop : int_of_uint (uint_sub t.len 1) = (t.len : Int) - 1 := by
    by_cases h0 : t.len = 0
    · rw [h0]; decide
    · have hsub : uint_sub t.len 1 = t.len - 1 := by
        unfold uint_sub
        rw [if_pos (by omega)]
      unfold int_of_uint
      rw [hsub, if_pos (by omega)]
      omega
  rw [hstop]
  obtain ⟨r, hr, hcase⟩ := lookup_loop_spec t.scan S t.len hbig
    (fun i j hij hj => ascending_get_lt t hlen hs i j hij hj)
    (t.len + 1) 0 ((t.len : Int) - 1) (le_refl _) (by omega) (by omega) (by push_cast; omega)
    (fun j _ hj => by omega) (fun j hj hj2 => by omega)
  refine ⟨r, hr, ?_⟩
  rcases hcase with hfound | ⟨hr1, hno⟩
  · exact Or.inl hfound
  · refine Or.inr ⟨hr1, ?_⟩
    intro e he
    obtain ⟨j, hj, hje⟩ := (mem_entries_iff t hlen e).mp he
    rw [← hje]
    exact hno j hj

/-- On an ascending table a scancode occurs at one index only. -/
theorem ascending_index_unique (t : ir_scancode_table) (hlen : t.len ≤ t.scan.length)
    (hs : ascending (entries t)) (i j : Nat) (hi : i < t.len) (hj : j < t.len)
    (he : (t.scan.getD i default).scancode = (t.scan.getD j default).scancode) : i = j := by
  rcases Nat.lt_trichotomy i j with h | h | h
  · have := ascending_get_lt t hlen hs i j h hj
    omega
  · exact h
  · have := ascending_get_lt t hlen hs j i h hi
    omega

/-- The lookup finds exactly the index that holds the scancode. -/
theorem lookup_found (t : ir_scancode_table) (S i : Nat) (hlen : t.len ≤ t.scan.length)
    (hbig : t.len ≤ 1073741824) (hs : ascending (entries t)) (hi : i < t.len)
    (he : (t.scan.getD i default).scancode = S) :
    ir_lookup_by_scancode t S = some i := by
  obtain ⟨r, hr, hcase⟩ := lookup_spec t S hlen hbig hs
  rcases hcase with ⟨h1, h2⟩ | ⟨_, hno⟩
  · rw [hr, ascending_index_unique t hlen hs r i h1 hi (by rw [h2, he])]
  · exact absurd he (hno _ ((mem_entries_iff t hlen _).mpr ⟨i, hi, rfl⟩))

/-- The lookup of a scancode that is not in the table returns `-1U`. -/
theorem lookup_absent (t : ir_scancode_table) (S : Nat) (hlen : t.len ≤ t.scan.length)
    (hbig : t.len ≤ 1073741824) (hs : ascending (entries t))
    (hno : ∀ e ∈ entries t, e.scancode ≠ S) :
    ir_lookup_by_scancode t S = some MINUS_ONE_U := by
  obtain ⟨r, hr, hcase⟩ := lookup_spec t S hlen hbig hs
  rcases hcase with ⟨h1, h2⟩ | ⟨h1, _⟩
  · exact absurd h2 (hno _ ((mem_entries_iff t hlen _).mpr ⟨r, h1, rfl⟩))
  · rw [hr, h1]

/-! ## Creation and operation sequences -/

theorem roundup_from_spec (n : Nat) :
    ∀ fuel p, 0 < p → p < 2 * n → n ≤ p * 2 ^ fuel →
      n ≤ roundup_from n fuel p ∧ roundup_from n fuel p < 2 * n := by
  intro fuel
  induction fuel with
  | zero =>
    intro p _ h2 h3
    simp [roundup_from] at *
    omega
  | succ fuel ih =>
    intro p h1 h2 h3
    unfold roundup_from
    by_cases hc : n ≤ p
    · rw [if_pos hc]; omega
    · rw [if_neg hc]
      apply ih (2 * p) (by omega) (by omega)
      rw [pow_succ] at h3
      calc n ≤ p * (2 ^ fuel * 2) := h3
        _ = 2 * p * 2 ^ fuel := by ring

theorem roundup_pow_of_two_spec (n : Nat) (hn : 1 ≤ n) :
    n ≤ roundup_pow_of_two n ∧ roundup_pow_of_two n < 2 * n := by
  unfold roundup_pow_of_two
  apply roundup_from_spec n n 1 (by omega) (by omega)
  have := Nat.lt_two_pow n
  omega

theorem create_ok (rc_tab : ir_scancode_table) (name : String) (ir_type n : Nat)
    (junk : Nat → ir_scancode) (hn : 1 ≤ n) (hn2 : n ≤ 268435456) (h0 : rc_tab.len = 0) :
    table_ok (ir_create_table rc_tab name ir_type n (some junk)).2 ∧
      (ir_create_table rc_tab name ir_type n (some junk)).2.len = 0 := by
  obtain ⟨r1, r2⟩ := roundup_pow_of_two_spec (n * SIZEOF_IR_SCANCODE)
    (by unfold SIZEOF_IR_SCANCODE; omega)
  unfold ir_create_table table_ok
  simp only []
  unfold SIZEOF_IR_SCANCODE UINT_MOD at *
  have hm : roundup_pow_of_two (n * 8) % 4294967296 = roundup_pow_of_two (n * 8) :=
    Nat.mod_eq_of_lt (by omega)
  rw [hm, h0]
  refine ⟨⟨Nat.zero_le _, ?_, trivial, by omega, by omega⟩, rfl⟩
  simp [fresh_block]

theorem establish_inv (props : Option ir_dev_props) (t : ir_scancode_table)
    (S : Nat) (resize : Bool) (km : kmalloc_result) (h : table_ok t)
    (hs : ascending (entries t)) :
    table_ok (ir_establish_scancode props t S resize km).2 ∧
      ascending (entries (ir_establish_scancode props t S resize km).2) := by
  rcases establish_cases props t S resize km h with ⟨_, h2, _⟩ | ⟨h1, _⟩ | ⟨_, h2, _, _, _, h6⟩
  · rw [h2]; exact ⟨h, hs⟩
  · rw [h1]; exact ⟨h, hs⟩
  · exact ⟨h2, (h6 hs).1⟩

theorem establish_index_valid (props : Option ir_dev_props) (t : ir_scancode_table)
    (S : Nat) (resize : Bool) (km : kmalloc_result) (h : table_ok t) :
    (ir_establish_scancode props t S resize km).1 <
        (ir_establish_scancode props t S resize km).2.len ∨
      ir_establish_scancode props t S resize km = (MINUS_ONE_U, t) := by
  rcases establish_cases props t S resize km h with ⟨h1, h2, _⟩ | ⟨h1, _⟩ | ⟨h1, _, h3, _⟩
  · left; rw [h2]; exact h1
  · right; exact h1
  · left; omega

theorem setkeycode_inv (d : ir_input_dev) (ke : input_keymap_entry) (scalar : Int × Nat)
    (retval0 : Int) (km1 km2 : kmalloc_result) (h : table_ok d.rc_tab)
    (hs : ascending (entries d.rc_tab)) :
    table_ok (ir_setkeycode d ke scalar retval0 km1 km2).2.2.rc_tab ∧
      ascending (entries (ir_setkeycode d ke scalar retval0 km1 km2).2.2.rc_tab) := by
  obtain ⟨e1, e2⟩ := establish_inv d.props d.rc_tab scalar.2 true km1 h hs
  unfold ir_setkeycode
  simp only []
  split_ifs with c1 c2 c3 c4
  · exact ⟨h, hs⟩
  · exact ⟨(update_mapping_table _ _ _ _ _ h (by omega)).2.1,
      update_mapping_ascending _ _ _ _ _ h (by omega) hs⟩
  · exact ⟨h, hs⟩
  · exact ⟨e1, e2⟩
  · exact ⟨(update_mapping_table _ _ _ _ _ e1 (by omega)).2.1,
      update_mapping_ascending _ _ _ _ _ e1 (by omega) e2⟩

theorem apply_op_inv (d : ir_input_dev) (op : table_op) (h : table_ok d.rc_tab)
    (hs : ascending (entries d.rc_tab)) :
    table_ok (apply_op d op).rc_tab ∧ ascending (entries (apply_op d op).rc_tab) := by
  cases op with
  | establish S resize km => exact establish_inv d.props d.rc_tab S resize km h hs
  | update index k km =>
    simp only [apply_op]
    split_ifs with c
    · exact ⟨(update_mapping_table _ _ _ _ _ h c).2.1,
        update_mapping_ascending _ _ _ _ _ h c hs⟩
    · exact ⟨h, hs⟩
  | setkeycode ke scalar retval0 km1 km2 => exact setkeycode_inv d ke scalar retval0 km1 km2 h hs
  | resize km =>
    exact ⟨resize_ok _ km h, by
      show ascending (entries (ir_resize_table d.rc_tab km).2)
      rw [resize_entries _ km (table_ok_len_le _ h).1]; exact hs⟩

theorem run_ops_inv (ops : List table_op) :
    ∀ d : ir_input_dev, table_ok d.rc_tab → ascending (entries d.rc_tab) →
      table_ok (run_ops d ops).rc_tab ∧ ascending (entries (run_ops d ops).rc_tab) := by
  induction ops with
  | nil => intro d h hs; exact ⟨h, hs⟩
  | cons op ops ih =>
    intro d h hs
    obtain ⟨a1, a2⟩ := apply_op_inv d op h hs
    exact ih (apply_op d op) a1 a2

theorem fresh_dev_ok (props : Option ir_dev_props) (name : String) (ir_type n : Nat)
    (junk : Nat → ir_scancode) (hn : 1 ≤ n) (hn2 : n ≤ 268435456) :
    table_ok (fresh_dev props name ir_type n junk).rc_tab ∧
      entries (fresh_dev props name ir_type n junk).rc_tab = [] := by
  obtain ⟨c1, c2⟩ := create_ok zeroed_table name ir_type n junk hn hn2 rfl
  refine ⟨c1, ?_⟩
  show List.take (ir_create_table zeroed_table name ir_type n (some junk)).2.len _ = []
  rw [c2]; rfl

theorem ascending_nodup (l : List ir_scancode) (hs : ascending l) :
    (l.map ir_scancode.scancode).Nodup := by
  unfold ascending at hs
  unfold List.Nodup
  rw [List.pairwise_map]
  exact hs.imp (fun h => Nat.ne_of_lt h)

/-! ## Claims -/

/-- C1: starting from a freshly created, empty table (created for an initial
entry count `n` with `1 ≤ n ≤ 2 ^ 28`, so that the byte size fits an
`unsigned int`), after any finite sequence of find-or-create operations (with
any scan mask setting of the device, resize allowed or not),
`ir_update_mapping` calls at valid indices, `ir_setkeycode` calls and resizes,
whatever the outcomes of the allocations, the entries `scan[0..len)` are
strictly ascending by scancode and no scancode occurs twice. -/
theorem table_sorted_after_ops (props : Option ir_dev_props) (name : String)
    (ir_type n : Nat) (junk : Nat → ir_scancode) (ops : List table_op)
    (hn : 1 ≤ n) (hn2 : n ≤ 268435456) :
    ascending (entries (run_ops (fresh_dev props name ir_type n junk) ops).rc_tab) ∧
      ((entries (run_ops (fresh_dev props name ir_type n junk) ops).rc_tab).map
        ir_scancode.scancode).Nodup := by
  obtain ⟨f1, f2⟩ := fresh_dev_ok props name ir_type n junk hn hn2
  have h := (run_ops_inv ops (fresh_dev props name ir_type n junk) f1
    (by rw [f2]; exact List.Pairwise.nil)).2
  exact ⟨h, ascending_nodup _ h⟩

theorem table_sorted_after_ops_witness :
    (1 ≤ 4 ∧ 4 ≤ 268435456) ∧
      ascending (entries (run_ops (fresh_dev (some ⟨255⟩) "rc-example" 0 4 (fun _ => ⟨7, 7⟩))
        [table_op.establish 773 true none, table_op.update 0 30 none,
         table_op.establish 2 false none]).rc_tab) ∧
      ((entries (run_ops (fresh_dev (some ⟨255⟩) "rc-example" 0 4 (fun _ => ⟨7, 7⟩))
        [table_op.establish 773 true none, table_op.update 0 30 none,
         table_op.establish 2 false none]).rc_tab).map ir_scancode.scancode).Nodup :=
  ⟨⟨by decide, by decide⟩,
    table_sorted_after_ops (some ⟨255⟩) "rc-example" 0 4 (fun _ => ⟨7, 7⟩)
      [table_op.establish 773 true none, table_op.update 0 30 none,
       table_op.establish 2 false none] (by decide) (by decide)⟩

/-- C2: on a table whose entries `scan[0..len)` lie inside the buffer and are
strictly ascending by scancode (the empty table included), the binary search
of `ir_lookup_by_scancode` ends within its fuel for every scancode `S`; it
returns an index `r < len` with `scan[r].scancode = S` when `S` occurs in the
table, and `-1U`, which is at least `len`, when `S` does not occur.  The
function only reads the table: it returns an index and no table. -/
theorem lookup_by_scancode_correct (t : ir_scancode_table) (S : Nat)
    (hlen : t.len ≤ t.scan.length) (hbig : t.len ≤ 1073741824)
    (hs : ascending (entries t)) :
    ∃ r, ir_lookup_by_scancode t S = some r ∧
      ((∃ e ∈ entries t, e.scancode = S) →
        r < t.len ∧ (t.scan.getD r default).scancode = S) ∧
      ((∀ e ∈ entries t, e.scancode ≠ S) → r = MINUS_ONE_U ∧ t.len ≤ r) := by
  obtain ⟨r, hr, hcase⟩ := lookup_spec t S hlen hbig hs
  refine ⟨r, hr, ?_, ?_⟩
  · rintro ⟨e, he, heS⟩
    rcases hcase with hf | ⟨_, hno⟩
    · exact hf
    · exact absurd heS (hno e he)
  · intro hno
    rcases hcase with ⟨h1, h2⟩ | ⟨h1, _⟩
    · exact absurd h2 (hno _ ((mem_entries_iff t hlen _).mpr ⟨r, h1, rfl⟩))
    · refine ⟨h1, ?_⟩
      rw [h1]; unfold MINUS_ONE_U; omega

theorem lookup_by_scancode_correct_witness :
    (example_table.len ≤ example_table.scan.length ∧ example_table.len ≤ 1073741824 ∧
      ascending (entries example_table)) ∧
    ∃ r, ir_lookup_by_scancode example_table 3 = some r ∧
      ((∃ e ∈ entries example_table, e.scancode = 3) →
        r < example_table.len ∧ (example_table.scan.getD r default).scancode = 3) ∧
      ((∀ e ∈ entries example_table, e.scancode ≠ 3) →
        r = MINUS_ONE_U ∧ example_table.len ≤ r) :=
  ⟨⟨by decide, by decide, by decide⟩,
    lookup_by_scancode_correct example_table 3 (by decide) (by decide) (by decide)⟩

/-! ## Round trip and deletion -/

/-- After a successful find-or-create the returned slot holds the (masked)
scancode. -/
theorem establish_entry (props : Option ir_dev_props) (t : ir_scancode_table)
    (S : Nat) (resize : Bool) (km : kmalloc_result) (h : table_ok t)
    (hv : (ir_establish_scancode props t S resize km).1 <
      (ir_establish_scancode props t S resize km).2.len) :
    ((ir_establish_scancode props t S resize km).2.scan.getD
      (ir_establish_scancode props t S resize km).1 default).scancode
        = apply_scanmask props S := by
  rcases establish_cases props t S resize km h with ⟨_, h2, h3⟩ | ⟨h1, _⟩ | ⟨h1, h2, h3, h4, _⟩
  · rw [h2]; exact h3
  · rw [h1] at hv
    have := (table_ok_len_le t h).2
    unfold MINUS_ONE_U at hv
    simp only [] at hv
    omega
  · obtain ⟨hj, e1⟩ := getD_entries _ _ hv (table_ok_len_le _ h2).1
    rw [← e1]
    have hl : (List.take (ir_establish_scancode props t S resize km).1 (entries t)).length
        = (ir_establish_scancode props t S resize km).1 := by
      rw [List.length_take, entries_length t (table_ok_len_le t h).1]; omega
    simp only [h4]
    rw [List.getElem_append_right (by omega)]
    simp [hl]

/-- After an overwrite the slot holds its old scancode and the new keycode. -/
theorem update_mapping_entry (kb : Finset Nat) (t : ir_scancode_table)
    (index k : Nat) (km : kmalloc_result) (h : table_ok t) (hi : index < t.len)
    (hk : ¬ (k = KEY_RESERVED ∨ k = KEY_UNKNOWN)) :
    (ir_update_mapping kb t index k km).2.2.len = t.len ∧
      (ir_update_mapping kb t index k km).2.2.scan.getD index default =
        ⟨(t.scan.getD index default).scancode, k⟩ := by
  obtain ⟨_, u2, u3, u4⟩ := update_mapping_table kb t index k km h hi
  rw [if_neg hk] at u3 u4
  refine ⟨u3, ?_⟩
  obtain ⟨hj, e1⟩ := getD_entries _ index (by omega) (table_ok_len_le _ u2).1
  rw [← e1]
  simp only [u4]
  rw [List.getElem_set_self]

theorem g_keycode_found (d : ir_input_dev) (S i : Nat) (h : table_ok d.rc_tab)
    (hs : ascending (entries d.rc_tab)) (hi : i < d.rc_tab.len)
    (he : (d.rc_tab.scan.getD i default).scancode = S) :
    ir_g_keycode_from_table d S = some (d.rc_tab.scan.getD i default).keycode := by
  obtain ⟨h1, h2⟩ := table_ok_len_le _ h
  unfold ir_g_keycode_from_table
  rw [lookup_found d.rc_tab S i h1 (by omega) hs hi he]
  simp [hi]

theorem g_keycode_absent (d : ir_input_dev) (S : Nat) (h : table_ok d.rc_tab)
    (hs : ascending (entries d.rc_tab)) (hno : ∀ e ∈ entries d.rc_tab, e.scancode ≠ S) :
    ir_g_keycode_from_table d S = some KEY_RESERVED := by
  obtain ⟨h1, h2⟩ := table_ok_len_le _ h
  unfold ir_g_keycode_from_table
  rw [lookup_absent d.rc_tab S h1 (by omega) hs hno]
  have : ¬ MINUS_ONE_U < d.rc_tab.len := by unfold MINUS_ONE_U; omega
  simp [this]

theorem getkeycode_found (d : ir_input_dev) (q : input_keymap_entry) (S i : Nat)
    (h : table_ok d.rc_tab) (hs : ascending (entries d.rc_tab)) (hi : i < d.rc_tab.len)
    (he : (d.rc_tab.scan.getD i default).scancode = S)
    (hq : q.flags &&& INPUT_KEYMAP_BY_INDEX = 0) :
    ir_getkeycode d q (0, S) =
      some (0, { q with index := i % U16_MOD,
                        keycode := (d.rc_tab.scan.getD i default).keycode,
                        len := 4, scancode := [S] }) := by
  obtain ⟨h1, h2⟩ := table_ok_len_le _ h
  unfold ir_getkeycode
  simp only [hq, lookup_found d.rc_tab S i h1 (by omega) hs hi he]
  simp only [ne_eq, not_true_eq_false, if_false, Option.map_some', if_pos hi, he]

theorem getkeycode_absent (d : ir_input_dev) (q : input_keymap_entry) (S : Nat)
    (h : table_ok d.rc_tab) (hs : ascending (entries d.rc_tab))
    (hno : ∀ e ∈ entries d.rc_tab, e.scancode ≠ S)
    (hq : q.flags &&& INPUT_KEYMAP_BY_INDEX = 0) :
    ir_getkeycode d q (0, S) =
      some (0, { q with index := 65535, keycode := KEY_RESERVED }) := by
  obtain ⟨h1, h2⟩ := table_ok_len_le _ h
  unfold ir_getkeycode
  simp only [hq, lookup_absent d.rc_tab S h1 (by omega) hs hno]
  have : ¬ MINUS_ONE_U < d.rc_tab.len := by unfold MINUS_ONE_U; omega
  have hm : MINUS_ONE_U % U16_MOD = 65535 := by decide
  simp [this, hm]

/-- What a successful `ir_setkeycode` by scancode with a keycode that is not a
sentinel leaves behind: an ascending table in which the slot returned by
find-or-create holds the masked scancode and the new keycode. -/
theorem setkeycode_by_scancode_entry (d : ir_input_dev) (ke : input_keymap_entry)
    (S : Nat) (retval0 : Int) (km1 km2 : kmalloc_result)
    (h : table_ok d.rc_tab) (hs : ascending (entries d.rc_tab))
    (hflag : ke.flags &&& INPUT_KEYMAP_BY_INDEX = 0)
    (hK : ¬ (ke.keycode = KEY_RESERVED ∨ ke.keycode = KEY_UNKNOWN))
    (hret : (ir_setkeycode d ke (0, S) retval0 km1 km2).1 = 0) :
    table_ok (ir_setkeycode d ke (0, S) retval0 km1 km2).2.2.rc_tab ∧
    ascending (entries (ir_setkeycode d ke (0, S) retval0 km1 km2).2.2.rc_tab) ∧
    (ir_establish_scancode d.props d.rc_tab S true km1).1 <
      (ir_setkeycode d ke (0, S) retval0 km1 km2).2.2.rc_tab.len ∧
    (ir_setkeycode d ke (0, S) retval0 km1 km2).2.2.rc_tab.scan.getD
      (ir_establish_scancode d.props d.rc_tab S true km1).1 default =
        ⟨apply_scanmask d.props S, ke.keycode⟩ := by
  obtain ⟨i1, i2⟩ := setkeycode_inv d ke (0, S) retval0 km1 km2 h hs
  refine ⟨i1, i2, ?_⟩
  obtain ⟨e1, e2⟩ := establish_inv d.props d.rc_tab S true km1 h hs
  revert hret
  unfold ir_setkeycode
  simp only [hflag]
  by_cases c : (ir_establish_scancode d.props d.rc_tab S true km1).1 ≥
      (ir_establish_scancode d.props d.rc_tab S true km1).2.len
  · simp only [ne_eq, not_true_eq_false, if_false, if_pos c]
    intro hret
    unfold ENOMEM at hret
    omega
  · simp only [ne_eq, not_true_eq_false, if_false, if_neg c]
    intro _
    have hv := not_le.mp c
    obtain ⟨u1, u2⟩ := update_mapping_entry d.keybit _ _ ke.keycode km2 e1 hv hK
    rw [u1, u2, establish_entry d.props d.rc_tab S true km1 h hv]
    exact ⟨hv, rfl⟩

/-- C3 (amended): on a well-formed ascending table, with any scan mask setting,
any scancode `S` and any keycode `K` other than the two sentinels, when
`ir_setkeycode` by scancode succeeds, a following lookup of the scancode as
stored, that is `S` with the scan mask of the device applied (`S` itself when
no mask is configured), returns the index that find-or-create returned
(`ir_lookup_by_scancode`) and the keycode `K` (`ir_g_keycode_from_table`);
`ir_getkeycode` by scancode succeeds with keycode `K` and with that index
modulo 2^16 in its 16-bit `index` field, which is the index itself whenever it
is below 65536. -/
theorem setkeycode_lookup_roundtrip (d : ir_input_dev) (ke q : input_keymap_entry)
    (S : Nat) (retval0 : Int) (km1 km2 : kmalloc_result)
    (h : table_ok d.rc_tab) (hs : ascending (entries d.rc_tab))
    (hflag : ke.flags &&& INPUT_KEYMAP_BY_INDEX = 0)
    (hq : q.flags &&& INPUT_KEYMAP_BY_INDEX = 0)
    (hK : ke.keycode ≠ KEY_RESERVED ∧ ke.keycode ≠ KEY_UNKNOWN)
    (hret : (ir_setkeycode d ke (0, S) retval0 km1 km2).1 = 0) :
    ir_lookup_by_scancode (ir_setkeycode d ke (0, S) retval0 km1 km2).2.2.rc_tab
        (apply_scanmask d.props S)
      = some (ir_establish_scancode d.props d.rc_tab S true km1).1 ∧
    ir_g_keycode_from_table (ir_setkeycode d ke (0, S) retval0 km1 km2).2.2
        (apply_scanmask d.props S) = some ke.keycode ∧
    ir_getkeycode (ir_setkeycode d ke (0, S) retval0 km1 km2).2.2 q
        (0, apply_scanmask d.props S) =
      some (0, { q with
                 index := (ir_establish_scancode d.props d.rc_tab S true km1).1 % U16_MOD,
                 keycode := ke.keycode, len := 4,
                 scancode := [apply_scanmask d.props S] }) := by
  obtain ⟨a1, a2, a3, a4⟩ := setkeycode_by_scancode_entry d ke S retval0 km1 km2 h hs hflag
    (by tauto) hret
  have hsc : ((ir_setkeycode d ke (0, S) retval0 km1 km2).2.2.rc_tab.scan.getD
      (ir_establish_scancode d.props d.rc_tab S true km1).1 default).scancode =
      apply_scanmask d.props S := by rw [a4]
  have hkc : ((ir_setkeycode d ke (0, S) retval0 km1 km2).2.2.rc_tab.scan.getD
      (ir_establish_scancode d.props d.rc_tab S true km1).1 default).keycode =
      ke.keycode := by rw [a4]
  obtain ⟨l1, l2⟩ := table_ok_len_le _ a1
  refine ⟨lookup_found _ _ _ l1 (by omega) a2 a3 hsc, ?_, ?_⟩
  · rw [g_keycode_found _ _ _ a1 a2 a3 hsc, hkc]
  · rw [getkeycode_found _ q _ _ a1 a2 a3 hsc hq, hkc]

theorem setkeycode_lookup_roundtrip_witness :
    (table_ok example_dev.rc_tab ∧ ascending (entries example_dev.rc_tab) ∧
      (0 : Nat) &&& INPUT_KEYMAP_BY_INDEX = 0 ∧ ((30 : Nat) ≠ KEY_RESERVED ∧ (30 : Nat) ≠ KEY_UNKNOWN) ∧
      (ir_setkeycode example_dev ⟨0, 4, 0, 30, []⟩ (0, 4) 0 none none).1 = 0) ∧
    (ir_lookup_by_scancode
        (ir_setkeycode example_dev ⟨0, 4, 0, 30, []⟩ (0, 4) 0 none none).2.2.rc_tab
        (apply_scanmask example_dev.props 4)
      = some (ir_establish_scancode example_dev.props example_dev.rc_tab 4 true none).1 ∧
    ir_g_keycode_from_table (ir_setkeycode example_dev ⟨0, 4, 0, 30, []⟩ (0, 4) 0 none none).2.2
        (apply_scanmask example_dev.props 4) = some 30 ∧
    ir_getkeycode (ir_setkeycode example_dev ⟨0, 4, 0, 30, []⟩ (0, 4) 0 none none).2.2
        ⟨0, 4, 0, 0, []⟩ (0, apply_scanmask example_dev.props 4) =
      some (0, { scancode := [apply_scanmask example_dev.props 4], len := 4,
                 index := (ir_establish_scancode example_dev.props example_dev.rc_tab 4 true
                   none).1 % U16_MOD,
                 keycode := 30, flags := 0 })) :=
  ⟨⟨by decide, by decide, by decide, by decide, by decide⟩,
    setkeycode_lookup_roundtrip example_dev ⟨0, 4, 0, 30, []⟩ ⟨0, 4, 0, 0, []⟩ 4 0 none none
      (by decide) (by decide) (by decide) (by decide) (by decide) (by decide)⟩

/-- C3, counterexample: on a device whose scan mask is 0xff, setting scancode
0x1234 to keycode 30 succeeds and find-or-create returns index 3 (the entry is
stored under 0x34), but a lookup of 0x1234 returns `-1U` and keycode
`KEY_RESERVED`. -/
theorem roundtrip_fails_under_scanmask :
    (ir_setkeycode masked_dev ⟨0, 4, 0, 30, []⟩ (0, 4660) 0 none none).1 = 0 ∧
    (ir_establish_scancode masked_dev.props masked_dev.rc_tab 4660 true none).1 = 3 ∧
    ir_lookup_by_scancode
      (ir_setkeycode masked_dev ⟨0, 4, 0, 30, []⟩ (0, 4660) 0 none none).2.2.rc_tab 4660
      = some MINUS_ONE_U ∧
    ir_g_keycode_from_table
      (ir_setkeycode masked_dev ⟨0, 4, 0, 30, []⟩ (0, 4660) 0 none none).2.2 4660
      = some KEY_RESERVED := by
  decide

theorem ascending_eraseIdx_absent (l : List ir_scancode) (i : Nat) (hs : ascending l)
    (hi : i < l.length) :
    ∀ e ∈ l.eraseIdx i, e.scancode ≠ (l.get ⟨i, hi⟩).scancode := by
  intro e he
  rw [List.eraseIdx_eq_take_drop_succ, List.mem_append] at he
  simp only [List.get_eq_getElem]
  rcases he with he | he
  · obtain ⟨j, hj, hje⟩ := List.getElem_of_mem he
    rw [List.length_take] at hj
    rw [List.getElem_take] at hje
    have := List.pairwise_iff_getElem.mp hs j i (by omega) hi (by omega)
    rw [hje] at this
    omega
  · obtain ⟨j, hj, hje⟩ := List.getElem_of_mem he
    rw [List.length_drop] at hj
    rw [List.getElem_drop] at hje
    have := List.pairwise_iff_getElem.mp hs i (i + 1 + j) hi (by omega) (by omega)
    rw [hje] at this
    omega

/-- C4: on a well-formed ascending table and for every valid index `i < len`,
`ir_update_mapping` with `KEY_RESERVED` or with `KEY_UNKNOWN` as the new
keycode leaves the entry sequence equal to the old one with exactly the entry
at `i` erased (so `len` drops by one and the other entries keep scancode,
keycode and order); afterwards the lookup of the deleted scancode returns
`-1U`, `ir_g_keycode_from_table` returns `KEY_RESERVED`, and `ir_getkeycode`
by that scancode succeeds reporting `KEY_RESERVED` (with 65535, the low 16
bits of `-1U`, in the `index` field). -/
theorem delete_mapping_semantics (d : ir_input_dev) (q : input_keymap_entry)
    (index k : Nat) (km : kmalloc_result)
    (h : table_ok d.rc_tab) (hs : ascending (entries d.rc_tab))
    (hi : index < d.rc_tab.len) (hk : k = KEY_RESERVED ∨ k = KEY_UNKNOWN)
    (hq : q.flags &&& INPUT_KEYMAP_BY_INDEX = 0) :
    entries (ir_update_mapping d.keybit d.rc_tab index k km).2.2 =
      (entries d.rc_tab).eraseIdx index ∧
    (ir_update_mapping d.keybit d.rc_tab index k km).2.2.len = d.rc_tab.len - 1 ∧
    ir_lookup_by_scancode (ir_update_mapping d.keybit d.rc_tab index k km).2.2
      (d.rc_tab.scan.getD index default).scancode = some MINUS_ONE_U ∧
    ir_g_keycode_from_table
      { d with keybit := (ir_update_mapping d.keybit d.rc_tab index k km).2.1,
               rc_tab := (ir_update_mapping d.keybit d.rc_tab index k km).2.2 }
      (d.rc_tab.scan.getD index default).scancode = some KEY_RESERVED ∧
    ir_getkeycode
      { d with keybit := (ir_update_mapping d.keybit d.rc_tab index k km).2.1,
               rc_tab := (ir_update_mapping d.keybit d.rc_tab index k km).2.2 }
      q (0, (d.rc_tab.scan.getD index default).scancode) =
        some (0, { q with index := 65535, keycode := KEY_RESERVED }) := by
  obtain ⟨_, u2, u3, u4⟩ := update_mapping_table d.keybit d.rc_tab index k km h hi
  rw [if_pos hk] at u3 u4
  have ha := update_mapping_ascending d.keybit d.rc_tab index k km h hi hs
  have hlen := (table_ok_len_le _ h).1
  obtain ⟨hi2, e1⟩ := getD_entries d.rc_tab index hi hlen
  have hno : ∀ e ∈ entries (ir_update_mapping d.keybit d.rc_tab index k km).2.2,
      e.scancode ≠ (d.rc_tab.scan.getD index default).scancode := by
    rw [u4, ← e1]
    exact ascending_eraseIdx_absent _ index hs hi2
  obtain ⟨l1, l2⟩ := table_ok_len_le _ u2
  exact ⟨u4, u3, lookup_absent _ _ l1 (by omega) ha hno,
    g_keycode_absent _ _ u2 ha hno, getkeycode_absent _ q _ u2 ha hno hq⟩

theorem delete_mapping_semantics_witness :
    (table_ok example_dev.rc_tab ∧ ascending (entries example_dev.rc_tab) ∧
      1 < example_dev.rc_tab.len ∧ (KEY_UNKNOWN = KEY_RESERVED ∨ KEY_UNKNOWN = KEY_UNKNOWN) ∧
      (0 : Nat) &&& INPUT_KEYMAP_BY_INDEX = 0) ∧
    (entries (ir_update_mapping example_dev.keybit example_dev.rc_tab 1 KEY_UNKNOWN none).2.2 =
      (entries example_dev.rc_tab).eraseIdx 1 ∧
    (ir_update_mapping example_dev.keybit example_dev.rc_tab 1 KEY_UNKNOWN none).2.2.len =
      example_dev.rc_tab.len - 1 ∧
    ir_lookup_by_scancode
      (ir_update_mapping example_dev.keybit example_dev.rc_tab 1 KEY_UNKNOWN none).2.2
      (example_dev.rc_tab.scan.getD 1 default).scancode = some MINUS_ONE_U ∧
    ir_g_keycode_from_table
      { example_dev with
        keybit := (ir_update_mapping example_dev.keybit example_dev.rc_tab 1 KEY_UNKNOWN
          none).2.1,
        rc_tab := (ir_update_mapping example_dev.keybit example_dev.rc_tab 1 KEY_UNKNOWN
          none).2.2 }
      (example_dev.rc_tab.scan.getD 1 default).scancode = some KEY_RESERVED ∧
    ir_getkeycode
      { example_dev with
        keybit := (ir_update_mapping example_dev.keybit example_dev.rc_tab 1 KEY_UNKNOWN
          none).2.1,
        rc_tab := (ir_update_mapping example_dev.keybit example_dev.rc_tab 1 KEY_UNKNOWN
          none).2.2 }
      ⟨0, 4, 0, 0, []⟩ (0, (example_dev.rc_tab.scan.getD 1 default).scancode) =
        some (0, { flags := 0, len := 4, index := 65535, keycode := KEY_RESERVED,
                   scancode := [] })) :=
  ⟨⟨by decide, by decide, by decide, by decide, by decide⟩,
    delete_mapping_semantics example_dev ⟨0, 4, 0, 0, []⟩ 1 KEY_UNKNOWN none
      (by decide) (by decide) (by decide) (by decide) (by decide)⟩

/-! ## Find-or-create without permission to resize -/

/-- C10 (amended): on a well-formed table and for a scancode `S` that, after
the scan mask is applied, does not occur in it, `ir_establish_scancode` with
`resize` false returns `-1U` and leaves the table unchanged when the table is
full (`len = size`); when a slot is free (`len < size`) it inserts the masked
scancode with `KEY_RESERVED` at the returned index, `len` grows by one, and
the capacity (`size`, `alloc`) stays as it was.  The returned index is the
sorted position: every entry before it has a smaller scancode, and when the
table was strictly ascending every entry from it on has a larger scancode and
the table is strictly ascending afterwards. -/
theorem establish_without_resize (props : Option ir_dev_props) (t : ir_scancode_table)
    (S : Nat) (km : kmalloc_result) (h : table_ok t)
    (hno : ∀ e ∈ entries t, e.scancode ≠ apply_scanmask props S) :
    (t.size = t.len → ir_establish_scancode props t S false km = (MINUS_ONE_U, t)) ∧
    (t.size ≠ t.len →
      (ir_establish_scancode props t S false km).1 ≤ t.len ∧
      (ir_establish_scancode props t S false km).2.len = t.len + 1 ∧
      (ir_establish_scancode props t S false km).2.size = t.size ∧
      (ir_establish_scancode props t S false km).2.alloc = t.alloc ∧
      entries (ir_establish_scancode props t S false km).2 =
        (entries t).take (ir_establish_scancode props t S false km).1 ++
          ⟨apply_scanmask props S, KEY_RESERVED⟩ ::
            (entries t).drop (ir_establish_scancode props t S false km).1 ∧
      (∀ e ∈ (entries t).take (ir_establish_scancode props t S false km).1,
        e.scancode < apply_scanmask props S) ∧
      (ascending (entries t) →
        (∀ e ∈ (entries t).drop (ir_establish_scancode props t S false km).1,
          apply_scanmask props S < e.scancode) ∧
        ascending (entries (ir_establish_scancode props t S false km).2))) := by
  obtain ⟨i, hl, hi⟩ := loop_absent_false t (apply_scanmask props S) (table_ok_len_le t h).1 hno
  constructor
  · intro hfull
    exact establish_full props t S false km i hl hfull (Or.inl rfl)
  · intro hroom
    have hasc := fun hs => (establish_inv props t S false km h hs).2
    rw [establish_room props t S false km i hl hroom] at hasc ⊢
    obtain ⟨h1, h2, h3, h4, h5⟩ := h
    obtain ⟨s1, s2, s3, s4, s5⟩ := insert_at_spec t i (apply_scanmask props S)
      ⟨h1, h2, h3, h4, h5⟩ (by omega) hi
    have hlen : (entries t).length = t.len := entries_length t (by omega)
    have hpos : i ≤ (entries t).length := by omega
    have htl : ((entries t).take i).length = i := by rw [List.length_take]; omega
    have hb := loop_false_bounds t (apply_scanmask props S) i (by omega) hl
    refine ⟨hi, s2, s3, s4, s5, ?_, ?_⟩
    · intro e he
      dsimp only at he
      obtain ⟨j, hj, hje⟩ := List.getElem_of_mem he
      rw [List.getElem_take] at hje
      have hj2 : j < i := by omega
      have := hb.2.1 j (by omega) hj2
      rw [List.get_eq_getElem, hje] at this
      exact this
    · intro hs
      have ha := hasc hs
      refine ⟨?_, ha⟩
      rw [s5] at ha
      intro e he
      have h2 := (List.pairwise_append.1 ha).2.1
      exact List.rel_of_pairwise_cons h2 he

theorem establish_without_resize_witness :
    ((table_ok full_table ∧ (∀ e ∈ entries full_table, e.scancode ≠ apply_scanmask none 4) ∧
        full_table.size = full_table.len) ∧
      ir_establish_scancode none full_table 4 false none = (MINUS_ONE_U, full_table)) ∧
    ((table_ok example_table ∧
        (∀ e ∈ entries example_table, e.scancode ≠ apply_scanmask none 4) ∧
        example_table.size ≠ example_table.len ∧ ascending (entries example_table)) ∧
      (ir_establish_scancode none example_table 4 false none).1 ≤ example_table.len ∧
      (ir_establish_scancode none example_table 4 false none).2.len = example_table.len + 1 ∧
      (ir_establish_scancode none example_table 4 false none).2.size = example_table.size ∧
      (ir_establish_scancode none example_table 4 false none).2.alloc = example_table.alloc ∧
      entries (ir_establish_scancode none example_table 4 false none).2 =
        (entries example_table).take (ir_establish_scancode none example_table 4 false none).1 ++
          ⟨apply_scanmask none 4, KEY_RESERVED⟩ ::
            (entries example_table).drop
              (ir_establish_scancode none example_table 4 false none).1 ∧
      (∀ e ∈ (entries example_table).take
          (ir_establish_scancode none example_table 4 false none).1,
        e.scancode < apply_scanmask none 4) ∧
      (∀ e ∈ (entries example_table).drop
          (ir_establish_scancode none example_table 4 false none).1,
        apply_scanmask none 4 < e.scancode) ∧
      ascending (entries (ir_establish_scancode none example_table 4 false none).2)) :=
  ⟨⟨⟨by decide, by decide, by decide⟩,
      (establish_without_resize none full_table 4 none (by decide) (by decide)).1 (by decide)⟩,
    ⟨⟨by decide, by decide, by decide, by decide⟩,
      ((establish_without_resize none example_table 4 none (by decide) (by decide)).2
        (by decide)).1,
      ((establish_without_resize none example_table 4 none (by decide) (by decide)).2
        (by decide)).2.1,
      ((establish_without_resize none example_table 4 none (by decide) (by decide)).2
        (by decide)).2.2.1,
      ((establish_without_resize none example_table 4 none (by decide) (by decide)).2
        (by decide)).2.2.2.1,
      ((establish_without_resize none example_table 4 none (by decide) (by decide)).2
        (by decide)).2.2.2.2.1,
      ((establish_without_resize none example_table 4 none (by decide) (by decide)).2
        (by decide)).2.2.2.2.2.1,
      ((establish_without_resize none example_table 4 none (by decide) (by decide)).2
        (by decide)).2.2.2.2.2.2 (by decide)⟩⟩

/-- C10, counterexample: `example_table` has three entries in four slots and
no scancode 4; `ir_establish_scancode` with `resize` false does not return
`-1U` but index 2, and the table gains the entry (4, `KEY_RESERVED`). -/
theorem establish_without_resize_inserts :
    (∀ e ∈ entries example_table, e.scancode ≠ apply_scanmask none 4) ∧
    (ir_establish_scancode none example_table 4 false none).1 = 2 ∧
    (ir_establish_scancode none example_table 4 false none).2 ≠ example_table ∧
    entries (ir_establish_scancode none example_table 4 false none).2 =
      [⟨1, 2⟩, ⟨3, 4⟩, ⟨4, KEY_RESERVED⟩, ⟨5, 4⟩] := by
  decide

/-! ## Key-press state machine -/

theorem g_keycode_of_mem (d : ir_input_dev) (S K : Nat) (h : table_ok d.rc_tab)
    (hs : ascending (entries d.rc_tab)) (hm : (⟨S, K⟩ : ir_scancode) ∈ entries d.rc_tab) :
    ir_g_keycode_from_table d S = some K := by
  obtain ⟨j, hj, hje⟩ := (mem_entries_iff _ (table_ok_len_le _ h).1 _).mp hm
  rw [g_keycode_found d S j h hs hj (by rw [hje]), hje]

/-- The repeat branch of `ir_keydown`. -/
theorem keydown_repeat (d : ir_input_dev) (S T j K : Nat)
    (hg : ir_g_keycode_from_table d S = some K)
    (hp : d.keypressed = true) (hS : d.last_scancode = S) (hT : d.last_toggle = T) :
    ir_keydown d S T j = some (set_timer d j, [sink_call.msc_scan S]) := by
  unfold ir_keydown
  rw [hg, Option.map_some', if_pos ⟨hp, hS, hT⟩]

/-- The press branch of `ir_keydown`. -/
theorem keydown_press (d : ir_input_dev) (S T j K : Nat)
    (hg : ir_g_keycode_from_table d S = some K) (hK : K ≠ KEY_RESERVED)
    (hn : ¬ (d.keypressed = true ∧ d.last_scancode = S ∧ d.last_toggle = T)) :
    ir_keydown d S T j =
      some (set_timer { (ir_keyup d).1 with last_scancode := S, last_toggle := T,
                                            last_keycode := K, keypressed := true } j,
        sink_call.msc_scan S :: (ir_keyup d).2 ++
          [sink_call.report_key K 1, sink_call.sync]) := by
  unfold ir_keydown
  rw [hg, Option.map_some', if_neg hn]
  simp only []
  rw [if_neg hK]

/-- The branch of `ir_keydown` for a scancode without keycode. -/
theorem keydown_unmapped (d : ir_input_dev) (S T j : Nat)
    (hg : ir_g_keycode_from_table d S = some KEY_RESERVED)
    (hn : ¬ (d.keypressed = true ∧ d.last_scancode = S ∧ d.last_toggle = T)) :
    ir_keydown d S T j =
      some ({ (ir_keyup d).1 with last_scancode := S, last_toggle := T,
                                  last_keycode := KEY_RESERVED },
        sink_call.msc_scan S :: (ir_keyup d).2) := by
  unfold ir_keydown
  rw [hg, Option.map_some', if_neg hn]
  simp only [if_true]

/-- C6: from the Idle state, with scancode `S` mapped to a keycode `K` other
than `KEY_RESERVED` in a well-formed ascending table, two consecutive
`ir_keydown(S, T)` calls (at times `j1` and `j2`, nothing in between) emit one
key-down of `K` in total and no key-up: the first call emits scan-observed,
key-down and sync, the second only scan-observed; the second call sets the
deadline to `j2 + 250`, leaves `keypressed` true and leaves
`last_scancode`, `last_toggle` and `last_keycode` (and the table) as the
first call set them. -/
theorem repeat_suppression (d : ir_input_dev) (S T K j1 j2 : Nat)
    (h : table_ok d.rc_tab) (hs : ascending (entries d.rc_tab))
    (hm : (⟨S, K⟩ : ir_scancode) ∈ entries d.rc_tab) (hK : K ≠ KEY_RESERVED)
    (hidle : d.keypressed = false) :
    ∃ d1 d2 : ir_input_dev,
      ir_keydown d S T j1 =
        some (d1, [sink_call.msc_scan S, sink_call.report_key K 1, sink_call.sync]) ∧
      ir_keydown d1 S T j2 = some (d2, [sink_call.msc_scan S]) ∧
      key_events ([sink_call.msc_scan S, sink_call.report_key K 1, sink_call.sync] ++
        [sink_call.msc_scan S]) = [sink_call.report_key K 1] ∧
      d2.keyup_jiffies = j2 + 250 ∧ d2.timer_keyup = some (j2 + 250) ∧
      d2.keypressed = true ∧
      d2.last_scancode = d1.last_scancode ∧ d2.last_toggle = d1.last_toggle ∧
      d2.last_keycode = d1.last_keycode ∧
      d1.last_scancode = S ∧ d1.last_toggle = T ∧ d1.last_keycode = K ∧
      d2.rc_tab = d.rc_tab ∧ d2.keybit = d.keybit := by
  have hg := g_keycode_of_mem d S K h hs hm
  have hup : ir_keyup d = (d, []) := by unfold ir_keyup; rw [if_pos hidle]
  have h1 := keydown_press d S T j1 K hg hK (by rw [hidle]; simp)
  rw [hup] at h1
  refine ⟨_, _, h1, keydown_repeat _ S T j2 K ?_ rfl rfl rfl, ?_⟩
  · exact g_keycode_of_mem _ S K h hs hm
  · simp [key_events, set_timer, msecs_to_jiffies, IR_KEYPRESS_TIMEOUT]

theorem repeat_suppression_witness :
    (table_ok example_dev.rc_tab ∧ ascending (entries example_dev.rc_tab) ∧
      (⟨3, 4⟩ : ir_scancode) ∈ entries example_dev.rc_tab ∧ 4 ≠ KEY_RESERVED ∧
      example_dev.keypressed = false) ∧
    ∃ d1 d2 : ir_input_dev,
      ir_keydown example_dev 3 1 100 =
        some (d1, [sink_call.msc_scan 3, sink_call.report_key 4 1, sink_call.sync]) ∧
      ir_keydown d1 3 1 180 = some (d2, [sink_call.msc_scan 3]) ∧
      key_events ([sink_call.msc_scan 3, sink_call.report_key 4 1, sink_call.sync] ++
        [sink_call.msc_scan 3]) = [sink_call.report_key 4 1] ∧
      d2.keyup_jiffies = 180 + 250 ∧ d2.timer_keyup = some (180 + 250) ∧
      d2.keypressed = true ∧
      d2.last_scancode = d1.last_scancode ∧ d2.last_toggle = d1.last_toggle ∧
      d2.last_keycode = d1.last_keycode ∧
      d1.last_scancode = 3 ∧ d1.last_toggle = 1 ∧ d1.last_keycode = 4 ∧
      d2.rc_tab = example_dev.rc_tab ∧ d2.keybit = example_dev.keybit :=
  ⟨⟨by decide, by decide, by decide, by decide, by decide⟩,
    repeat_suppression example_dev 3 1 4 100 180 (by decide) (by decide) (by decide)
      (by decide) (by decide)⟩

/-- A key-down for another scancode or toggle while a key is pressed releases
that key and presses the new one. -/
theorem keydown_change (d1 : ir_input_dev) (S2 T2 K2 j2 : Nat)
    (hg2 : ir_g_keycode_from_table d1 S2 = some K2) (hK2 : K2 ≠ KEY_RESERVED)
    (hp : d1.keypressed = true) (hne : d1.last_scancode ≠ S2 ∨ d1.last_toggle ≠ T2) :
    ∃ d2 : ir_input_dev,
      ir_keydown d1 S2 T2 j2 =
        some (d2, [sink_call.msc_scan S2, sink_call.report_key d1.last_keycode 0,
                   sink_call.sync, sink_call.report_key K2 1, sink_call.sync]) ∧
      d2.keypressed = true ∧ d2.last_keycode = K2 ∧ d2.last_scancode = S2 ∧
      d2.last_toggle = T2 ∧ d2.keyup_jiffies = j2 + 250 := by
  have hn : ¬ (d1.keypressed = true ∧ d1.last_scancode = S2 ∧ d1.last_toggle = T2) := by
    rintro ⟨_, a, b⟩
    rcases hne with c | c
    · exact c a
    · exact c b
  have hup : ir_keyup d1 =
      ({ d1 with keypressed := false },
       [sink_call.report_key d1.last_keycode 0, sink_call.sync]) := by
    unfold ir_keyup
    rw [if_neg (by rw [hp]; simp)]
  have h2 := keydown_press d1 S2 T2 j2 K2 hg2 hK2 hn
  rw [hup] at h2
  exact ⟨_, h2, rfl, rfl, rfl, rfl, rfl⟩

/-- A key-down for a mapped scancode in the Idle state presses the key. -/
theorem keydown_fresh (d : ir_input_dev) (S T K j : Nat)
    (hg : ir_g_keycode_from_table d S = some K) (hK : K ≠ KEY_RESERVED)
    (hidle : d.keypressed = false) :
    ∃ d1 : ir_input_dev,
      ir_keydown d S T j =
        some (d1, [sink_call.msc_scan S, sink_call.report_key K 1, sink_call.sync]) ∧
      d1.keypressed = true ∧ d1.last_scancode = S ∧ d1.last_toggle = T ∧
      d1.last_keycode = K ∧ d1.rc_tab = d.rc_tab ∧ d1.keybit = d.keybit ∧
      d1.keyup_jiffies = j + 250 ∧ d1.timer_keyup = some (j + 250) := by
  have hup : ir_keyup d = (d, []) := by unfold ir_keyup; rw [if_pos hidle]
  have h1 := keydown_press d S T j K hg hK (by rw [hidle]; simp)
  rw [hup] at h1
  exact ⟨_, h1, rfl, rfl, rfl, rfl, rfl, rfl, rfl, rfl⟩

/-- C7: from the Idle state, with `S1` mapped to `K1` and `S2` mapped to `K2`
(neither `KEY_RESERVED`) in a well-formed ascending table, `ir_keydown(S1, T1)`
followed by `ir_keydown(S2, T2)` where the scancode or the toggle differs
emits the key events key-down `K1`, key-up `K1`, key-down `K2` in that order
and no other key event, and ends pressed with `last_keycode = K2`. -/
theorem release_then_press (d : ir_input_dev) (S1 T1 K1 S2 T2 K2 j1 j2 : Nat)
    (h : table_ok d.rc_tab) (hs : ascending (entries d.rc_tab))
    (hm1 : (⟨S1, K1⟩ : ir_scancode) ∈ entries d.rc_tab)
    (hm2 : (⟨S2, K2⟩ : ir_scancode) ∈ entries d.rc_tab)
    (hK1 : K1 ≠ KEY_RESERVED) (hK2 : K2 ≠ KEY_RESERVED)
    (hidle : d.keypressed = false) (hne : S1 ≠ S2 ∨ T1 ≠ T2) :
    ∃ d1 d2 : ir_input_dev,
      ir_keydown d S1 T1 j1 =
        some (d1, [sink_call.msc_scan S1, sink_call.report_key K1 1, sink_call.sync]) ∧
      ir_keydown d1 S2 T2 j2 =
        some (d2, [sink_call.msc_scan S2, sink_call.report_key K1 0, sink_call.sync,
                   sink_call.report_key K2 1, sink_call.sync]) ∧
      key_events ([sink_call.msc_scan S1, sink_call.report_key K1 1, sink_call.sync] ++
        [sink_call.msc_scan S2, sink_call.report_key K1 0, sink_call.sync,
         sink_call.report_key K2 1, sink_call.sync]) =
        [sink_call.report_key K1 1, sink_call.report_key K1 0, sink_call.report_key K2 1] ∧
      d2.keypressed = true ∧ d2.last_keycode = K2 ∧ d2.last_scancode = S2 ∧
      d2.last_toggle = T2 ∧ d2.keyup_jiffies = j2 + 250 := by
  obtain ⟨d1, a1, a2, a3, a4, a5, a6, _, _, _⟩ :=
    keydown_fresh d S1 T1 K1 j1 (g_keycode_of_mem d S1 K1 h hs hm1) hK1 hidle
  have hg2 : ir_g_keycode_from_table d1 S2 = some K2 :=
    g_keycode_of_mem d1 S2 K2 (by rw [a6]; exact h) (by rw [a6]; exact hs)
      (by rw [a6]; exact hm2)
  obtain ⟨d2, c1, c2, c3, c4, c5, c6⟩ := keydown_change d1 S2 T2 K2 j2 hg2 hK2 a2
    (by rw [a3, a4]; exact hne)
  rw [a5] at c1
  refine ⟨d1, d2, a1, c1, ?_, c2, c3, c4, c5, c6⟩
  simp [key_events]

theorem release_then_press_witness :
    (table_ok example_dev.rc_tab ∧ ascending (entries example_dev.rc_tab) ∧
      (⟨1, 2⟩ : ir_scancode) ∈ entries example_dev.rc_tab ∧
      (⟨3, 4⟩ : ir_scancode) ∈ entries example_dev.rc_tab ∧
      2 ≠ KEY_RESERVED ∧ 4 ≠ KEY_RESERVED ∧ example_dev.keypressed = false ∧
      ((1 : Nat) ≠ 3 ∨ (0 : Nat) ≠ 0)) ∧
    ∃ d1 d2 : ir_input_dev,
      ir_keydown example_dev 1 0 100 =
        some (d1, [sink_call.msc_scan 1, sink_call.report_key 2 1, sink_call.sync]) ∧
      ir_keydown d1 3 0 180 =
        some (d2, [sink_call.msc_scan 3, sink_call.report_key 2 0, sink_call.sync,
                   sink_call.report_key 4 1, sink_call.sync]) ∧
      key_events ([sink_call.msc_scan 1, sink_call.report_key 2 1, sink_call.sync] ++
        [sink_call.msc_scan 3, sink_call.report_key 2 0, sink_call.sync,
         sink_call.report_key 4 1, sink_call.sync]) =
        [sink_call.report_key 2 1, sink_call.report_key 2 0, sink_call.report_key 4 1] ∧
      d2.keypressed = true ∧ d2.last_keycode = 4 ∧ d2.last_scancode = 3 ∧
      d2.last_toggle = 0 ∧ d2.keyup_jiffies = 180 + 250 :=
  ⟨⟨by decide, by decide, by decide, by decide, by decide, by decide, by decide, by decide⟩,
    release_then_press example_dev 1 0 2 3 0 4 100 180 (by decide) (by decide) (by decide)
      (by decide) (by decide) (by decide) (by decide) (by decide)⟩

theorem keyup_keypressed (d : ir_input_dev) :
    (ir_keyup d).1.keypressed = false ∧ (ir_keyup d).1.keyup_jiffies = d.keyup_jiffies ∧
      (ir_keyup d).1.timer_keyup = d.timer_keyup ∧
      key_events (ir_keyup d).2 =
        (if d.keypressed = true then [sink_call.report_key d.last_keycode 0] else []) := by
  unfold ir_keyup
  cases hp : d.keypressed <;> simp [key_events]
  exact hp

/-- C8 (amended): for every key state and every (scancode, toggle) whose table
lookup yields `KEY_RESERVED`, `ir_keydown` emits the scan-observed event with
the raw scancode and no key-down.  Unless the state is pressed with that same
`last_scancode` and `last_toggle`, the call ends with `keypressed` false and
leaves `keyup_jiffies` and the timer as they were, and its only key event is
the key-up of the key that was pressed, if one was.  In the remaining case, a
repeat of the key held, the call emits nothing but scan-observed, keeps
`keypressed` true and renews the deadline. -/
theorem unmapped_scancode_no_press (d : ir_input_dev) (S T j : Nat)
    (hg : ir_g_keycode_from_table d S = some KEY_RESERVED) :
    (¬ (d.keypressed = true ∧ d.last_scancode = S ∧ d.last_toggle = T) →
      ∃ d1 : ir_input_dev,
        ir_keydown d S T j = some (d1, sink_call.msc_scan S :: (ir_keyup d).2) ∧
        d1.keypressed = false ∧ d1.keyup_jiffies = d.keyup_jiffies ∧
        d1.timer_keyup = d.timer_keyup ∧
        key_events (sink_call.msc_scan S :: (ir_keyup d).2) =
          (if d.keypressed = true then [sink_call.report_key d.last_keycode 0] else [])) ∧
    ((d.keypressed = true ∧ d.last_scancode = S ∧ d.last_toggle = T) →
      ir_keydown d S T j = some (set_timer d j, [sink_call.msc_scan S]) ∧
      (set_timer d j).keypressed = true ∧ (set_timer d j).keyup_jiffies = j + 250) := by
  obtain ⟨k1, k2, k3, k4⟩ := keyup_keypressed d
  constructor
  · intro hn
    refine ⟨_, keydown_unmapped d S T j hg hn, k1, k2, k3, ?_⟩
    rw [← k4]
    rfl
  · rintro ⟨hp, hS, hT⟩
    exact ⟨keydown_repeat d S T j KEY_RESERVED hg hp hS hT, hp, rfl⟩

theorem unmapped_scancode_no_press_witness :
    ((ir_g_keycode_from_table held_dev 7 = some KEY_RESERVED ∧
        ¬ (held_dev.keypressed = true ∧ held_dev.last_scancode = 7 ∧
          held_dev.last_toggle = 0)) ∧
      ∃ d1 : ir_input_dev,
        ir_keydown held_dev 7 0 200 = some (d1, sink_call.msc_scan 7 :: (ir_keyup held_dev).2) ∧
        d1.keypressed = false ∧ d1.keyup_jiffies = held_dev.keyup_jiffies ∧
        d1.timer_keyup = held_dev.timer_keyup ∧
        key_events (sink_call.msc_scan 7 :: (ir_keyup held_dev).2) =
          (if held_dev.keypressed = true then [sink_call.report_key held_dev.last_keycode 0]
           else [])) ∧
    ((ir_g_keycode_from_table held_dev 3 = some KEY_RESERVED ∧
        (held_dev.keypressed = true ∧ held_dev.last_scancode = 3 ∧
          held_dev.last_toggle = 0)) ∧
      ir_keydown held_dev 3 0 200 = some (set_timer held_dev 200, [sink_call.msc_scan 3]) ∧
      (set_timer held_dev 200).keypressed = true ∧
      (set_timer held_dev 200).keyup_jiffies = 200 + 250) :=
  ⟨⟨⟨by decide, by decide⟩,
      (unmapped_scancode_no_press held_dev 7 0 200 (by decide)).1 (by decide)⟩,
    ⟨⟨by decide, by decide⟩,
      (unmapped_scancode_no_press held_dev 3 0 200 (by decide)).2 (by decide)⟩⟩

/-- C8, counterexample: pressing scancode 3 on the example device at time 100
and then deleting the mapping of scancode 3 leaves the state `held_dev`
(compared field by field); there the lookup of scancode 3 yields
`KEY_RESERVED`, yet `ir_keydown(3, 0)` at time 200 leaves `keypressed` true
and moves `keyup_jiffies` from 350 to 450. -/
theorem unmapped_repeat_stays_pressed :
    (ir_keydown example_dev 3 0 100).map
        (fun r =>
          (ir_setkeycode r.1 ⟨0, 4, 0, KEY_RESERVED, []⟩ (0, 3) 0 none none).2.2.rc_tab)
      = some held_dev.rc_tab ∧
    (ir_keydown example_dev 3 0 100).map
        (fun r => decide
          ((ir_setkeycode r.1 ⟨0, 4, 0, KEY_RESERVED, []⟩ (0, 3) 0 none none).2.2.keybit
            = held_dev.keybit))
      = some true ∧
    (ir_keydown example_dev 3 0 100).map
        (fun r =>
          ((ir_setkeycode r.1 ⟨0, 4, 0, KEY_RESERVED, []⟩ (0, 3) 0 none none).2.2.keypressed,
           (ir_setkeycode r.1 ⟨0, 4, 0, KEY_RESERVED, []⟩ (0, 3) 0 none none).2.2.last_keycode,
           (ir_setkeycode r.1 ⟨0, 4, 0, KEY_RESERVED, []⟩ (0, 3) 0 none none).2.2.last_scancode,
           (ir_setkeycode r.1 ⟨0, 4, 0, KEY_RESERVED, []⟩ (0, 3) 0 none none).2.2.last_toggle))
      = some (held_dev.keypressed, held_dev.last_keycode, held_dev.last_scancode,
          held_dev.last_toggle) ∧
    (ir_keydown example_dev 3 0 100).map
        (fun r =>
          ((ir_setkeycode r.1 ⟨0, 4, 0, KEY_RESERVED, []⟩ (0, 3) 0 none none).2.2.keyup_jiffies,
           (ir_setkeycode r.1 ⟨0, 4, 0, KEY_RESERVED, []⟩ (0, 3) 0 none none).2.2.timer_keyup))
      = some (held_dev.keyup_jiffies, held_dev.timer_keyup) ∧
    ir_g_keycode_from_table held_dev 3 = some KEY_RESERVED ∧
    held_dev.keyup_jiffies = 350 ∧
    (ir_keydown held_dev 3 0 200).map (fun r => (r.1.keypressed, r.1.keyup_jiffies, r.2))
      = some (true, 450, [sink_call.msc_scan 3]) := by
  refine ⟨by decide, by decide, by decide, by decide, by decide, by decide, by decide⟩

/-- C9: `ir_timer_keyup`, run at time `now`, emits the key-up of `last_keycode`
and clears `keypressed` exactly when `keypressed` is true and
`keyup_jiffies ≤ now`; otherwise, in particular whenever `keyup_jiffies` is
later than `now`, it emits nothing and leaves the whole state unchanged.
After an expiry that has reached the deadline, a second expiry at any time
emits nothing. -/
theorem timer_keyup_recheck (d : ir_input_dev) (now : Nat) :
    ((d.keypressed = true ∧ d.keyup_jiffies ≤ now) →
      ir_timer_keyup d now =
        ({ d with keypressed := false },
         [sink_call.report_key d.last_keycode 0, sink_call.sync])) ∧
    (¬ (d.keypressed = true ∧ d.keyup_jiffies ≤ now) → ir_timer_keyup d now = (d, [])) ∧
    (now < d.keyup_jiffies → ir_timer_keyup d now = (d, [])) ∧
    (sink_call.report_key d.last_keycode 0 ∈ (ir_timer_keyup d now).2 ↔
      (d.keypressed = true ∧ d.keyup_jiffies ≤ now)) ∧
    (∀ now2, d.keyup_jiffies ≤ now →
      (ir_timer_keyup (ir_timer_keyup d now).1 now2).2 = []) := by
  unfold ir_timer_keyup ir_keyup time_is_before_eq_jiffies
  by_cases hd : d.keyup_jiffies ≤ now
  · cases hp : d.keypressed
    · simp [hd, hp]
    · simp [hd, hp]
  · have hlt : now < d.keyup_jiffies := by omega
    simp [hd, hlt]

theorem timer_keyup_recheck_witness :
    ((held_dev.keypressed = true ∧ held_dev.keyup_jiffies ≤ 400) ∧
      ir_timer_keyup held_dev 400 =
        ({ held_dev with keypressed := false },
         [sink_call.report_key held_dev.last_keycode 0, sink_call.sync])) ∧
    (300 < held_dev.keyup_jiffies ∧ ir_timer_keyup held_dev 300 = (held_dev, [])) ∧
    (held_dev.keyup_jiffies ≤ 400 ∧
      (ir_timer_keyup (ir_timer_keyup held_dev 400).1 500).2 = []) :=
  ⟨⟨by decide, (timer_keyup_recheck held_dev 400).1 (by decide)⟩,
    ⟨by decide, (timer_keyup_recheck held_dev 300).2.2.1 (by decide)⟩,
    ⟨by decide, (timer_keyup_recheck held_dev 400).2.2.2.2 500 (by decide)⟩⟩

/-! ## Capability bitmap -/

theorem list_split_at (l : List ir_scancode) (i : Nat) (hi : i < l.length) :
    l = l.take i ++ l.get ⟨i, hi⟩ :: l.drop (i + 1) := by
  rw [List.get_eq_getElem, ← List.drop_eq_getElem_cons hi, List.take_append_drop]

theorem used_eraseIdx (l : List ir_scancode) (i k : Nat) (hi : i < l.length)
    (hk : (l.get ⟨i, hi⟩).keycode ≠ k) :
    (∃ e ∈ l.eraseIdx i, e.keycode = k) ↔ ∃ e ∈ l, e.keycode = k := by
  constructor
  · rintro ⟨e, he, hek⟩
    exact ⟨e, List.mem_of_mem_eraseIdx he, hek⟩
  · rintro ⟨e, he, hek⟩
    refine ⟨e, ?_, hek⟩
    rw [list_split_at l i hi] at he
    rw [List.eraseIdx_eq_take_drop_succ]
    rcases List.mem_append.mp he with h1 | h1
    · exact List.mem_append.mpr (Or.inl h1)
    · rcases List.mem_cons.mp h1 with h2 | h2
      · rw [h2] at hek
        exact absurd hek hk
      · exact List.mem_append.mpr (Or.inr h2)

theorem used_set (l : List ir_scancode) (i k : Nat) (y : ir_scancode) (hi : i < l.length)
    (hk : (l.get ⟨i, hi⟩).keycode ≠ k) (hy : y.keycode ≠ k) :
    (∃ e ∈ l.set i y, e.keycode = k) ↔ ∃ e ∈ l, e.keycode = k := by
  rw [List.set_eq_take_append_cons_drop, if_pos hi]
  constructor
  · rintro ⟨e, he, hek⟩
    refine ⟨e, ?_, hek⟩
    rw [list_split_at l i hi]
    rcases List.mem_append.mp he with h1 | h1
    · exact List.mem_append.mpr (Or.inl h1)
    · rcases List.mem_cons.mp h1 with h2 | h2
      · rw [h2] at hek
        exact absurd hek hy
      · exact List.mem_append.mpr (Or.inr (List.mem_cons.mpr (Or.inr h2)))
  · rintro ⟨e, he, hek⟩
    refine ⟨e, ?_, hek⟩
    rw [list_split_at l i hi] at he
    rcases List.mem_append.mp he with h1 | h1
    · exact List.mem_append.mpr (Or.inl h1)
    · rcases List.mem_cons.mp h1 with h2 | h2
      · rw [h2] at hek
        exact absurd hek hk
      · exact List.mem_append.mpr (Or.inr (List.mem_cons.mpr (Or.inr h2)))

theorem used_insert_reserved (l : List ir_scancode) (i S k : Nat) (hk : k ≠ KEY_RESERVED) :
    (∃ e ∈ l.take i ++ ⟨S, KEY_RESERVED⟩ :: l.drop i, e.keycode = k) ↔
      ∃ e ∈ l, e.keycode = k := by
  constructor
  · rintro ⟨e, he, hek⟩
    refine ⟨e, ?_, hek⟩
    rcases List.mem_append.mp he with h1 | h1
    · exact List.mem_of_mem_take h1
    · rcases List.mem_cons.mp h1 with h2 | h2
      · rw [h2] at hek
        exact absurd hek.symm hk
      · exact List.mem_of_mem_drop h2
  · rintro ⟨e, he, hek⟩
    refine ⟨e, ?_, hek⟩
    rw [← List.take_append_drop i l] at he
    rcases List.mem_append.mp he with h1 | h1
    · exact List.mem_append.mpr (Or.inl h1)
    · exact List.mem_append.mpr (Or.inr (List.mem_cons.mpr (Or.inr h1)))

/-- After `ir_update_mapping` at a valid index whose previous keycode is not
`KEY_RESERVED`, that keycode is marked used exactly when an entry still maps
to it. -/
theorem update_mapping_old_bit (kb : Finset Nat) (t : ir_scancode_table)
    (index k : Nat) (km : kmalloc_result) (h : table_ok t) (hi : index < t.len)
    (hold : (t.scan.getD index default).keycode ≠ KEY_RESERVED) :
    ((t.scan.getD index default).keycode ∈ (ir_update_mapping kb t index k km).2.1 ↔
      ∃ e ∈ entries (ir_update_mapping kb t index k km).2.2,
        e.keycode = (t.scan.getD index default).keycode) := by
  rw [update_mapping_keybit kb t index k km h hi, if_pos hold]
  by_cases hu : ∃ e ∈ entries (ir_update_mapping kb t index k km).2.2,
      e.keycode = (t.scan.getD index default).keycode
  · rw [if_pos hu]
    exact ⟨fun _ => hu, fun _ => Finset.mem_insert_self _ _⟩
  · rw [if_neg hu]
    exact ⟨fun hmem => absurd rfl (Finset.ne_of_mem_erase hmem), fun hx => absurd hx hu⟩

theorem update_mapping_keybit_matches (d : ir_input_dev) (index k : Nat)
    (km : kmalloc_result) (h : table_ok d.rc_tab) (hi : index < d.rc_tab.len)
    (hm : keybit_matches d) :
    keybit_matches { d with
      keybit := (ir_update_mapping d.keybit d.rc_tab index k km).2.1,
      rc_tab := (ir_update_mapping d.keybit d.rc_tab index k km).2.2 } := by
  intro c hc
  show c ∈ (ir_update_mapping d.keybit d.rc_tab index k km).2.1 ↔
    ∃ e ∈ entries (ir_update_mapping d.keybit d.rc_tab index k km).2.2, e.keycode = c
  by_cases hco : c = (d.rc_tab.scan.getD index default).keycode
  · rw [hco]
    exact update_mapping_old_bit d.keybit d.rc_tab index k km h hi (by rw [← hco]; exact hc)
  · have hlen := (table_ok_len_le _ h).1
    obtain ⟨hi2, e1⟩ := getD_entries d.rc_tab index hi hlen
    have hne : ((entries d.rc_tab).get ⟨index, hi2⟩).keycode ≠ c := by
      rw [List.get_eq_getElem, e1]
      exact fun hx => hco hx.symm
    rw [(update_mapping_table d.keybit d.rc_tab index k km h hi).2.2.2]
    have hkb : c ∈ (ir_update_mapping d.keybit d.rc_tab index k km).2.1 ↔
        c ∈ (if k = KEY_RESERVED ∨ k = KEY_UNKNOWN then d.keybit else insert k d.keybit) := by
      rw [update_mapping_keybit d.keybit d.rc_tab index k km h hi]
      split_ifs <;> simp only [Finset.mem_insert, Finset.mem_erase, ne_eq] <;> tauto
    rw [hkb]
    by_cases hk : k = KEY_RESERVED ∨ k = KEY_UNKNOWN
    · rw [if_pos hk, if_pos hk, used_eraseIdx _ index c hi2 hne]
      exact hm c hc
    · rw [if_neg hk, if_neg hk]
      by_cases hck : c = k
      · subst hck
        simp only [Finset.mem_insert, true_or, true_iff]
        exact ⟨_, List.mem_set _ index hi2 _, rfl⟩
      · rw [used_set _ index c _ hi2 hne (fun hx => hck hx.symm)]
        simp only [Finset.mem_insert, hck, false_or]
        exact hm c hc

theorem establish_keybit_matches (d : ir_input_dev) (S : Nat) (resize : Bool)
    (km : kmalloc_result) (h : table_ok d.rc_tab) (hm : keybit_matches d) :
    keybit_matches { d with
      rc_tab := (ir_establish_scancode d.props d.rc_tab S resize km).2 } := by
  intro c hc
  show c ∈ d.keybit ↔
    ∃ e ∈ entries (ir_establish_scancode d.props d.rc_tab S resize km).2, e.keycode = c
  rcases establish_cases d.props d.rc_tab S resize km h with
    ⟨_, h2, _⟩ | ⟨h1, _⟩ | ⟨_, _, _, h4, _⟩
  · rw [h2]; exact hm c hc
  · rw [h1]; exact hm c hc
  · rw [h4, used_insert_reserved _ _ _ c hc]
    exact hm c hc

theorem apply_op_keybit_matches (d : ir_input_dev) (op : table_op)
    (h : table_ok d.rc_tab) (hm : keybit_matches d) :
    keybit_matches (apply_op d op) := by
  cases op with
  | establish S resize km => exact establish_keybit_matches d S resize km h hm
  | update index k km =>
    simp only [apply_op]
    split_ifs with c
    · exact update_mapping_keybit_matches d index k km h c hm
    · exact hm
  | setkeycode ke scalar retval0 km1 km2 =>
    have e1 := establish_keybit_matches d scalar.2 true km1 h hm
    have e2 : table_ok (ir_establish_scancode d.props d.rc_tab scalar.2 true km1).2 := by
      rcases establish_cases d.props d.rc_tab scalar.2 true km1 h with
        ⟨_, h2, _⟩ | ⟨h1, _⟩ | ⟨_, h2, _⟩
      · rw [h2]; exact h
      · rw [h1]; exact h
      · exact h2
    simp only [apply_op]
    unfold ir_setkeycode
    simp only []
    split_ifs with c1 c2 c3 c4
    · exact hm
    · exact update_mapping_keybit_matches d ke.index ke.keycode km2 h (by omega) hm
    · exact hm
    · exact e1
    · exact update_mapping_keybit_matches
        { d with rc_tab := (ir_establish_scancode d.props d.rc_tab scalar.2 true km1).2 }
        _ ke.keycode km2 e2 (not_le.mp c4) e1
  | resize km =>
    intro c hc
    show c ∈ d.keybit ↔ ∃ e ∈ entries (ir_resize_table d.rc_tab km).2, e.keycode = c
    rw [resize_entries _ km (table_ok_len_le _ h).1]
    exact hm c hc

theorem apply_op_table_ok (d : ir_input_dev) (op : table_op) (h : table_ok d.rc_tab) :
    table_ok (apply_op d op).rc_tab := by
  have hest : ∀ S resize km, table_ok (ir_establish_scancode d.props d.rc_tab S resize km).2 := by
    intro S resize km
    rcases establish_cases d.props d.rc_tab S resize km h with
      ⟨_, h2, _⟩ | ⟨h1, _⟩ | ⟨_, h2, _⟩
    · rw [h2]; exact h
    · rw [h1]; exact h
    · exact h2
  cases op with
  | establish S resize km => exact hest S resize km
  | update index k km =>
    simp only [apply_op]
    split_ifs with c
    · exact (update_mapping_table _ _ _ _ _ h c).2.1
    · exact h
  | setkeycode ke scalar retval0 km1 km2 =>
    simp only [apply_op]
    unfold ir_setkeycode
    simp only []
    split_ifs with c1 c2 c3 c4
    · exact h
    · exact (update_mapping_table _ _ _ _ _ h (by omega)).2.1
    · exact h
    · exact hest _ _ _
    · exact (update_mapping_table _ _ _ _ _ (hest _ _ _) (not_le.mp c4)).2.1
  | resize km => exact resize_ok _ km h

theorem run_ops_keybit_matches (ops : List table_op) :
    ∀ d : ir_input_dev, table_ok d.rc_tab → keybit_matches d →
      keybit_matches (run_ops d ops) := by
  induction ops with
  | nil => intro d _ hm; exact hm
  | cons op ops ih =>
    intro d h hm
    exact ih (apply_op d op) (apply_op_table_ok d op h) (apply_op_keybit_matches d op h hm)

/-- C5: (a) for every well-formed table, valid index and new keycode, when the
keycode `K` stored at that index before the call is not `KEY_RESERVED`, after
`ir_update_mapping` `K` is marked used in the bitmap if and only if some entry
left in `scan[0..len)` has keycode `K`; so deleting one of two mappings to `K`
leaves `K` marked, and deleting the last one clears it.  (b) After any
sequence of operations from a freshly created empty table and an empty bitmap,
a keycode other than `KEY_RESERVED` is marked used exactly when some entry
maps to it. -/
theorem shared_keycode_bitmap :
    (∀ (kb : Finset Nat) (t : ir_scancode_table) (index k : Nat) (km : kmalloc_result),
      table_ok t → index < t.len → (t.scan.getD index default).keycode ≠ KEY_RESERVED →
      ((t.scan.getD index default).keycode ∈ (ir_update_mapping kb t index k km).2.1 ↔
        ∃ e ∈ entries (ir_update_mapping kb t index k km).2.2,
          e.keycode = (t.scan.getD index default).keycode)) ∧
    (∀ (props : Option ir_dev_props) (name : String) (ir_type n : Nat)
      (junk : Nat → ir_scancode) (ops : List table_op), 1 ≤ n → n ≤ 268435456 →
      ∀ k, k ≠ KEY_RESERVED →
        (k ∈ (run_ops (fresh_dev props name ir_type n junk) ops).keybit ↔
          ∃ e ∈ entries (run_ops (fresh_dev props name ir_type n junk) ops).rc_tab,
            e.keycode = k)) := by
  constructor
  · intro kb t index k km h hi hold
    exact update_mapping_old_bit kb t index k km h hi hold
  · intro props name ir_type n junk ops hn hn2
    obtain ⟨f1, f2⟩ := fresh_dev_ok props name ir_type n junk hn hn2
    apply run_ops_keybit_matches ops _ f1
    intro k _
    rw [f2]
    simp [fresh_dev]

theorem shared_keycode_bitmap_witness :
    ((table_ok example_table ∧ 1 < example_table.len ∧
        (example_table.scan.getD 1 default).keycode ≠ KEY_RESERVED) ∧
      ((example_table.scan.getD 1 default).keycode ∈
          (ir_update_mapping {2, 4} example_table 1 KEY_RESERVED none).2.1 ↔
        ∃ e ∈ entries (ir_update_mapping {2, 4} example_table 1 KEY_RESERVED none).2.2,
          e.keycode = (example_table.scan.getD 1 default).keycode)) ∧
    ((1 ≤ 4 ∧ 4 ≤ 268435456 ∧ 30 ≠ KEY_RESERVED) ∧
      (30 ∈ (run_ops (fresh_dev none "rc-example" 0 4 (fun _ => ⟨7, 7⟩))
          [table_op.establish 16 true none, table_op.update 0 30 none]).keybit ↔
        ∃ e ∈ entries (run_ops (fresh_dev none "rc-example" 0 4 (fun _ => ⟨7, 7⟩))
          [table_op.establish 16 true none, table_op.update 0 30 none]).rc_tab,
          e.keycode = 30)) ∧
    (4 ∈ (ir_update_mapping {2, 4} example_table 1 KEY_RESERVED none).2.1 ∧
      4 ∉ (ir_update_mapping
        (ir_update_mapping {2, 4} example_table 1 KEY_RESERVED none).2.1
        (ir_update_mapping {2, 4} example_table 1 KEY_RESERVED none).2.2
        1 KEY_RESERVED none).2.1) :=
  ⟨⟨⟨by decide, by decide, by decide⟩,
      shared_keycode_bitmap.1 {2, 4} example_table 1 KEY_RESERVED none
        (by decide) (by decide) (by decide)⟩,
    ⟨⟨by decide, by decide, by decide⟩,
      shared_keycode_bitmap.2 none "rc-example" 0 4 (fun _ => ⟨7, 7⟩)
        [table_op.establish 16 true none, table_op.update 0 30 none]
        (by decide) (by decide) 30 (by decide)⟩,
    by decide⟩

/-! ## Capacity exhaustion -/

theorem resize_full_at_max (t : ir_scancode_table) (km : kmalloc_result)
    (hfull : t.size = t.len) (hmax : t.alloc ≥ IR_TAB_MAX_SIZE) :
    ir_resize_table t km = (-ENOMEM, t) := by
  unfold ir_resize_table
  simp only []
  rw [if_pos ⟨hfull, hmax⟩]

theorem establish_ok (props : Option ir_dev_props) (t : ir_scancode_table)
    (S : Nat) (resize : Bool) (km : kmalloc_result) (h : table_ok t) :
    table_ok (ir_establish_scancode props t S resize km).2 := by
  rcases establish_cases props t S resize km h with ⟨_, h2, _⟩ | ⟨h1, _⟩ | ⟨_, h2, _⟩
  · rw [h2]; exact h
  · rw [h1]; exact h
  · exact h2

/-- When find-or-create returns a valid index, `ir_setkeycode` by scancode
with a keycode that is not a sentinel succeeds and stores the keycode there. -/
theorem setkeycode_by_scancode_ok (d : ir_input_dev) (ke : input_keymap_entry)
    (S : Nat) (retval0 : Int) (km1 km2 : kmalloc_result) (h : table_ok d.rc_tab)
    (hflag : ke.flags &&& INPUT_KEYMAP_BY_INDEX = 0)
    (hK : ¬ (ke.keycode = KEY_RESERVED ∨ ke.keycode = KEY_UNKNOWN))
    (hv : (ir_establish_scancode d.props d.rc_tab S true km1).1 <
      (ir_establish_scancode d.props d.rc_tab S true km1).2.len) :
    (ir_setkeycode d ke (0, S) retval0 km1 km2).1 = 0 ∧
    (ir_setkeycode d ke (0, S) retval0 km1 km2).2.2.rc_tab.scan.getD
      (ir_establish_scancode d.props d.rc_tab S true km1).1 default =
        ⟨apply_scanmask d.props S, ke.keycode⟩ := by
  have e1 := establish_ok d.props d.rc_tab S true km1 h
  obtain ⟨_, u2⟩ := update_mapping_entry d.keybit _ _ ke.keycode km2 e1 hv hK
  unfold ir_setkeycode
  simp only [hflag, ne_eq, not_true_eq_false, if_false, if_neg (not_le.mpr hv)]
  rw [u2, establish_entry d.props d.rc_tab S true km1 h hv]
  exact ⟨trivial, rfl⟩

/-- C11 (amended): for every well-formed table that is full (`len = size`)
with its allocation at the maximum (`alloc ≥ 8192`) and every scancode `S`
that, after the scan mask of the device is applied, is not present in it,
`ir_setkeycode` by scancode for `S` with any keycode returns `-ENOMEM` and
leaves the device, in particular entries, `len`, capacity and the keycode
bitmap, exactly as before. -/
theorem setkeycode_full_at_max (d : ir_input_dev) (ke : input_keymap_entry) (S : Nat)
    (retval0 : Int) (km1 km2 : kmalloc_result) (h : table_ok d.rc_tab)
    (hfull : d.rc_tab.size = d.rc_tab.len) (hmax : d.rc_tab.alloc ≥ IR_TAB_MAX_SIZE)
    (hflag : ke.flags &&& INPUT_KEYMAP_BY_INDEX = 0)
    (hno : ∀ e ∈ entries d.rc_tab, e.scancode ≠ apply_scanmask d.props S) :
    ir_setkeycode d ke (0, S) retval0 km1 km2 = (-ENOMEM, none, d) := by
  obtain ⟨i, hl, _⟩ := loop_absent_false d.rc_tab (apply_scanmask d.props S)
    (table_ok_len_le _ h).1 hno
  have hres : (ir_resize_table d.rc_tab km1).1 ≠ 0 := by
    rw [resize_full_at_max d.rc_tab km1 hfull hmax]
    show -ENOMEM ≠ 0
    decide
  have he := establish_full d.props d.rc_tab S true km1 i hl hfull (Or.inr hres)
  have hge : MINUS_ONE_U ≥ d.rc_tab.len := by
    have := (table_ok_len_le _ h).2
    unfold MINUS_ONE_U
    omega
  unfold ir_setkeycode
  simp only [hflag, he]
  simp [hge]

theorem max_table_ok : table_ok max_table := by
  simp [table_ok, max_table, SIZEOF_IR_SCANCODE, UINT_MOD]

theorem max_table_scancodes (S : Nat) (hS : 1024 ≤ S) :
    ∀ e ∈ entries max_table, e.scancode ≠ S := by
  intro e he
  have he2 : e ∈ max_table.scan := List.mem_of_mem_take he
  simp only [max_table, List.mem_cons, List.mem_map, List.mem_range] at he2
  rcases he2 with h0 | ⟨i, hi, hie⟩
  · rw [h0]; show 0 ≠ S; omega
  · rw [← hie]; show i + 1 ≠ S; omega

theorem setkeycode_full_at_max_witness :
    (table_ok max_dev.rc_tab ∧ max_dev.rc_tab.size = max_dev.rc_tab.len ∧
      max_dev.rc_tab.alloc ≥ IR_TAB_MAX_SIZE ∧ (0 : Nat) &&& INPUT_KEYMAP_BY_INDEX = 0 ∧
      ∀ e ∈ entries max_dev.rc_tab, e.scancode ≠ apply_scanmask none 5000) ∧
    ir_setkeycode { max_dev with props := none } ⟨0, 4, 0, 30, []⟩ (0, 5000) 0 none none =
      (-ENOMEM, none, { max_dev with props := none }) :=
  ⟨⟨max_table_ok, by decide, by decide, by decide, max_table_scancodes 5000 (by decide)⟩,
    setkeycode_full_at_max { max_dev with props := none } ⟨0, 4, 0, 30, []⟩ 5000 0 none none
      max_table_ok (by decide) (by decide) (by decide)
      (max_table_scancodes 5000 (by decide))⟩

/-- C11, counterexample: `max_table` is well formed, full at the maximum
allocation and does not contain scancode 1024, but on a device whose scan mask
keeps the low ten bits `ir_setkeycode` by scancode 1024 with keycode 30
returns 0 and overwrites the keycode of the entry with scancode 0. -/
theorem setkeycode_full_at_max_masked :
    table_ok max_table ∧ max_table.size = max_table.len ∧
    max_table.alloc ≥ IR_TAB_MAX_SIZE ∧
    (∀ e ∈ entries max_table, e.scancode ≠ 1024) ∧
    (ir_setkeycode max_dev ⟨0, 4, 0, 30, []⟩ (0, 1024) 0 none none).1 = 0 ∧
    ((ir_setkeycode max_dev ⟨0, 4, 0, 30, []⟩ (0, 1024) 0 none none).2.2.rc_tab.scan.getD 0
      default) = ⟨0, 30⟩ ∧
    max_table.scan.getD 0 default = ⟨0, 1⟩ := by
  have hl : establish_loop max_table.scan (apply_scanmask max_dev.props 1024)
      max_table.len 0 = (true, 0) := by decide
  have he : ir_establish_scancode max_dev.props max_dev.rc_tab 1024 true none =
      (0, max_table) := establish_found max_dev.props max_table 1024 true none 0 hl
  have hv : (ir_establish_scancode max_dev.props max_dev.rc_tab 1024 true none).1 <
      (ir_establish_scancode max_dev.props max_dev.rc_tab 1024 true none).2.len := by
    rw [he]; decide
  obtain ⟨r1, r2⟩ := setkeycode_by_scancode_ok max_dev ⟨0, 4, 0, 30, []⟩ 1024 0 none none
    max_table_ok (by decide) (by decide) hv
  rw [he] at r2
  exact ⟨max_table_ok, by decide, by decide, max_table_scancodes 1024 (by decide), r1, r2,
    by decide⟩

/-! ## Keymap ioctls -/

theorem getkeycode_by_index (d : ir_input_dev) (ke : input_keymap_entry)
    (scalar : Int × Nat) (hflag : ke.flags &&& INPUT_KEYMAP_BY_INDEX ≠ 0) :
    ir_getkeycode d ke scalar =
      if ke.index < d.rc_tab.len then
        some (0, { ke with index := ke.index % U16_MOD,
                           keycode := (d.rc_tab.scan.getD ke.index default).keycode,
                           len := 4,
                           scancode := [(d.rc_tab.scan.getD ke.index default).scancode] })
      else some (-EINVAL, ke) := by
  unfold ir_getkeycode
  simp only [if_pos hflag]
  split_ifs with c1
  · rfl
  · rfl

/-- C12 (amended): `ir_getkeycode` (a) by index with `index < len` succeeds
with the scancode and keycode of that entry; (b) by index with `index ≥ len`
fails with `-EINVAL`; on a well-formed ascending table, (c) by a scancode that
is in the table it succeeds with the keycode of its entry and with the index
of the entry modulo 2^16 in the 16-bit `index` field, which is the index
itself whenever it is below 65536, and (d) by a scancode that is not in the
table it succeeds (returns 0) with keycode `KEY_RESERVED` and 65535 in the
`index` field.  The function returns only its status and the request: the
table is not modified. -/
theorem getkeycode_results (d : ir_input_dev) (ke : input_keymap_entry) :
    (∀ scalar : Int × Nat, ke.flags &&& INPUT_KEYMAP_BY_INDEX ≠ 0 →
      ke.index < d.rc_tab.len →
      ir_getkeycode d ke scalar =
        some (0, { ke with index := ke.index % U16_MOD,
                           keycode := (d.rc_tab.scan.getD ke.index default).keycode,
                           len := 4,
                           scancode := [(d.rc_tab.scan.getD ke.index default).scancode] })) ∧
    (∀ scalar : Int × Nat, ke.flags &&& INPUT_KEYMAP_BY_INDEX ≠ 0 →
      ke.index ≥ d.rc_tab.len → ir_getkeycode d ke scalar = some (-EINVAL, ke)) ∧
    (∀ S i : Nat, table_ok d.rc_tab → ascending (entries d.rc_tab) →
      ke.flags &&& INPUT_KEYMAP_BY_INDEX = 0 → i < d.rc_tab.len →
      (d.rc_tab.scan.getD i default).scancode = S →
      ir_getkeycode d ke (0, S) =
        some (0, { ke with index := i % U16_MOD,
                           keycode := (d.rc_tab.scan.getD i default).keycode,
                           len := 4, scancode := [S] })) ∧
    (∀ S : Nat, table_ok d.rc_tab → ascending (entries d.rc_tab) →
      ke.flags &&& INPUT_KEYMAP_BY_INDEX = 0 →
      (∀ e ∈ entries d.rc_tab, e.scancode ≠ S) →
      ir_getkeycode d ke (0, S) =
        some (0, { ke with index := 65535, keycode := KEY_RESERVED })) := by
  refine ⟨?_, ?_, ?_, ?_⟩
  · intro scalar hflag hi
    rw [getkeycode_by_index d ke scalar hflag, if_pos hi]
  · intro scalar hflag hi
    rw [getkeycode_by_index d ke scalar hflag, if_neg (by omega)]
  · intro S i h hs hflag hi he
    exact getkeycode_found d ke S i h hs hi he hflag
  · intro S h hs hflag hno
    exact getkeycode_absent d ke S h hs hno hflag

theorem getkeycode_results_witness :
    ((((1 : Nat) &&& INPUT_KEYMAP_BY_INDEX ≠ 0 ∧ 2 < example_dev.rc_tab.len) ∧
      ir_getkeycode example_dev ⟨1, 0, 2, 0, []⟩ (0, 0) =
        some (0, ⟨1, 4, 2, 4, [5]⟩)) ∧
    (((1 : Nat) &&& INPUT_KEYMAP_BY_INDEX ≠ 0 ∧ 3 ≥ example_dev.rc_tab.len) ∧
      ir_getkeycode example_dev ⟨1, 0, 3, 0, []⟩ (0, 0) =
        some (-EINVAL, ⟨1, 0, 3, 0, []⟩))) ∧
    (((table_ok example_dev.rc_tab ∧ ascending (entries example_dev.rc_tab) ∧
        (0 : Nat) &&& INPUT_KEYMAP_BY_INDEX = 0 ∧ 1 < example_dev.rc_tab.len ∧
        (example_dev.rc_tab.scan.getD 1 default).scancode = 3) ∧
      ir_getkeycode example_dev ⟨0, 4, 0, 0, []⟩ (0, 3) = some (0, ⟨0, 4, 1, 4, [3]⟩)) ∧
    ((∀ e ∈ entries example_dev.rc_tab, e.scancode ≠ 4) ∧
      ir_getkeycode example_dev ⟨0, 4, 0, 0, []⟩ (0, 4) =
        some (0, ⟨0, 4, 65535, KEY_RESERVED, []⟩))) :=
  ⟨⟨⟨⟨by decide, by decide⟩,
      (getkeycode_results example_dev ⟨1, 0, 2, 0, []⟩).1 (0, 0) (by decide) (by decide)⟩,
    ⟨⟨by decide, by decide⟩,
      (getkeycode_results example_dev ⟨1, 0, 3, 0, []⟩).2.1 (0, 0) (by decide) (by decide)⟩⟩,
   ⟨⟨⟨by decide, by decide, by decide, by decide, by decide⟩,
      (getkeycode_results example_dev ⟨0, 4, 0, 0, []⟩).2.2.1 3 1 (by decide) (by decide)
        (by decide) (by decide) (by decide)⟩,
    ⟨by decide,
      (getkeycode_results example_dev ⟨0, 4, 0, 0, []⟩).2.2.2 4 (by decide) (by decide)
        (by decide) (by decide)⟩⟩⟩

theorem huge_table_ok : table_ok huge_table := by
  simp [table_ok, huge_table, SIZEOF_IR_SCANCODE, UINT_MOD]

theorem huge_table_ascending : ascending (entries huge_table) := by
  have h : ascending huge_table.scan := by
    unfold ascending
    simp only [huge_table]
    rw [List.pairwise_map]
    exact List.pairwise_lt_range 131072
  exact List.Pairwise.sublist (List.take_sublist _ _) h

theorem huge_table_slot (i : Nat) (hi : i < 131072) :
    huge_table.scan.getD i default = ⟨i, 1⟩ := by
  simp only [huge_table]
  rw [List.getD_eq_getElem _ _ (by simpa using hi)]
  simp

/-- C12, counterexample: in the well-formed ascending `huge_table` scancode
65536 is present, at index 65536, but `ir_getkeycode` by scancode 65536
reports index 0 (the index of the entry with scancode 0) together with the
keycode: the index does not fit the 16-bit `index` field. -/
theorem getkeycode_index_truncated :
    table_ok huge_table ∧ ascending (entries huge_table) ∧
    65536 < huge_table.len ∧
    huge_table.scan.getD 65536 default = ⟨65536, 1⟩ ∧
    huge_table.scan.getD 0 default = ⟨0, 1⟩ ∧
    ir_getkeycode huge_dev ⟨0, 4, 0, 0, []⟩ (0, 65536) =
      some (0, ⟨0, 4, 0, 1, [65536]⟩) := by
  have hlen : 65536 < huge_table.len := by decide
  have hslot := huge_table_slot 65536 (by decide)
  have hg := getkeycode_found huge_dev ⟨0, 4, 0, 0, []⟩ 65536 65536 huge_table_ok
    huge_table_ascending hlen (by rw [show huge_dev.rc_tab = huge_table from rfl, hslot])
    (by decide)
  rw [show huge_dev.rc_tab = huge_table from rfl, hslot] at hg
  exact ⟨huge_table_ok, huge_table_ascending, hlen, hslot,
    huge_table_slot 0 (by decide), hg⟩

theorem update_mapping_fst (kb : Finset Nat) (t : ir_scancode_table)
    (index k : Nat) (km : kmalloc_result) :
    (ir_update_mapping kb t index k km).1 = (t.scan.getD index default).keycode := by
  rw [update_mapping_eq]
  split_ifs <;> rfl

/-- C13: for a by-index request with `index < len`, `ir_setkeycode` reports the
keycode that occupied the index as the previous keycode, but its return value
is the never-assigned local `retval` (here the parameter `retval0`), zero or
not; for `index ≥ len` it returns `-EINVAL` and leaves the device unchanged. -/
theorem setkeycode_by_index (d : ir_input_dev) (ke : input_keymap_entry)
    (scalar : Int × Nat) (retval0 : Int) (km1 km2 : kmalloc_result)
    (hflag : ke.flags &&& INPUT_KEYMAP_BY_INDEX ≠ 0) :
    (ke.index < d.rc_tab.len →
      (ir_setkeycode d ke scalar retval0 km1 km2).1 = retval0 ∧
      (ir_setkeycode d ke scalar retval0 km1 km2).2.1 =
        some (d.rc_tab.scan.getD ke.index default).keycode) ∧
    (ke.index ≥ d.rc_tab.len →
      ir_setkeycode d ke scalar retval0 km1 km2 = (-EINVAL, none, d)) := by
  unfold ir_setkeycode
  simp only [if_pos hflag]
  constructor
  · intro hi
    rw [if_neg (by omega)]
    exact ⟨rfl, by rw [← update_mapping_fst d.keybit d.rc_tab ke.index ke.keycode km2]⟩
  · intro hi
    rw [if_pos hi]

theorem setkeycode_by_index_witness :
    (((1 : Nat) &&& INPUT_KEYMAP_BY_INDEX ≠ 0 ∧ 1 < example_dev.rc_tab.len) ∧
      (ir_setkeycode example_dev ⟨1, 0, 1, 30, []⟩ (0, 0) 77 none none).1 = 77 ∧
      (ir_setkeycode example_dev ⟨1, 0, 1, 30, []⟩ (0, 0) 77 none none).2.1 =
        some (example_dev.rc_tab.scan.getD 1 default).keycode) ∧
    (((1 : Nat) &&& INPUT_KEYMAP_BY_INDEX ≠ 0 ∧ 3 ≥ example_dev.rc_tab.len) ∧
      ir_setkeycode example_dev ⟨1, 0, 3, 30, []⟩ (0, 0) 77 none none =
        (-EINVAL, none, example_dev)) :=
  ⟨⟨⟨by decide, by decide⟩,
      (setkeycode_by_index example_dev ⟨1, 0, 1, 30, []⟩ (0, 0) 77 none none (by decide)).1
        (by decide)⟩,
    ⟨⟨by decide, by decide⟩,
      (setkeycode_by_index example_dev ⟨1, 0, 3, 30, []⟩ (0, 0) 77 none none (by decide)).2
        (by decide)⟩⟩

/-! ## Capacity -/

/-- The table that `ir_establish_scancode` returns is the old table, or the
old table with the new entry inserted (a slot was free), or the grown table
with the new entry inserted (the table was full and growing was allowed and
succeeded). -/
theorem establish_shape (props : Option ir_dev_props) (t : ir_scancode_table)
    (S : Nat) (resize : Bool) (km : kmalloc_result) :
    (ir_establish_scancode props t S resize km).2 = t ∨
    (t.size ≠ t.len ∧ (ir_establish_scancode props t S resize km).2 =
      insert_at t (ir_establish_scancode props t S resize km).1 (apply_scanmask props S)) ∨
    (t.size = t.len ∧ resize = true ∧ (ir_resize_table t km).1 = 0 ∧
      (ir_establish_scancode props t S resize km).2 =
        insert_at (ir_resize_table t km).2 (ir_establish_scancode props t S resize km).1
          (apply_scanmask props S)) := by
  rcases hl : establish_loop t.scan (apply_scanmask props S) t.len 0 with ⟨b, i⟩
  cases b with
  | true =>
    left
    rw [establish_found props t S resize km i hl]
  | false =>
    by_cases hfull : t.size = t.len
    · by_cases hno : resize = false ∨ (ir_resize_table t km).1 ≠ 0
      · left
        rw [establish_full props t S resize km i hl hfull hno]
      · right; right
        rw [establish_grow props t S resize km i hl hfull hno]
        refine ⟨hfull, ?_, ?_, rfl⟩
        · cases resize with
          | true => rfl
          | false => exact absurd (Or.inl rfl) hno
        · by_contra hc
          exact hno (Or.inr hc)
    · right; left
      rw [establish_room props t S resize km i hl hfull]
      exact ⟨hfull, rfl⟩

/-- The table that `ir_update_mapping` returns, by the four paths through the
function. -/
theorem update_mapping_shape (kb : Finset Nat) (t : ir_scancode_table)
    (index k : Nat) (km : kmalloc_result) :
    (ir_update_mapping kb t index k km).2.2 =
      (if (t.scan.getD index default).keycode ≠ KEY_RESERVED then
        if k = KEY_RESERVED ∨ k = KEY_UNKNOWN then (ir_resize_table (delete_at t index) km).2
        else (ir_resize_table (overwrite_at t index k) km).2
      else
        if k = KEY_RESERVED ∨ k = KEY_UNKNOWN then delete_at t index
        else overwrite_at t index k) := by
  rw [update_mapping_eq]
  split_ifs <;> rfl

theorem resize_alloc_within (lo hi : Nat) (t : ir_scancode_table) (km : kmalloc_result)
    (h : table_ok t) (hlo : lo ≤ IR_TAB_MIN_SIZE) (hhi : IR_TAB_MAX_SIZE ≤ hi)
    (ha : alloc_within lo hi t) :
    alloc_within lo hi (ir_resize_table t km).2 := by
  obtain ⟨h1, h2, h3, h4, h5⟩ := h
  obtain ⟨⟨k, hk⟩, a2, a3⟩ := ha
  have e3 : (t.len * 3) % UINT_MOD = t.len * 3 := by
    unfold SIZEOF_IR_SCANCODE UINT_MOD at *
    exact Nat.mod_eq_of_lt (by omega)
  unfold ir_resize_table
  simp only []
  rw [e3]
  unfold SIZEOF_IR_SCANCODE UINT_MOD IR_TAB_MAX_SIZE IR_TAB_MIN_SIZE at *
  split_ifs with c1 c2 c3 c4
  all_goals first
    | exact ⟨⟨k, hk⟩, a2, a3⟩
    | (exfalso; omega)
    | (cases km with
       | none => exact ⟨⟨k, hk⟩, a2, a3⟩
       | some junk =>
         first
         | (have hlt : t.alloc < 8192 := by omega
            have hk13 : k < 13 := by
              rw [hk] at hlt
              exact (Nat.pow_lt_pow_iff_right (by decide)).mp hlt
            have hle : 2 ^ (k + 1) ≤ 2 ^ 13 :=
              (Nat.pow_le_pow_iff_right (by decide)).mpr (by omega)
            have hmod : t.alloc * 2 % 4294967296 = 2 ^ (k + 1) := by
              rw [Nat.mod_eq_of_lt (by omega), hk, pow_succ]
            refine ⟨⟨k + 1, hmod⟩, ?_, ?_⟩
            · show lo ≤ t.alloc * 2 % 4294967296
              rw [Nat.mod_eq_of_lt (by omega)]; omega
            · show t.alloc * 2 % 4294967296 ≤ hi
              rw [hmod]
              norm_num at hle
              omega)
         | (have hgt : 2 ^ 8 < 2 ^ k := by rw [← hk]; norm_num; omega
            have hk8 : 8 < k := (Nat.pow_lt_pow_iff_right (by decide)).mp hgt
            obtain ⟨j, hj⟩ : ∃ j, k = j + 1 := ⟨k - 1, by omega⟩
            have hhalf : t.alloc / 2 = 2 ^ j := by
              rw [hk, hj, pow_succ]; omega
            have hge : 2 ^ 8 ≤ 2 ^ j :=
              (Nat.pow_le_pow_iff_right (by decide)).mpr (by omega)
            refine ⟨⟨j, hhalf⟩, ?_, ?_⟩
            · show lo ≤ t.alloc / 2
              rw [hhalf]
              norm_num at hge
              omega
            · show t.alloc / 2 ≤ hi
              omega))

theorem alloc_within_congr (lo hi : Nat) (t u : ir_scancode_table) (h : u.alloc = t.alloc)
    (ha : alloc_within lo hi t) : alloc_within lo hi u := by
  unfold alloc_within at *
  rw [h]
  exact ha

theorem establish_alloc_within (lo hi : Nat) (props : Option ir_dev_props)
    (t : ir_scancode_table) (S : Nat) (resize : Bool) (km : kmalloc_result)
    (h : table_ok t) (hlo : lo ≤ IR_TAB_MIN_SIZE) (hhi : IR_TAB_MAX_SIZE ≤ hi)
    (ha : alloc_within lo hi t) :
    alloc_within lo hi (ir_establish_scancode props t S resize km).2 := by
  rcases establish_shape props t S resize km with h1 | ⟨_, h2⟩ | ⟨_, _, _, h3⟩
  · rw [h1]; exact ha
  · rw [h2]; exact alloc_within_congr lo hi t _ rfl ha
  · rw [h3]
    exact alloc_within_congr lo hi _ _ rfl (resize_alloc_within lo hi t km h hlo hhi ha)

theorem update_mapping_alloc_within (lo hi : Nat) (kb : Finset Nat)
    (t : ir_scancode_table) (index k : Nat) (km : kmalloc_result)
    (h : table_ok t) (hi2 : index < t.len) (hlo : lo ≤ IR_TAB_MIN_SIZE)
    (hhi : IR_TAB_MAX_SIZE ≤ hi) (ha : alloc_within lo hi t) :
    alloc_within lo hi (ir_update_mapping kb t index k km).2.2 := by
  have hd := (delete_at_spec t index h hi2).1
  have ho := (overwrite_at_spec t index k h).1
  have had : alloc_within lo hi (delete_at t index) := alloc_within_congr lo hi t _ rfl ha
  have hao : alloc_within lo hi (overwrite_at t index k) :=
    alloc_within_congr lo hi t _ rfl ha
  rw [update_mapping_shape]
  split_ifs
  · exact resize_alloc_within lo hi _ km hd hlo hhi had
  · exact resize_alloc_within lo hi _ km ho hlo hhi hao
  · exact had
  · exact hao

theorem apply_op_alloc_within (lo hi : Nat) (d : ir_input_dev) (op : table_op)
    (h : table_ok d.rc_tab) (hlo : lo ≤ IR_TAB_MIN_SIZE) (hhi : IR_TAB_MAX_SIZE ≤ hi)
    (ha : alloc_within lo hi d.rc_tab) :
    alloc_within lo hi (apply_op d op).rc_tab := by
  cases op with
  | establish S resize km =>
    exact establish_alloc_within lo hi d.props d.rc_tab S resize km h hlo hhi ha
  | update index k km =>
    simp only [apply_op]
    split_ifs with c
    · exact update_mapping_alloc_within lo hi _ _ _ _ km h c hlo hhi ha
    · exact ha
  | setkeycode ke scalar retval0 km1 km2 =>
    have e1 := establish_ok d.props d.rc_tab scalar.2 true km1 h
    have e2 := establish_alloc_within lo hi d.props d.rc_tab scalar.2 true km1 h hlo hhi ha
    simp only [apply_op]
    unfold ir_setkeycode
    simp only []
    split_ifs with c1 c2 c3 c4
    · exact ha
    · exact update_mapping_alloc_within lo hi _ _ _ _ km2 h (by omega) hlo hhi ha
    · exact ha
    · exact e2
    · exact update_mapping_alloc_within lo hi _ _ _ _ km2 e1 (not_le.mp c4) hlo hhi e2
  | resize km => exact resize_alloc_within lo hi d.rc_tab km h hlo hhi ha

theorem run_ops_alloc_within (lo hi : Nat) (hlo : lo ≤ IR_TAB_MIN_SIZE)
    (hhi : IR_TAB_MAX_SIZE ≤ hi) (ops : List table_op) :
    ∀ d : ir_input_dev, table_ok d.rc_tab → alloc_within lo hi d.rc_tab →
      table_ok (run_ops d ops).rc_tab ∧ alloc_within lo hi (run_ops d ops).rc_tab := by
  induction ops with
  | nil => intro d h ha; exact ⟨h, ha⟩
  | cons op ops ih =>
    intro d h ha
    exact ih (apply_op d op) (apply_op_table_ok d op h)
      (apply_op_alloc_within lo hi d op h hlo hhi ha)

theorem roundup_from_pow2 (n : Nat) :
    ∀ fuel p, (∃ k, p = 2 ^ k) → ∃ k, roundup_from n fuel p = 2 ^ k := by
  intro fuel
  induction fuel with
  | zero => intro p hp; exact hp
  | succ fuel ih =>
    intro p hp
    unfold roundup_from
    split_ifs
    · exact hp
    · obtain ⟨k, hk⟩ := hp
      exact ih (2 * p) ⟨k + 1, by rw [hk, pow_succ]; ring⟩

theorem roundup_pow_of_two_pow2 (n : Nat) : ∃ k, roundup_pow_of_two n = 2 ^ k :=
  roundup_from_pow2 n n 1 ⟨0, rfl⟩

theorem fresh_dev_alloc (props : Option ir_dev_props) (name : String) (ir_type n : Nat)
    (junk : Nat → ir_scancode) (hn2 : n ≤ 268435456) :
    (fresh_dev props name ir_type n junk).rc_tab.alloc =
      roundup_pow_of_two (n * SIZEOF_IR_SCANCODE) := by
  show roundup_pow_of_two (n * SIZEOF_IR_SCANCODE) % UINT_MOD = _
  by_cases hn : 1 ≤ n
  · obtain ⟨_, r2⟩ := roundup_pow_of_two_spec (n * SIZEOF_IR_SCANCODE)
      (by unfold SIZEOF_IR_SCANCODE; omega)
    unfold SIZEOF_IR_SCANCODE UINT_MOD at *
    exact Nat.mod_eq_of_lt (by omega)
  · have h0 : n = 0 := by omega
    subst h0
    decide

/-- C14 (amended): for every initial entry count `n` with `1 ≤ n ≤ 2 ^ 28`,
`ir_create_table` produces an allocation equal to the least power of two that
is at least `8 n` bytes, with capacity `alloc / 8 ≥ n` entries, and does not
clamp it; after any sequence of operations the allocation is still a power of
two, it lies between `min initial 256` and `max initial 8192` bytes, and the
capacity is `alloc / 8`.  So when the initial count is between 32 and 1024
the capacity stays between 32 and 1024 entries. -/
theorem capacity_bounds (props : Option ir_dev_props) (name : String) (ir_type n : Nat)
    (junk : Nat → ir_scancode) (ops : List table_op) (hn : 1 ≤ n) (hn2 : n ≤ 268435456) :
    (fresh_dev props name ir_type n junk).rc_tab.alloc = roundup_pow_of_two (n * 8) ∧
    (∃ k, roundup_pow_of_two (n * 8) = 2 ^ k) ∧
    n * 8 ≤ roundup_pow_of_two (n * 8) ∧ roundup_pow_of_two (n * 8) < 2 * (n * 8) ∧
    (fresh_dev props name ir_type n junk).rc_tab.size = roundup_pow_of_two (n * 8) / 8 ∧
    n ≤ (fresh_dev props name ir_type n junk).rc_tab.size ∧
    (∃ k, (run_ops (fresh_dev props name ir_type n junk) ops).rc_tab.alloc = 2 ^ k) ∧
    min (roundup_pow_of_two (n * 8)) 256 ≤
      (run_ops (fresh_dev props name ir_type n junk) ops).rc_tab.alloc ∧
    (run_ops (fresh_dev props name ir_type n junk) ops).rc_tab.alloc ≤
      max (roundup_pow_of_two (n * 8)) 8192 ∧
    (run_ops (fresh_dev props name ir_type n junk) ops).rc_tab.size =
      (run_ops (fresh_dev props name ir_type n junk) ops).rc_tab.alloc / 8 ∧
    (32 ≤ n → n ≤ 1024 →
      32 ≤ (run_ops (fresh_dev props name ir_type n junk) ops).rc_tab.size ∧
      (run_ops (fresh_dev props name ir_type n junk) ops).rc_tab.size ≤ 1024) := by
  obtain ⟨f1, _⟩ := fresh_dev_ok props name ir_type n junk hn hn2
  have fa := fresh_dev_alloc props name ir_type n junk hn2
  obtain ⟨r1, r2⟩ := roundup_pow_of_two_spec (n * 8) (by omega)
  obtain ⟨k0, hk0⟩ := roundup_pow_of_two_pow2 (n * 8)
  have hsz : (fresh_dev props name ir_type n junk).rc_tab.size =
      roundup_pow_of_two (n * 8) / 8 := by
    rw [f1.2.2.1, fa]; rfl
  have ha0 : alloc_within (min (roundup_pow_of_two (n * 8)) 256)
      (max (roundup_pow_of_two (n * 8)) 8192) (fresh_dev props name ir_type n junk).rc_tab := by
    refine ⟨⟨k0, by rw [fa]; exact hk0⟩, ?_, ?_⟩
    · rw [fa]; exact Nat.min_le_left _ _
    · rw [fa]; exact Nat.le_max_left _ _
  obtain ⟨t1, ⟨t2, t3, t4⟩⟩ := run_ops_alloc_within _ _
    (Nat.min_le_right _ _) (Nat.le_max_right _ _) ops _ f1 ha0
  have hsz2 := t1.2.2.1
  refine ⟨fa, ⟨k0, hk0⟩, r1, r2, hsz, by rw [hsz]; omega, t2, t3, t4, hsz2, ?_⟩
  intro h32 h1024
  have hlt : 2 ^ k0 < 2 ^ 14 := by rw [← hk0]; norm_num; omega
  have hk14 : k0 < 14 := (Nat.pow_lt_pow_iff_right (by decide)).mp hlt
  have hle : 2 ^ k0 ≤ 2 ^ 13 := (Nat.pow_le_pow_iff_right (by decide)).mpr (by omega)
  rw [← hk0] at hle
  norm_num at hle
  have hmin : min (roundup_pow_of_two (n * 8)) 256 = 256 := Nat.min_eq_right (by omega)
  have hmax : max (roundup_pow_of_two (n * 8)) 8192 = 8192 := Nat.max_eq_right (by omega)
  have t3b : min (roundup_pow_of_two (n * 8)) 256 ≤
      (run_ops (fresh_dev props name ir_type n junk) ops).rc_tab.alloc := t3
  have t4b : (run_ops (fresh_dev props name ir_type n junk) ops).rc_tab.alloc ≤
      max (roundup_pow_of_two (n * 8)) 8192 := t4
  rw [hmin] at t3b
  rw [hmax] at t4b
  rw [hsz2]
  unfold SIZEOF_IR_SCANCODE
  omega

theorem capacity_bounds_witness :
    (1 ≤ 40 ∧ 40 ≤ 268435456) ∧
    (fresh_dev none "rc-example" 0 40 (fun _ => ⟨7, 7⟩)).rc_tab.alloc =
      roundup_pow_of_two (40 * 8) ∧
    (∃ k, roundup_pow_of_two (40 * 8) = 2 ^ k) ∧
    40 * 8 ≤ roundup_pow_of_two (40 * 8) ∧ roundup_pow_of_two (40 * 8) < 2 * (40 * 8) ∧
    (fresh_dev none "rc-example" 0 40 (fun _ => ⟨7, 7⟩)).rc_tab.size =
      roundup_pow_of_two (40 * 8) / 8 ∧
    40 ≤ (fresh_dev none "rc-example" 0 40 (fun _ => ⟨7, 7⟩)).rc_tab.size ∧
    (∃ k, (run_ops (fresh_dev none "rc-example" 0 40 (fun _ => ⟨7, 7⟩))
      [table_op.establish 16 true none]).rc_tab.alloc = 2 ^ k) ∧
    min (roundup_pow_of_two (40 * 8)) 256 ≤
      (run_ops (fresh_dev none "rc-example" 0 40 (fun _ => ⟨7, 7⟩))
        [table_op.establish 16 true none]).rc_tab.alloc ∧
    (run_ops (fresh_dev none "rc-example" 0 40 (fun _ => ⟨7, 7⟩))
      [table_op.establish 16 true none]).rc_tab.alloc ≤
      max (roundup_pow_of_two (40 * 8)) 8192 ∧
    (run_ops (fresh_dev none "rc-example" 0 40 (fun _ => ⟨7, 7⟩))
      [table_op.establish 16 true none]).rc_tab.size =
      (run_ops (fresh_dev none "rc-example" 0 40 (fun _ => ⟨7, 7⟩))
        [table_op.establish 16 true none]).rc_tab.alloc / 8 ∧
    (32 ≤ 40 → 40 ≤ 1024 →
      32 ≤ (run_ops (fresh_dev none "rc-example" 0 40 (fun _ => ⟨7, 7⟩))
        [table_op.establish 16 true none]).rc_tab.size ∧
      (run_ops (fresh_dev none "rc-example" 0 40 (fun _ => ⟨7, 7⟩))
        [table_op.establish 16 true none]).rc_tab.size ≤ 1024) :=
  ⟨⟨by decide, by decide⟩,
    capacity_bounds none "rc-example" 0 40 (fun _ => ⟨7, 7⟩)
      [table_op.establish 16 true none] (by decide) (by decide)⟩

/-- C14, counterexample: `ir_create_table` does not clamp: for an initial count
of 1 it allocates 8 bytes (capacity 1, below 32 entries), and for an initial
count of 2000 it allocates 16384 bytes (capacity 2048, above 1024). -/
theorem create_table_not_clamped :
    (ir_create_table zeroed_table "rc-example" 0 1 (some fun _ => ⟨7, 7⟩)).2.alloc = 8 ∧
    (ir_create_table zeroed_table "rc-example" 0 1 (some fun _ => ⟨7, 7⟩)).2.size = 1 ∧
    (ir_create_table zeroed_table "rc-example" 0 2000 (some fun _ => ⟨7, 7⟩)).2.alloc = 16384 ∧
    (ir_create_table zeroed_table "rc-example" 0 2000 (some fun _ => ⟨7, 7⟩)).2.size = 2048 := by
  refine ⟨by decide, by decide, by decide, by decide⟩

/-- How `ir_resize_table` changes the capacity of a well-formed table: not at
all, or it grows a full table, or it shrinks a table that is less than one
third used and larger than the minimum. -/
theorem resize_size_cases (t : ir_scancode_table) (km : kmalloc_result) (h : table_ok t) :
    (ir_resize_table t km).2.size = t.size ∨
    (t.size = t.len ∧ t.size < (ir_resize_table t km).2.size) ∨
    ((ir_resize_table t km).2.size < t.size ∧ t.len * 3 < t.size ∧
      t.alloc > IR_TAB_MIN_SIZE) := by
  obtain ⟨h1, h2, h3, h4, h5⟩ := h
  have e3 : (t.len * 3) % UINT_MOD = t.len * 3 := by
    unfold SIZEOF_IR_SCANCODE UINT_MOD at *
    exact Nat.mod_eq_of_lt (by omega)
  unfold ir_resize_table
  simp only []
  rw [e3]
  unfold SIZEOF_IR_SCANCODE UINT_MOD IR_TAB_MAX_SIZE IR_TAB_MIN_SIZE at *
  split_ifs with c1 c2 c3 c4
  all_goals first
    | (left; rfl)
    | (exfalso; omega)
    | (cases km with
       | none => left; rfl
       | some junk =>
         first
         | (right; left
            refine ⟨by omega, ?_⟩
            show t.size < _ / 8
            omega)
         | (right; right
            refine ⟨?_, by omega, by omega⟩
            show _ / 8 < t.size
            omega))

/-- C15 (amended): on a well-formed table, (a) `ir_establish_scancode` never
shrinks the capacity, and when the capacity is larger afterwards it inserted a
new scancode (`len` grew by one) and `len = size` held before; (b) for
`ir_update_mapping` at a valid index, when the capacity is smaller afterwards
the previous keycode of the entry was not `KEY_RESERVED` and `len * 3 < size`
held after the update, for a deletion after the entry was removed and for an
overwrite with `len` unchanged; a deletion never enlarges the capacity, and an
update of an entry whose previous keycode is `KEY_RESERVED` leaves it
unchanged; (c) `ir_setkeycode` changes the table only through these two
steps. -/
theorem capacity_monotonicity (d : ir_input_dev) (h : table_ok d.rc_tab) :
    (∀ (S : Nat) (resize : Bool) (km : kmalloc_result),
      d.rc_tab.size ≤ (ir_establish_scancode d.props d.rc_tab S resize km).2.size ∧
      (d.rc_tab.size < (ir_establish_scancode d.props d.rc_tab S resize km).2.size →
        d.rc_tab.size = d.rc_tab.len ∧ resize = true ∧
        (ir_establish_scancode d.props d.rc_tab S resize km).2.len = d.rc_tab.len + 1)) ∧
    (∀ (index k : Nat) (km : kmalloc_result), index < d.rc_tab.len →
      ((ir_update_mapping d.keybit d.rc_tab index k km).2.2.size < d.rc_tab.size →
        (d.rc_tab.scan.getD index default).keycode ≠ KEY_RESERVED ∧
        (ir_update_mapping d.keybit d.rc_tab index k km).2.2.len * 3 < d.rc_tab.size ∧
        d.rc_tab.alloc > IR_TAB_MIN_SIZE) ∧
      ((k = KEY_RESERVED ∨ k = KEY_UNKNOWN) →
        (ir_update_mapping d.keybit d.rc_tab index k km).2.2.size ≤ d.rc_tab.size) ∧
      ((d.rc_tab.scan.getD index default).keycode = KEY_RESERVED →
        (ir_update_mapping d.keybit d.rc_tab index k km).2.2.size = d.rc_tab.size)) ∧
    (∀ (ke : input_keymap_entry) (scalar : Int × Nat) (retval0 : Int)
      (km1 km2 : kmalloc_result),
      (ir_setkeycode d ke scalar retval0 km1 km2).2.2.rc_tab = d.rc_tab ∨
      (ke.index < d.rc_tab.len ∧
        (ir_setkeycode d ke scalar retval0 km1 km2).2.2.rc_tab =
          (ir_update_mapping d.keybit d.rc_tab ke.index ke.keycode km2).2.2) ∨
      (ir_setkeycode d ke scalar retval0 km1 km2).2.2.rc_tab =
        (ir_establish_scancode d.props d.rc_tab scalar.2 true km1).2 ∨
      ((ir_establish_scancode d.props d.rc_tab scalar.2 true km1).1 <
          (ir_establish_scancode d.props d.rc_tab scalar.2 true km1).2.len ∧
        (ir_setkeycode d ke scalar retval0 km1 km2).2.2.rc_tab =
          (ir_update_mapping d.keybit
            (ir_establish_scancode d.props d.rc_tab scalar.2 true km1).2
            (ir_establish_scancode d.props d.rc_tab scalar.2 true km1).1
            ke.keycode km2).2.2)) := by
  refine ⟨?_, ?_, ?_⟩
  · intro S resize km
    rcases establish_shape d.props d.rc_tab S resize km with h1 | ⟨_, h2⟩ | ⟨f1, f2, f3, f4⟩
    · rw [h1]; exact ⟨le_refl _, fun hc => absurd hc (lt_irrefl _)⟩
    · rw [h2]; exact ⟨le_refl _, fun hc => absurd hc (lt_irrefl _)⟩
    · have hg := resize_grow d.rc_tab km h f1 f3
      have hok := resize_ok d.rc_tab km h
      obtain ⟨_, s2, s3, _, _⟩ := insert_at_spec (ir_resize_table d.rc_tab km).2
        (ir_establish_scancode d.props d.rc_tab S resize km).1 (apply_scanmask d.props S)
        hok (by rw [resize_len]; exact hg) (by
          rcases establish_cases d.props d.rc_tab S resize km h with
            ⟨c1, _⟩ | ⟨c1, _⟩ | ⟨c1, _⟩
          · rw [resize_len]; omega
          · rw [c1, resize_len]
            exfalso
            rw [c1] at f4
            have hl := congrArg ir_scancode_table.len f4
            have e3 : (insert_at (ir_resize_table d.rc_tab km).2 MINUS_ONE_U
                (apply_scanmask d.props S)).len =
                ((ir_resize_table d.rc_tab km).2.len + 1) % UINT_MOD := rfl
            simp only [] at hl
            rw [e3, resize_len] at hl
            have := (table_ok_len_le _ h).2
            unfold UINT_MOD at hl
            omega
          · rw [resize_len]; exact c1)
      rw [f4, s3, s2, resize_len]
      exact ⟨by omega, fun _ => ⟨f1, f2, rfl⟩⟩
  · intro index k km hi
    obtain ⟨d1, d2, d3, _⟩ := delete_at_spec d.rc_tab index h hi
    obtain ⟨o1, o2, o3, _⟩ := overwrite_at_spec d.rc_tab index k h
    rw [update_mapping_shape]
    refine ⟨?_, ?_, ?_⟩
    · split_ifs with c1 c2 c3
      · intro hlt
        rcases resize_size_cases _ km d1 with r | ⟨r1, r2⟩ | ⟨r1, r2, r3⟩
        · rw [r, d3] at hlt; exact absurd hlt (lt_irrefl _)
        · rw [d3] at r2; omega
        · rw [resize_len, d2]
          rw [d2, d3] at r2
          exact ⟨c1, r2, r3⟩
      · intro hlt
        rcases resize_size_cases _ km o1 with r | ⟨r1, r2⟩ | ⟨r1, r2, r3⟩
        · rw [r, o3] at hlt; exact absurd hlt (lt_irrefl _)
        · rw [o3] at r2; omega
        · rw [resize_len, o2]
          rw [o2, o3] at r2
          exact ⟨c1, r2, r3⟩
      · intro hlt; rw [d3] at hlt; exact absurd hlt (lt_irrefl _)
      · intro hlt; rw [o3] at hlt; exact absurd hlt (lt_irrefl _)
    · intro hk
      have hlen := h.1
      rw [if_pos hk, if_pos hk]
      split_ifs with c1
      · rcases resize_size_cases _ km d1 with r | ⟨r1, r2⟩ | ⟨r1, _⟩
        · rw [r, d3]
        · rw [d3, d2] at r1; omega
        · rw [d3] at r1; omega
      · rw [d3]
    · intro hold
      rw [if_neg (by rw [hold]; simp)]
      split_ifs
      · exact d3
      · exact o3
  · intro ke scalar retval0 km1 km2
    unfold ir_setkeycode
    simp only []
    split_ifs with c1 c2 c3 c4
    · left; rfl
    · right; left; exact ⟨by omega, rfl⟩
    · left; rfl
    · right; right; left; rfl
    · right; right; right; exact ⟨not_le.mp c4, rfl⟩

theorem capacity_monotonicity_witness :
    ((table_ok full_dev.rc_tab ∧
        full_dev.rc_tab.size <
          (ir_establish_scancode full_dev.props full_dev.rc_tab 4 true
            (some fun _ => ⟨0, 0⟩)).2.size) ∧
      full_dev.rc_tab.size = full_dev.rc_tab.len ∧ true = true ∧
      (ir_establish_scancode full_dev.props full_dev.rc_tab 4 true
        (some fun _ => ⟨0, 0⟩)).2.len = full_dev.rc_tab.len + 1) ∧
    ((table_ok sparse_dev.rc_tab ∧ 0 < sparse_dev.rc_tab.len ∧
        (ir_update_mapping sparse_dev.keybit sparse_dev.rc_tab 0 30
          (some fun _ => ⟨0, 0⟩)).2.2.size < sparse_dev.rc_tab.size) ∧
      (sparse_dev.rc_tab.scan.getD 0 default).keycode ≠ KEY_RESERVED ∧
      (ir_update_mapping sparse_dev.keybit sparse_dev.rc_tab 0 30
        (some fun _ => ⟨0, 0⟩)).2.2.len * 3 < sparse_dev.rc_tab.size ∧
      sparse_dev.rc_tab.alloc > IR_TAB_MIN_SIZE) :=
  ⟨⟨⟨by decide, by decide⟩,
      ((capacity_monotonicity full_dev (by decide)).1 4 true (some fun _ => ⟨0, 0⟩)).2
        (by decide)⟩,
    ⟨⟨by decide, by decide, by decide⟩,
      ((capacity_monotonicity sparse_dev (by decide)).2.1 0 30 (some fun _ => ⟨0, 0⟩)
        (by decide)).1 (by decide)⟩⟩

/-- C15, counterexample: overwriting the keycode of the only entry of
`sparse_table` (one entry in 64 slots, 512 bytes) with keycode 30 halves the
capacity to 32 although nothing is deleted; and overwriting the keycode of the
entry of the full one-slot table `full_table` doubles its capacity although
nothing is inserted. -/
theorem overwrite_changes_capacity :
    table_ok sparse_table ∧ sparse_table.size = 64 ∧
    (ir_update_mapping {7} sparse_table 0 30 (some fun _ => ⟨0, 0⟩)).2.2.size = 32 ∧
    entries sparse_table = [⟨5, 7⟩] ∧
    entries (ir_update_mapping {7} sparse_table 0 30 (some fun _ => ⟨0, 0⟩)).2.2 = [⟨5, 30⟩] ∧
    table_ok full_table ∧ full_table.size = 1 ∧
    (ir_update_mapping {2} full_table 0 30 (some fun _ => ⟨0, 0⟩)).2.2.size = 2 ∧
    entries (ir_update_mapping {2} full_table 0 30 (some fun _ => ⟨0, 0⟩)).2.2 = [⟨1, 30⟩] := by
  refine ⟨by decide, by decide, by decide, by decide, by decide, by decide, by decide,
    by decide, by decide⟩

/-! ## Length and capacity -/

theorem lookup_loop_total (scan : List ir_scancode) (S : Nat) :
    ∀ (fuel : Nat) (start stop : Int), 0 ≤ start → 0 < fuel → stop - start + 1 < fuel →
      ∃ r, lookup_loop scan S fuel start stop = some r := by
  intro fuel
  induction fuel with
  | zero =>
    intro start stop _ h1 _
    omega
  | succ fuel ih =>
    intro start stop h0 _ h1
    unfold lookup_loop
    by_cases hc : start ≤ stop
    · rw [if_pos hc]
      have hmid : Int.tdiv (start + stop) 2 = (start + stop) / 2 :=
        Int.tdiv_eq_ediv (by omega) (by omega)
      simp only [hmid]
      split_ifs
      · exact ih _ _ (by omega) (by omega) (by omega)
      · exact ih _ _ h0 (by omega) (by omega)
      · exact ⟨_, rfl⟩
    · rw [if_neg hc]
      exact ⟨_, rfl⟩

/-- The lookup loop ends within its fuel on every table, sorted or not. -/
theorem lookup_total (t : ir_scancode_table) (S : Nat) :
    ∃ r, ir_lookup_by_scancode t S = some r := by
  unfold ir_lookup_by_scancode
  have hstop : int_of_uint (uint_sub t.len 1) ≤ (t.len : Int) - 1 := by
    unfold int_of_uint uint_sub UINT_MOD
    split_ifs <;> omega
  exact lookup_loop_total t.scan S (t.len + 1) 0 _ (le_refl _) (by omega)
    (by push_cast; omega)

theorem g_keycode_total (d : ir_input_dev) (S : Nat) :
    ∃ K, ir_g_keycode_from_table d S = some K := by
  obtain ⟨r, hr⟩ := lookup_total d.rc_tab S
  unfold ir_g_keycode_from_table
  rw [hr]
  exact ⟨_, rfl⟩

/-- `ir_keydown` reads the table and the bitmap but never changes them. -/
theorem keydown_keeps_table (d : ir_input_dev) (S T j : Nat)
    (r : ir_input_dev × List sink_call) (hr : ir_keydown d S T j = some r) :
    r.1.rc_tab = d.rc_tab ∧ r.1.keybit = d.keybit ∧ r.1.props = d.props := by
  obtain ⟨K, hK⟩ := g_keycode_total d S
  unfold ir_keydown at hr
  rw [hK, Option.map_some'] at hr
  have hup : (ir_keyup d).1.rc_tab = d.rc_tab ∧ (ir_keyup d).1.keybit = d.keybit ∧
      (ir_keyup d).1.props = d.props := by
    unfold ir_keyup
    split_ifs <;> exact ⟨rfl, rfl, rfl⟩
  simp only [Option.some.injEq] at hr
  rw [← hr]
  split_ifs
  · exact ⟨rfl, rfl, rfl⟩
  · exact hup
  · exact hup

/-- C17 (amended): for every well-formed ascending table and every scancode
`S` not present in it, `ir_keydown(S, toggle)` emits scan-observed for `S`
first, emits no key-down, and leaves the table and the bitmap unchanged: no
entry is inserted, so a following `ir_getkeycode` by scancode `S` still
reports `KEY_RESERVED`, with 65535 (the low 16 bits of `-1U`) in the `index`
field. -/
theorem keydown_does_not_insert (d : ir_input_dev) (S T j : Nat) (q : input_keymap_entry)
    (h : table_ok d.rc_tab) (hs : ascending (entries d.rc_tab))
    (hno : ∀ e ∈ entries d.rc_tab, e.scancode ≠ S)
    (hq : q.flags &&& INPUT_KEYMAP_BY_INDEX = 0) :
    ∃ (d1 : ir_input_dev) (ev : List sink_call),
      ir_keydown d S T j = some (d1, sink_call.msc_scan S :: ev) ∧
      (∀ k, sink_call.report_key k 1 ∉ ev) ∧
      d1.rc_tab = d.rc_tab ∧ d1.keybit = d.keybit ∧
      ir_getkeycode d1 q (0, S) =
        some (0, { q with index := 65535, keycode := KEY_RESERVED }) := by
  have hg := g_keycode_absent d S h hs hno
  have hev : ∀ k, sink_call.report_key k 1 ∉ (ir_keyup d).2 := by
    intro k
    unfold ir_keyup
    split_ifs <;> simp
  by_cases hrep : d.keypressed = true ∧ d.last_scancode = S ∧ d.last_toggle = T
  · have hk := keydown_repeat d S T j KEY_RESERVED hg hrep.1 hrep.2.1 hrep.2.2
    obtain ⟨k1, k2, _⟩ := keydown_keeps_table d S T j _ hk
    refine ⟨_, [], hk, by simp, k1, k2, ?_⟩
    exact getkeycode_absent _ q S (by rw [k1]; exact h) (by rw [k1]; exact hs)
      (by rw [k1]; exact hno) hq
  · have hk := keydown_unmapped d S T j hg hrep
    obtain ⟨k1, k2, _⟩ := keydown_keeps_table d S T j _ hk
    refine ⟨_, (ir_keyup d).2, hk, hev, k1, k2, ?_⟩
    exact getkeycode_absent _ q S (by rw [k1]; exact h) (by rw [k1]; exact hs)
      (by rw [k1]; exact hno) hq

theorem keydown_does_not_insert_witness :
    (table_ok example_dev.rc_tab ∧ ascending (entries example_dev.rc_tab) ∧
      (∀ e ∈ entries example_dev.rc_tab, e.scancode ≠ 16) ∧
      (0 : Nat) &&& INPUT_KEYMAP_BY_INDEX = 0) ∧
    ∃ (d1 : ir_input_dev) (ev : List sink_call),
      ir_keydown example_dev 16 0 100 = some (d1, sink_call.msc_scan 16 :: ev) ∧
      (∀ k, sink_call.report_key k 1 ∉ ev) ∧
      d1.rc_tab = example_dev.rc_tab ∧ d1.keybit = example_dev.keybit ∧
      ir_getkeycode d1 ⟨0, 4, 0, 0, []⟩ (0, 16) =
        some (0, { flags := 0, len := 4, index := 65535, keycode := KEY_RESERVED,
                   scancode := [] }) :=
  ⟨⟨by decide, by decide, by decide, by decide⟩,
    keydown_does_not_insert example_dev 16 0 100 ⟨0, 4, 0, 0, []⟩ (by decide) (by decide)
      (by decide) (by decide)⟩

/-- C17, counterexample: on a freshly created empty table with capacity 32,
`ir_keydown(0x10, 0)` emits scan-observed only and the table still has no
entry (`len = 0`); it does not contain (0x10, `KEY_RESERVED`). -/
theorem keydown_on_empty_table :
    (fresh_dev none "rc-example" 0 32 (fun _ => ⟨7, 7⟩)).rc_tab.size = 32 ∧
    (fresh_dev none "rc-example" 0 32 (fun _ => ⟨7, 7⟩)).rc_tab.len = 0 ∧
    (ir_keydown (fresh_dev none "rc-example" 0 32 (fun _ => ⟨7, 7⟩)) 16 0 100).map
        (fun r => (r.1.rc_tab.len, entries r.1.rc_tab, r.2))
      = some (0, [], [sink_call.msc_scan 16]) := by
  refine ⟨by decide, by decide, by decide⟩

theorem keyup_alt (d : ir_input_dev) :
    (ir_keyup d).2.foldl alt_step (some (key_state d)) = some none ∧
      key_state (ir_keyup d).1 = none ∧ (ir_keyup d).1.keypressed = false ∧
      (ir_keyup d).1.keyup_jiffies = d.keyup_jiffies := by
  unfold ir_keyup key_state
  cases hp : d.keypressed <;> simp [alt_step, hp]

/-- The three outcomes of `ir_keydown`: repeat, unmapped scancode, press. -/
theorem keydown_cases (d : ir_input_dev) (S T j : Nat) :
    (d.keypressed = true ∧
      ir_keydown d S T j = some (set_timer d j, [sink_call.msc_scan S])) ∨
    (ir_keydown d S T j =
      some ({ (ir_keyup d).1 with last_scancode := S, last_toggle := T,
                                  last_keycode := KEY_RESERVED },
        sink_call.msc_scan S :: (ir_keyup d).2)) ∨
    (∃ K, K ≠ KEY_RESERVED ∧
      ir_keydown d S T j =
        some (set_timer { (ir_keyup d).1 with last_scancode := S, last_toggle := T,
                                              last_keycode := K, keypressed := true } j,
          sink_call.msc_scan S :: (ir_keyup d).2 ++
            [sink_call.report_key K 1, sink_call.sync])) := by
  obtain ⟨K, hK⟩ := g_keycode_total d S
  by_cases hrep : d.keypressed = true ∧ d.last_scancode = S ∧ d.last_toggle = T
  · left
    exact ⟨hrep.1, keydown_repeat d S T j K hK hrep.1 hrep.2.1 hrep.2.2⟩
  · by_cases hK0 : K = KEY_RESERVED
    · right; left
      rw [hK0] at hK
      exact keydown_unmapped d S T j hK hrep
    · right; right
      exact ⟨K, hK0, keydown_press d S T j K hK hK0 hrep⟩

theorem foldl_alt_skip (st : Option Nat) (S : Nat) (tr : List sink_call) :
    (sink_call.msc_scan S :: tr).foldl alt_step (some st) = tr.foldl alt_step (some st) := by
  cases st <;> rfl

/-- Each step is accepted by the recogniser and takes it from the state of the
device before the step to the state of the device after it. -/
theorem apply_key_alt (d : ir_input_dev) (op : key_op) :
    ∃ r, apply_key d op = some r ∧
      r.2.foldl alt_step (some (key_state d)) = some (key_state r.1) := by
  obtain ⟨u1, u2, u3, _⟩ := keyup_alt d
  cases op with
  | keydown S T j =>
    rcases keydown_cases d S T j with ⟨hp, hk⟩ | hk | ⟨K, hK0, hk⟩
    · refine ⟨_, hk, ?_⟩
      rw [foldl_alt_skip]
      rfl
    · refine ⟨_, hk, ?_⟩
      rw [foldl_alt_skip, u1]
      unfold key_state
      simp only []
      rw [if_neg (by rw [u3]; simp)]
    · refine ⟨_, hk, ?_⟩
      simp only []
      rw [List.cons_append, foldl_alt_skip, List.foldl_append, u1]
      have hv : ¬ ((1 : Nat) = 0) := by decide
      simp [alt_step, key_state, set_timer, hv]
  | rpt j =>
    refine ⟨ir_repeat d j, rfl, ?_⟩
    unfold ir_repeat
    split_ifs
    · rw [foldl_alt_skip]; rfl
    · rw [foldl_alt_skip]; rfl
  | keyup => exact ⟨ir_keyup d, rfl, by rw [u1, u2]⟩
  | timer j =>
    refine ⟨ir_timer_keyup d j, rfl, ?_⟩
    unfold ir_timer_keyup
    split_ifs
    · rw [u1, u2]
    · rfl

theorem run_keys_alt (ops : List key_op) :
    ∀ d : ir_input_dev, ∃ r, run_keys d ops = some r ∧
      r.2.foldl alt_step (some (key_state d)) = some (key_state r.1) := by
  induction ops with
  | nil => intro d; exact ⟨(d, []), rfl, rfl⟩
  | cons op ops ih =>
    intro d
    obtain ⟨r1, h1, f1⟩ := apply_key_alt d op
    obtain ⟨r2, h2, f2⟩ := ih r1.1
    refine ⟨(r2.1, r1.2 ++ r2.2), ?_, ?_⟩
    · show (apply_key d op).bind _ = _
      rw [h1, Option.some_bind, h2, Option.map_some']
    · rw [List.foldl_append, f1, f2]

/-- C18: for every finite sequence of `ir_keydown`, `ir_repeat`, `ir_keyup` and
`ir_timer_keyup` steps from an Idle state, with any table, scancodes, toggles
and times, the run produces a trace, and the key events of the trace are
accepted by the recogniser `alt_run`: they alternate key-down, key-up,
key-down, ... beginning with a key-down, and each key-up carries the keycode
of the key-down before it.  After the sequence `keypressed` is true exactly
when the last key event was a key-down, and then that key-down carried
`last_keycode`. -/
theorem key_events_alternate (d : ir_input_dev) (ops : List key_op)
    (hidle : d.keypressed = false) :
    ∃ (d1 : ir_input_dev) (tr : List sink_call),
      run_keys d ops = some (d1, tr) ∧
      alt_run tr = some (key_state d1) ∧
      (d1.keypressed = true ↔ ∃ k, alt_run tr = some (some k)) ∧
      (d1.keypressed = true → alt_run tr = some (some d1.last_keycode)) := by
  obtain ⟨r, h1, f1⟩ := run_keys_alt ops d
  have hks : key_state d = none := by unfold key_state; rw [if_neg (by rw [hidle]; simp)]
  rw [hks] at f1
  refine ⟨r.1, r.2, h1, f1, ?_, ?_⟩
  · unfold alt_run
    rw [f1]
    unfold key_state
    constructor
    · intro hp
      exact ⟨r.1.last_keycode, by rw [if_pos hp]⟩
    · rintro ⟨k, hk⟩
      by_contra hp
      rw [if_neg hp] at hk
      simp at hk
  · intro hp
    unfold alt_run
    rw [f1]
    unfold key_state
    rw [if_pos hp]

theorem key_events_alternate_witness :
    example_dev.keypressed = false ∧
    ∃ (d1 : ir_input_dev) (tr : List sink_call),
      run_keys example_dev [key_op.keydown 3 0 100, key_op.rpt 150, key_op.keydown 1 0 200,
        key_op.timer 500] = some (d1, tr) ∧
      alt_run tr = some (key_state d1) ∧
      (d1.keypressed = true ↔ ∃ k, alt_run tr = some (some k)) ∧
      (d1.keypressed = true → alt_run tr = some (some d1.last_keycode)) :=
  ⟨by decide,
    key_events_alternate example_dev [key_op.keydown 3 0 100, key_op.rpt 150,
      key_op.keydown 1 0 200, key_op.timer 500] (by decide)⟩

theorem apply_key_inv (d : ir_input_dev) (op : key_op) (acc : Option Nat)
    (hJ : key_inv d acc) :
    ∃ r, apply_key d op = some r ∧ key_inv r.1 (renew_acc d op acc) := by
  obtain ⟨_, _, u3, u4⟩ := keyup_alt d
  obtain ⟨J1, J2⟩ := hJ
  cases op with
  | keydown S T j =>
    rcases keydown_cases d S T j with ⟨hp, hk⟩ | hk | ⟨K, hK0, hk⟩
    · refine ⟨_, hk, ?_⟩
      have hr : renew_acc d (key_op.keydown S T j) acc = some j := by
        simp [renew_acc, renewal, hk, set_timer, hp]
      rw [hr]
      refine ⟨fun _ => ⟨(J1 hp).1, j, rfl⟩, ?_⟩
      intro t ht
      cases ht
      rfl
    · refine ⟨_, hk, ?_⟩
      have hr : renew_acc d (key_op.keydown S T j) acc = acc := by
        simp [renew_acc, renewal, hk, u3]
      rw [hr]
      refine ⟨?_, ?_⟩
      · intro hp
        simp only [] at hp
        rw [u3] at hp
        cases hp
      · intro t ht
        simp only []
        rw [u4]
        exact J2 t ht
    · refine ⟨_, hk, ?_⟩
      have hr : renew_acc d (key_op.keydown S T j) acc = some j := by
        simp [renew_acc, renewal, hk, set_timer]
      rw [hr]
      refine ⟨fun _ => ⟨hK0, j, rfl⟩, ?_⟩
      intro t ht
      cases ht
      rfl
  | rpt j =>
    refine ⟨ir_repeat d j, rfl, ?_⟩
    unfold renew_acc renewal ir_repeat
    cases hp : d.keypressed
    · simp only [if_true]
      refine ⟨?_, ?_⟩
      · intro hp2
        rw [hp] at hp2
        cases hp2
      · intro t ht
        exact J2 t (by simpa using ht)
    · refine ⟨fun _ => ⟨(J1 hp).1, j, by simp⟩, ?_⟩
      intro t ht
      simp at ht
      subst ht
      simp [set_timer]
  | keyup =>
    refine ⟨ir_keyup d, rfl, ?_⟩
    refine ⟨?_, ?_⟩
    · intro hp
      rw [u3] at hp
      cases hp
    · intro t ht
      rw [u4]
      exact J2 t ht
  | timer j =>
    refine ⟨ir_timer_keyup d j, rfl, ?_⟩
    unfold ir_timer_keyup
    split_ifs
    · refine ⟨?_, ?_⟩
      · intro hp
        rw [u3] at hp
        cases hp
      · intro t ht
        rw [u4]
        exact J2 t ht
    · exact ⟨J1, J2⟩

theorem run_keys_inv (ops : List key_op) :
    ∀ (d : ir_input_dev) (acc : Option Nat), key_inv d acc →
      ∃ r, run_keys d ops = some r ∧ key_inv r.1 (last_renewal d ops acc) := by
  induction ops with
  | nil => intro d acc hJ; exact ⟨(d, []), rfl, hJ⟩
  | cons op ops ih =>
    intro d acc hJ
    obtain ⟨r1, h1, J1⟩ := apply_key_inv d op acc hJ
    obtain ⟨r2, h2, J2⟩ := ih r1.1 _ J1
    refine ⟨(r2.1, r1.2 ++ r2.2), ?_, ?_⟩
    · show (apply_key d op).bind _ = _
      rw [h1, Option.some_bind, h2, Option.map_some']
    · have hl : last_renewal d (op :: ops) acc = last_renewal r1.1 ops (renew_acc d op acc) := by
        show ((apply_key d op).map _).getD acc = _
        rw [h1]
        rfl
      rw [hl]
      exact J2

/-- C19: in every state reached from an Idle state by any finite sequence of
`ir_keydown`, `ir_repeat`, `ir_keyup` and `ir_timer_keyup` steps (any table,
scancodes, toggles and times), `keypressed = true` implies that `last_keycode`
is not `KEY_RESERVED` and that `keyup_jiffies` equals the time of the most
recent renewal (the last `ir_keydown` that ended pressed or `ir_repeat` run
while pressed) plus the 250 ms timeout.  The deadline equation also holds in
the states that are not pressed, once a renewal has happened. -/
theorem key_state_invariant (d : ir_input_dev) (ops : List key_op)
    (hidle : d.keypressed = false) :
    ∃ (d1 : ir_input_dev) (tr : List sink_call),
      run_keys d ops = some (d1, tr) ∧
      (d1.keypressed = true →
        d1.last_keycode ≠ KEY_RESERVED ∧
        ∃ t, last_renewal d ops none = some t ∧ d1.keyup_jiffies = t + 250) ∧
      (∀ t, last_renewal d ops none = some t → d1.keyup_jiffies = t + 250) := by
  have h0 : key_inv d none := by
    refine ⟨?_, ?_⟩
    · intro hp
      rw [hidle] at hp
      cases hp
    · intro t ht
      cases ht
  obtain ⟨r, h1, J1, J2⟩ := run_keys_inv ops d none h0
  refine ⟨r.1, r.2, h1, ?_, J2⟩
  intro hp
  obtain ⟨k1, t, ht⟩ := J1 hp
  exact ⟨k1, t, ht, J2 t ht⟩

theorem key_state_invariant_witness :
    example_dev.keypressed = false ∧
    ∃ (d1 : ir_input_dev) (tr : List sink_call),
      run_keys example_dev [key_op.keydown 3 0 100, key_op.rpt 150, key_op.timer 200,
        key_op.keydown 5 1 300] = some (d1, tr) ∧
      (d1.keypressed = true →
        d1.last_keycode ≠ KEY_RESERVED ∧
        ∃ t, last_renewal example_dev [key_op.keydown 3 0 100, key_op.rpt 150,
          key_op.timer 200, key_op.keydown 5 1 300] none = some t ∧
          d1.keyup_jiffies = t + 250) ∧
      (∀ t, last_renewal example_dev [key_op.keydown 3 0 100, key_op.rpt 150,
          key_op.timer 200, key_op.keydown 5 1 300] none = some t →
        d1.keyup_jiffies = t + 250) :=
  ⟨by decide,
    key_state_invariant example_dev [key_op.keydown 3 0 100, key_op.rpt 150,
      key_op.timer 200, key_op.keydown 5 1 300] (by decide)⟩

/-- One iteration of the loop of `ir_setkeytable`: it fails, leaving the device
as it is, exactly when the table is full and the masked scancode is absent;
otherwise the entry is loaded and the loop goes on. -/
theorem setkeytable_step (src : ir_scancode_table) (kms : Nat → kmalloc_result) (n i : Nat)
    (d : ir_input_dev) (h : table_ok d.rc_tab) (hs : ascending (entries d.rc_tab)) :
    (d.rc_tab.size = d.rc_tab.len ∧
      (∀ e ∈ entries d.rc_tab,
        e.scancode ≠ apply_scanmask d.props (src.scan.getD i default).scancode) ∧
      setkeytable_loop src kms (n + 1) i d = (-ENOMEM, d)) ∨
    (¬ (d.rc_tab.size = d.rc_tab.len ∧ ∀ e ∈ entries d.rc_tab,
        e.scancode ≠ apply_scanmask d.props (src.scan.getD i default).scancode) ∧
      setkeytable_loop src kms (n + 1) i d =
        setkeytable_loop src kms n (i + 1) (load_entry d (src.scan.getD i default) (kms i)) ∧
      table_ok (load_entry d (src.scan.getD i default) (kms i)).rc_tab ∧
      ascending (entries (load_entry d (src.scan.getD i default) (kms i)).rc_tab)) := by
  have hdef : setkeytable_loop src kms (n + 1) i d =
      if (ir_establish_scancode d.props d.rc_tab (src.scan.getD i default).scancode false
            (kms i)).1 ≥
          (ir_establish_scancode d.props d.rc_tab (src.scan.getD i default).scancode false
            (kms i)).2.len
      then (-ENOMEM, { d with rc_tab := (ir_establish_scancode d.props d.rc_tab
            (src.scan.getD i default).scancode false (kms i)).2 })
      else setkeytable_loop src kms n (i + 1)
        (load_entry d (src.scan.getD i default) (kms i)) := rfl
  have hl := table_ok_len_le d.rc_tab h
  have hinv := establish_inv d.props d.rc_tab (src.scan.getD i default).scancode false
    (kms i) h hs
  have hcont : (ir_establish_scancode d.props d.rc_tab (src.scan.getD i default).scancode
        false (kms i)).1 <
      (ir_establish_scancode d.props d.rc_tab (src.scan.getD i default).scancode false
        (kms i)).2.len →
      setkeytable_loop src kms (n + 1) i d =
        setkeytable_loop src kms n (i + 1) (load_entry d (src.scan.getD i default) (kms i)) ∧
      table_ok (load_entry d (src.scan.getD i default) (kms i)).rc_tab ∧
      ascending (entries (load_entry d (src.scan.getD i default) (kms i)).rc_tab) := by
    intro hv
    refine ⟨?_, ?_, ?_⟩
    · rw [hdef, if_neg (not_le.mpr hv)]
    · exact (update_mapping_table d.keybit _ _ (src.scan.getD i default).keycode (kms i)
        hinv.1 hv).2.1
    · exact update_mapping_ascending d.keybit _ _ (src.scan.getD i default).keycode (kms i)
        hinv.1 hv hinv.2
  rcases establish_cases d.props d.rc_tab (src.scan.getD i default).scancode false (kms i) h
    with ⟨c1, c2, c3⟩ | ⟨c1, c2, _, c4⟩ | ⟨c1, _, c3, _, c5, _⟩
  · right
    refine ⟨?_, hcont (by rw [c2]; exact c1)⟩
    rintro ⟨_, habs⟩
    exact habs _ ((mem_entries_iff d.rc_tab hl.1 _).2 ⟨_, c1, rfl⟩) c3
  · left
    refine ⟨c2, c4 hs, ?_⟩
    rw [hdef, c1]
    have hm : d.rc_tab.len ≤ MINUS_ONE_U := by
      have := hl.2
      unfold MINUS_ONE_U
      omega
    simp only []
    rw [if_pos hm]
  · right
    refine ⟨?_, hcont (by rw [c3]; omega)⟩
    rintro ⟨hf, _⟩
    have := (c5 hf).1
    cases this

/-- The loop of `ir_setkeytable` returns 0, or stops with `-ENOMEM` at a source
entry whose masked scancode is absent from the table, which is full then. -/
theorem setkeytable_loop_result (src : ir_scancode_table) (kms : Nat → kmalloc_result) :
    ∀ (n i : Nat) (d : ir_input_dev), table_ok d.rc_tab → ascending (entries d.rc_tab) →
      (setkeytable_loop src kms n i d).1 = 0 ∨
      ((setkeytable_loop src kms n i d).1 = -ENOMEM ∧
        ∃ k, i ≤ k ∧ k < i + n ∧
          (setkeytable_loop src kms n i d).2.rc_tab.size =
            (setkeytable_loop src kms n i d).2.rc_tab.len ∧
          ∀ e ∈ entries (setkeytable_loop src kms n i d).2.rc_tab,
            e.scancode ≠ apply_scanmask (setkeytable_loop src kms n i d).2.props
              (src.scan.getD k default).scancode) := by
  intro n
  induction n with
  | zero => intro i d _ _; left; rfl
  | succ n ih =>
    intro i d h hs
    rcases setkeytable_step src kms n i d h hs with ⟨c1, c2, c3⟩ | ⟨_, c2, c3, c4⟩
    · right
      rw [c3]
      exact ⟨rfl, i, le_refl _, by omega, c1, c2⟩
    · rw [c2]
      rcases ih (i + 1) _ c3 c4 with r | ⟨r1, k, k1, k2, k3⟩
      · left; exact r
      · right
        exact ⟨r1, k, by omega, by omega, k3⟩

/-- C16 (amended): `ir_setkeytable` calls find-or-create with growth refused.
With the initial allocation succeeding it returns 0 or `-ENOMEM`; when it
returns an error the table has been released (`size = 0`, no buffer), and the
loop stopped at a source entry whose masked scancode was absent while the
table was full.  Conversely an iteration that needs an insertion while the
table is full stops with `-ENOMEM` and an unchanged table, whatever the
capacity is and whatever `kmalloc` would return: the table is not grown. -/
theorem setkeytable_growth_refused (d : ir_input_dev) (src : ir_scancode_table)
    (junk : Nat → ir_scancode) (kms : Nat → kmalloc_result)
    (h0 : d.rc_tab.len = 0) (hn : 1 ≤ src.size) (hn2 : src.size ≤ 268435456) :
    ((ir_setkeytable d src (some junk) kms).1 = 0 ∨
      (ir_setkeytable d src (some junk) kms).1 = -ENOMEM) ∧
    ((ir_setkeytable d src (some junk) kms).1 ≠ 0 →
      (ir_setkeytable d src (some junk) kms).2.rc_tab.size = 0 ∧
      (ir_setkeytable d src (some junk) kms).2.rc_tab.scan = [] ∧
      ∃ (k : Nat) (d1 : ir_input_dev), k < src.size ∧
        setkeytable_loop src kms src.size 0
          { d with rc_tab := (ir_create_table d.rc_tab src.name src.ir_type src.size
              (some junk)).2 } = (-ENOMEM, d1) ∧
        d1.rc_tab.size = d1.rc_tab.len ∧
        ∀ e ∈ entries d1.rc_tab,
          e.scancode ≠ apply_scanmask d1.props (src.scan.getD k default).scancode) ∧
    (∀ (d1 : ir_input_dev) (n i : Nat), table_ok d1.rc_tab →
      ascending (entries d1.rc_tab) → d1.rc_tab.size = d1.rc_tab.len →
      (∀ e ∈ entries d1.rc_tab,
        e.scancode ≠ apply_scanmask d1.props (src.scan.getD i default).scancode) →
      setkeytable_loop src kms (n + 1) i d1 = (-ENOMEM, d1)) := by
  have hc := create_ok d.rc_tab src.name src.ir_type src.size junk hn hn2 h0
  have hent : entries (ir_create_table d.rc_tab src.name src.ir_type src.size
      (some junk)).2 = [] := by
    unfold entries
    rw [hc.2]
    rfl
  have hasc : ascending (entries (ir_create_table d.rc_tab src.name src.ir_type src.size
      (some junk)).2) := by
    rw [hent]
    exact List.Pairwise.nil
  have hdef : ir_setkeytable d src (some junk) kms =
      if (setkeytable_loop src kms src.size 0
          { d with rc_tab := (ir_create_table d.rc_tab src.name src.ir_type src.size
              (some junk)).2 }).1 ≠ 0
      then ((setkeytable_loop src kms src.size 0
          { d with rc_tab := (ir_create_table d.rc_tab src.name src.ir_type src.size
              (some junk)).2 }).1,
        { (setkeytable_loop src kms src.size 0
          { d with rc_tab := (ir_create_table d.rc_tab src.name src.ir_type src.size
              (some junk)).2 }).2 with
          rc_tab := ir_free_table (setkeytable_loop src kms src.size 0
            { d with rc_tab := (ir_create_table d.rc_tab src.name src.ir_type src.size
              (some junk)).2 }).2.rc_tab })
      else setkeytable_loop src kms src.size 0
          { d with rc_tab := (ir_create_table d.rc_tab src.name src.ir_type src.size
              (some junk)).2 } := rfl
  have hres := setkeytable_loop_result src kms src.size 0
    { d with rc_tab := (ir_create_table d.rc_tab src.name src.ir_type src.size
        (some junk)).2 } hc.1 hasc
  refine ⟨?_, ?_, ?_⟩
  · rw [hdef]
    rcases hres with r | ⟨r, _⟩
    · left
      rw [if_neg (by rw [r]; simp)]
      exact r
    · right
      rw [if_pos (by rw [r]; decide)]
      exact r
  · intro hne
    rw [hdef] at hne ⊢
    rcases hres with r | ⟨r, k, _, k2, k3, k4⟩
    · rw [if_neg (by rw [r]; simp)] at hne
      exact absurd r hne
    · rw [if_pos (by rw [r]; decide)]
      refine ⟨rfl, rfl, k, _, by omega, Prod.ext r rfl, k3, k4⟩
  · intro d1 n i h1 hs1 hfull habs
    rcases setkeytable_step src kms n i d1 h1 hs1 with ⟨_, _, c3⟩ | ⟨c1, _⟩
    · exact c3
    · exact absurd ⟨hfull, habs⟩ c1

theorem setkeytable_growth_refused_witness :
    ((zeroed_dev none).rc_tab.len = 0 ∧ 1 ≤ dup_source.size ∧ dup_source.size ≤ 268435456) ∧
    (((ir_setkeytable (zeroed_dev none) dup_source (some fun _ => ⟨7, 7⟩)
        (fun _ => some fun _ => ⟨7, 7⟩)).1 = 0 ∨
      (ir_setkeytable (zeroed_dev none) dup_source (some fun _ => ⟨7, 7⟩)
        (fun _ => some fun _ => ⟨7, 7⟩)).1 = -ENOMEM) ∧
    ((ir_setkeytable (zeroed_dev none) dup_source (some fun _ => ⟨7, 7⟩)
        (fun _ => some fun _ => ⟨7, 7⟩)).1 ≠ 0 →
      (ir_setkeytable (zeroed_dev none) dup_source (some fun _ => ⟨7, 7⟩)
        (fun _ => some fun _ => ⟨7, 7⟩)).2.rc_tab.size = 0 ∧
      (ir_setkeytable (zeroed_dev none) dup_source (some fun _ => ⟨7, 7⟩)
        (fun _ => some fun _ => ⟨7, 7⟩)).2.rc_tab.scan = [] ∧
      ∃ (k : Nat) (d1 : ir_input_dev), k < dup_source.size ∧
        setkeytable_loop dup_source (fun _ => some fun _ => ⟨7, 7⟩) dup_source.size 0
          { zeroed_dev none with
            rc_tab := (ir_create_table (zeroed_dev none).rc_tab dup_source.name
              dup_source.ir_type dup_source.size (some fun _ => ⟨7, 7⟩)).2 } = (-ENOMEM, d1) ∧
        d1.rc_tab.size = d1.rc_tab.len ∧
        ∀ e ∈ entries d1.rc_tab,
          e.scancode ≠ apply_scanmask d1.props (dup_source.scan.getD k default).scancode) ∧
    (∀ (d1 : ir_input_dev) (n i : Nat), table_ok d1.rc_tab →
      ascending (entries d1.rc_tab) → d1.rc_tab.size = d1.rc_tab.len →
      (∀ e ∈ entries d1.rc_tab,
        e.scancode ≠ apply_scanmask d1.props (dup_source.scan.getD i default).scancode) →
      setkeytable_loop dup_source (fun _ => some fun _ => ⟨7, 7⟩) (n + 1) i d1 =
        (-ENOMEM, d1))) :=
  ⟨⟨by decide, by decide, by decide⟩,
    setkeytable_growth_refused (zeroed_dev none) dup_source (fun _ => ⟨7, 7⟩)
      (fun _ => some fun _ => ⟨7, 7⟩) (by decide) (by decide) (by decide)⟩

/-- C16, counterexample: a source of 34 entries in which scancode 1 occurs
twice, every allocation succeeding.  The table is created with 512 bytes (64
slots); overwriting the duplicate shrinks it to 256 bytes (32 slots); the
entry with the 33rd distinct scancode then needs an insertion while the table
is full at 256 bytes, far below `IR_TAB_MAX_SIZE`: the table is not grown and
`ir_setkeytable` returns `-ENOMEM`. -/
theorem setkeytable_fails_below_max :
    (ir_create_table zeroed_table "rc-dup" 0 34 (some fun _ => ⟨7, 7⟩)).2.alloc = 512 ∧
    (setkeytable_loop dup_source (fun _ => some fun _ => ⟨7, 7⟩) 34 0
      { zeroed_dev none with
        rc_tab := (ir_create_table zeroed_table "rc-dup" 0 34
          (some fun _ => ⟨7, 7⟩)).2 }).2.rc_tab.alloc = 256 ∧
    (setkeytable_loop dup_source (fun _ => some fun _ => ⟨7, 7⟩) 34 0
      { zeroed_dev none with
        rc_tab := (ir_create_table zeroed_table "rc-dup" 0 34
          (some fun _ => ⟨7, 7⟩)).2 }).2.rc_tab.len = 32 ∧
    256 < IR_TAB_MAX_SIZE ∧
    (ir_setkeytable (zeroed_dev none) dup_source (some fun _ => ⟨7, 7⟩)
      (fun _ => some fun _ => ⟨7, 7⟩)).1 = -ENOMEM := by
  set_option maxRecDepth 100000 in
  refine ⟨by decide, by decide, by decide, by decide, by decide⟩

theorem mem_insert_split (l : List ir_scancode) (i : Nat) (e x : ir_scancode) :
    x ∈ l.take i ++ e :: l.drop i ↔ x ∈ l ∨ x = e := by
  rw [List.mem_append, List.mem_cons]
  constructor
  · rintro (hx | hx | hx)
    · exact Or.inl (List.mem_of_mem_take hx)
    · exact Or.inr hx
    · exact Or.inl (List.mem_of_mem_drop hx)
  · rintro (hx | hx)
    · rw [← List.take_append_drop i l, List.mem_append] at hx
      rcases hx with hx | hx
      · exact Or.inl hx
      · exact Or.inr (Or.inr hx)
    · exact Or.inr (Or.inl hx)

theorem eraseIdx_insert (l : List ir_scancode) (i : Nat) (e : ir_scancode)
    (hi : i ≤ l.length) : (l.take i ++ e :: l.drop i).eraseIdx i = l := by
  have hl : (l.take i).length = i := by rw [List.length_take]; omega
  rw [List.eraseIdx_append_of_length_le (by omega), hl, Nat.sub_self]
  simp

theorem set_insert (l : List ir_scancode) (i : Nat) (e y : ir_scancode)
    (hi : i ≤ l.length) :
    (l.take i ++ e :: l.drop i).set i y = l.take i ++ y :: l.drop i := by
  have hl : (l.take i).length = i := by rw [List.length_take]; omega
  rw [List.set_append_right _ _ (by omega), hl, Nat.sub_self]
  rfl

theorem getD_insert (l : List ir_scancode) (i : Nat) (e : ir_scancode)
    (hi : i ≤ l.length) : (l.take i ++ e :: l.drop i).getD i default = e := by
  have hl : (l.take i).length = i := by rw [List.length_take]; omega
  rw [List.getD_append_right _ _ _ _ (by omega), hl, Nat.sub_self]
  rfl

/-- Loading a source entry whose masked scancode is absent into a table with
room: the capacity stays, and the table gains the entry unless its keycode is
`KEY_RESERVED` or `KEY_UNKNOWN`. -/
theorem load_entry_absent (d : ir_input_dev) (e : ir_scancode) (km : kmalloc_result)
    (h : table_ok d.rc_tab)
    (habs : ∀ x ∈ entries d.rc_tab, x.scancode ≠ apply_scanmask d.props e.scancode)
    (hroom : d.rc_tab.len < d.rc_tab.size) :
    (load_entry d e km).props = d.props ∧
    (load_entry d e km).rc_tab.size = d.rc_tab.size ∧
    (load_entry d e km).rc_tab.alloc = d.rc_tab.alloc ∧
    (load_entry d e km).rc_tab.len ≤ d.rc_tab.len + 1 ∧
    (∀ x, x ∈ entries (load_entry d e km).rc_tab ↔
      x ∈ entries d.rc_tab ∨
        (x = ⟨apply_scanmask d.props e.scancode, e.keycode⟩ ∧
          ¬ (e.keycode = KEY_RESERVED ∨ e.keycode = KEY_UNKNOWN))) := by
  have hl := table_ok_len_le d.rc_tab h
  refine ⟨rfl, ?_⟩
  show (ir_update_mapping d.keybit
      (ir_establish_scancode d.props d.rc_tab e.scancode false km).2
      (ir_establish_scancode d.props d.rc_tab e.scancode false km).1 e.keycode km).2.2.size
        = d.rc_tab.size ∧
    (ir_update_mapping d.keybit
      (ir_establish_scancode d.props d.rc_tab e.scancode false km).2
      (ir_establish_scancode d.props d.rc_tab e.scancode false km).1 e.keycode km).2.2.alloc
        = d.rc_tab.alloc ∧
    (ir_update_mapping d.keybit
      (ir_establish_scancode d.props d.rc_tab e.scancode false km).2
      (ir_establish_scancode d.props d.rc_tab e.scancode false km).1 e.keycode km).2.2.len
        ≤ d.rc_tab.len + 1 ∧
    ∀ x, x ∈ entries (ir_update_mapping d.keybit
      (ir_establish_scancode d.props d.rc_tab e.scancode false km).2
      (ir_establish_scancode d.props d.rc_tab e.scancode false km).1 e.keycode km).2.2 ↔
      x ∈ entries d.rc_tab ∨
        (x = ⟨apply_scanmask d.props e.scancode, e.keycode⟩ ∧
          ¬ (e.keycode = KEY_RESERVED ∨ e.keycode = KEY_UNKNOWN))
  rcases establish_cases d.props d.rc_tab e.scancode false km h
    with ⟨c1, _, c3⟩ | ⟨_, c2, _⟩ | ⟨c1, c2, c3, c4, _, _⟩
  · exact absurd c3 (habs _ ((mem_entries_iff d.rc_tab hl.1 _).2 ⟨_, c1, rfl⟩))
  · omega
  · have hv : (ir_establish_scancode d.props d.rc_tab e.scancode false km).1 <
        (ir_establish_scancode d.props d.rc_tab e.scancode false km).2.len := by
      rw [c3]; omega
    have hlE := table_ok_len_le _ c2
    have hil : (ir_establish_scancode d.props d.rc_tab e.scancode false km).1 ≤
        (entries d.rc_tab).length := by
      rw [entries_length d.rc_tab hl.1]; exact c1
    have hsz : (ir_establish_scancode d.props d.rc_tab e.scancode false km).2.size =
        d.rc_tab.size := by
      rcases establish_shape d.props d.rc_tab e.scancode false km with s1 | ⟨_, s2⟩ | ⟨s1, _⟩
      · rw [s1] at c3; omega
      · rw [s2]
        exact (insert_at_spec d.rc_tab _ _ h hroom c1).2.2.1
      · omega
    have hal : (ir_establish_scancode d.props d.rc_tab e.scancode false km).2.alloc =
        d.rc_tab.alloc := by
      rcases establish_shape d.props d.rc_tab e.scancode false km with s1 | ⟨_, s2⟩ | ⟨s1, _⟩
      · rw [s1] at c3; omega
      · rw [s2]
        exact (insert_at_spec d.rc_tab _ _ h hroom c1).2.2.2.1
      · omega
    have hent : (ir_establish_scancode d.props d.rc_tab e.scancode false km).2.scan.getD
        (ir_establish_scancode d.props d.rc_tab e.scancode false km).1 default =
          ⟨apply_scanmask d.props e.scancode, KEY_RESERVED⟩ := by
      obtain ⟨hj2, hj3⟩ := getD_entries _ _ hv hlE.1
      rw [← hj3, ← List.getD_eq_getElem _ default hj2, c4]
      exact getD_insert _ _ _ hil
    have hum := update_mapping_table d.keybit _ _ e.keycode km c2 hv
    obtain ⟨_, _, u3, u4⟩ := hum
    have hshape := update_mapping_shape d.keybit
      (ir_establish_scancode d.props d.rc_tab e.scancode false km).2
      (ir_establish_scancode d.props d.rc_tab e.scancode false km).1 e.keycode km
    rw [hent] at hshape u4
    rw [if_neg (by simp)] at hshape
    by_cases hK : e.keycode = KEY_RESERVED ∨ e.keycode = KEY_UNKNOWN
    · rw [if_pos hK] at hshape u3 u4
      refine ⟨?_, ?_, ?_, ?_⟩
      · rw [hshape, (delete_at_spec _ _ c2 hv).2.2.1, hsz]
      · rw [hshape]; exact hal
      · rw [u3, c3]; omega
      · intro x
        rw [u4, c4, eraseIdx_insert _ _ _ hil]
        constructor
        · intro hx; exact Or.inl hx
        · rintro (hx | ⟨_, hx⟩)
          · exact hx
          · exact absurd hK hx
    · rw [if_neg hK] at hshape u3 u4
      refine ⟨?_, ?_, ?_, ?_⟩
      · rw [hshape, (overwrite_at_spec _ _ e.keycode c2).2.2.1, hsz]
      · rw [hshape]; exact hal
      · rw [u3, c3]
      · intro x
        rw [u4, c4, set_insert _ _ _ _ hil, mem_insert_split]
        constructor
        · rintro (hx | hx)
          · exact Or.inl hx
          · exact Or.inr ⟨hx, hK⟩
        · rintro (hx | ⟨hx, _⟩)
          · exact Or.inl hx
          · exact Or.inr hx

theorem nodup_map_getD (f : ir_scancode → Nat) (l : List ir_scancode)
    (hd : (l.map f).Nodup) (j i : Nat) (hji : j < i) (hi : i < l.length) :
    f (l.getD j default) ≠ f (l.getD i default) := by
  intro heq
  have hj : j < l.length := by omega
  have h1 := (List.nodup_iff_getElem?_ne_getElem?.1 hd) j i hji (by simpa using hi)
  apply h1
  rw [List.getElem?_map, List.getElem?_map, List.getElem?_eq_getElem hj,
    List.getElem?_eq_getElem hi]
  rw [List.getD_eq_getElem _ _ hj, List.getD_eq_getElem _ _ hi] at heq
  simp [heq]

theorem mem_iff_getD (l : List ir_scancode) (e : ir_scancode) :
    e ∈ l ↔ ∃ j, j < l.length ∧ l.getD j default = e := by
  rw [List.mem_iff_getElem]
  constructor
  · rintro ⟨j, hj, he⟩
    exact ⟨j, hj, by rw [List.getD_eq_getElem _ _ hj]; exact he⟩
  · rintro ⟨j, hj, he⟩
    exact ⟨j, hj, by rw [List.getD_eq_getElem _ _ hj] at he; exact he⟩

theorem g_keycode_iff_mem (d : ir_input_dev) (S K : Nat) (h : table_ok d.rc_tab)
    (hs : ascending (entries d.rc_tab)) (hK : K ≠ KEY_RESERVED) :
    ir_g_keycode_from_table d S = some K ↔ (⟨S, K⟩ : ir_scancode) ∈ entries d.rc_tab := by
  constructor
  · intro hg
    by_cases hp : ∃ x ∈ entries d.rc_tab, x.scancode = S
    · obtain ⟨x, hx1, hx2⟩ := hp
      have hx : (⟨S, x.keycode⟩ : ir_scancode) = x := by
        cases x
        simp only [] at hx2
        rw [hx2]
      have hg2 := g_keycode_of_mem d S x.keycode h hs (by rw [hx]; exact hx1)
      rw [hg2] at hg
      have := Option.some.inj hg
      rw [← this, hx]
      exact hx1
    · have hno : ∀ e ∈ entries d.rc_tab, e.scancode ≠ S := by
        intro e he hes
        exact hp ⟨e, he, hes⟩
      rw [g_keycode_absent d S h hs hno] at hg
      exact absurd (Option.some.inj hg).symm hK
  · exact g_keycode_of_mem d S K h hs

/-- The loop of `ir_setkeytable` on a source whose masked scancodes are
pairwise distinct, started in a table with room for the whole source: it
returns 0, the capacity stays, and the table holds the entries loaded so far
whose keycode is neither `KEY_RESERVED` nor `KEY_UNKNOWN`. -/
theorem setkeytable_loop_distinct (src : ir_scancode_table) (kms : Nat → kmalloc_result)
    (props : Option ir_dev_props) (hlen : src.scan.length = src.size)
    (hd : (src.scan.map (fun e => apply_scanmask props e.scancode)).Nodup) :
    ∀ (n i : Nat) (d : ir_input_dev), i + n = src.size → table_ok d.rc_tab →
      ascending (entries d.rc_tab) → d.props = props → d.rc_tab.len ≤ i →
      src.size ≤ d.rc_tab.size →
      (∀ x, x ∈ entries d.rc_tab ↔ ∃ j, j < i ∧
        x = ⟨apply_scanmask props (src.scan.getD j default).scancode,
              (src.scan.getD j default).keycode⟩ ∧
        ¬ ((src.scan.getD j default).keycode = KEY_RESERVED ∨
            (src.scan.getD j default).keycode = KEY_UNKNOWN)) →
      (setkeytable_loop src kms n i d).1 = 0 ∧
      table_ok (setkeytable_loop src kms n i d).2.rc_tab ∧
      ascending (entries (setkeytable_loop src kms n i d).2.rc_tab) ∧
      (setkeytable_loop src kms n i d).2.rc_tab.size = d.rc_tab.size ∧
      (setkeytable_loop src kms n i d).2.rc_tab.alloc = d.rc_tab.alloc ∧
      (∀ x, x ∈ entries (setkeytable_loop src kms n i d).2.rc_tab ↔ ∃ j, j < src.size ∧
        x = ⟨apply_scanmask props (src.scan.getD j default).scancode,
              (src.scan.getD j default).keycode⟩ ∧
        ¬ ((src.scan.getD j default).keycode = KEY_RESERVED ∨
            (src.scan.getD j default).keycode = KEY_UNKNOWN)) := by
  intro n
  induction n with
  | zero =>
    intro i d hin h hs _ _ _ hmem
    have hi : i = src.size := by omega
    rw [hi] at hmem
    exact ⟨rfl, h, hs, rfl, rfl, hmem⟩
  | succ n ih =>
    intro i d hin h hs hp hli hsz hmem
    have habs : ∀ x ∈ entries d.rc_tab,
        x.scancode ≠ apply_scanmask d.props (src.scan.getD i default).scancode := by
      intro x hx heq
      obtain ⟨j, hj, hxe, _⟩ := (hmem x).1 hx
      rw [hxe, hp] at heq
      exact nodup_map_getD (fun e => apply_scanmask props e.scancode) src.scan hd j i hj
        (by omega) heq
    rcases setkeytable_step src kms n i d h hs with ⟨c1, _⟩ | ⟨_, c2, c3, c4⟩
    · omega
    · obtain ⟨l1, l2, l3, l4, l5⟩ := load_entry_absent d (src.scan.getD i default) (kms i) h
        habs (by omega)
      rw [c2]
      have hmem2 : ∀ x, x ∈ entries (load_entry d (src.scan.getD i default) (kms i)).rc_tab ↔
          ∃ j, j < i + 1 ∧
            x = ⟨apply_scanmask props (src.scan.getD j default).scancode,
                  (src.scan.getD j default).keycode⟩ ∧
            ¬ ((src.scan.getD j default).keycode = KEY_RESERVED ∨
                (src.scan.getD j default).keycode = KEY_UNKNOWN) := by
        intro x
        rw [l5 x, hmem x, hp]
        constructor
        · rintro (⟨j, hj, hx⟩ | hx)
          · exact ⟨j, by omega, hx⟩
          · exact ⟨i, by omega, hx⟩
        · rintro ⟨j, hj, hx⟩
          by_cases hji : j = i
          · rw [hji] at hx
            exact Or.inr hx
          · exact Or.inl ⟨j, by omega, hx⟩
      obtain ⟨r1, r2, r3, r4, r5, r6⟩ := ih (i + 1) _ (by omega) c3 c4 (l1.trans hp)
        (by omega) (by rw [l2]; exact hsz) hmem2
      exact ⟨r1, r2, r3, r4.trans l2, r5.trans l3, r6⟩

theorem create_shape (rc_tab : ir_scancode_table) (name : String) (ir_type n : Nat)
    (junk : Nat → ir_scancode) (hn : 1 ≤ n) (hn2 : n ≤ 268435456) :
    (ir_create_table rc_tab name ir_type n (some junk)).2.alloc =
      roundup_pow_of_two (n * SIZEOF_IR_SCANCODE) ∧
    (ir_create_table rc_tab name ir_type n (some junk)).2.size =
      roundup_pow_of_two (n * SIZEOF_IR_SCANCODE) / SIZEOF_IR_SCANCODE ∧
    n ≤ (ir_create_table rc_tab name ir_type n (some junk)).2.size := by
  obtain ⟨r1, r2⟩ := roundup_pow_of_two_spec (n * SIZEOF_IR_SCANCODE)
    (by unfold SIZEOF_IR_SCANCODE; omega)
  unfold ir_create_table
  simp only []
  unfold SIZEOF_IR_SCANCODE UINT_MOD at *
  have hm : roundup_pow_of_two (n * 8) % 4294967296 = roundup_pow_of_two (n * 8) :=
    Nat.mod_eq_of_lt (by omega)
  rw [hm]
  refine ⟨rfl, rfl, ?_⟩
  omega

/-- C21 (amended): for a device whose table structure has `len = 0` (as
`kzalloc` leaves it) and every source table of `n` entries, `1 ≤ n ≤ 2 ^ 28`,
whose scancodes, after the scan mask of the device is applied, are pairwise
distinct (in any order), with the initial allocation succeeding and whatever
later allocations would return, `ir_setkeytable` returns 0 and the table keeps
the capacity it was created with (it is never resized).  The resulting table is well formed and
strictly ascending and holds exactly the entries (masked scancode, keycode) of
the source whose keycode is neither `KEY_RESERVED` nor `KEY_UNKNOWN`.  So for
every scancode `S` and keycode `K` other than `KEY_RESERVED`, the lookup
`ir_g_keycode_from_table` yields `K` for `S` exactly when the source has an
entry with keycode `K`, not `KEY_UNKNOWN`, whose masked scancode is `S`; and it
yields `KEY_RESERVED` exactly when the source has no entry with a keycode other
than the two sentinels whose masked scancode is `S`. -/
theorem setkeytable_installs_source (d : ir_input_dev) (src : ir_scancode_table)
    (junk : Nat → ir_scancode) (kms : Nat → kmalloc_result)
    (h0 : d.rc_tab.len = 0) (hn : 1 ≤ src.size) (hn2 : src.size ≤ 268435456)
    (hlen : src.scan.length = src.size)
    (hd : (src.scan.map (fun e => apply_scanmask d.props e.scancode)).Nodup) :
    (ir_setkeytable d src (some junk) kms).1 = 0 ∧
    (ir_setkeytable d src (some junk) kms).2.rc_tab.alloc =
      roundup_pow_of_two (src.size * SIZEOF_IR_SCANCODE) ∧
    (ir_setkeytable d src (some junk) kms).2.rc_tab.size =
      roundup_pow_of_two (src.size * SIZEOF_IR_SCANCODE) / SIZEOF_IR_SCANCODE ∧
    table_ok (ir_setkeytable d src (some junk) kms).2.rc_tab ∧
    ascending (entries (ir_setkeytable d src (some junk) kms).2.rc_tab) ∧
    (∀ x, x ∈ entries (ir_setkeytable d src (some junk) kms).2.rc_tab ↔
      ∃ e ∈ src.scan, x = ⟨apply_scanmask d.props e.scancode, e.keycode⟩ ∧
        e.keycode ≠ KEY_RESERVED ∧ e.keycode ≠ KEY_UNKNOWN) ∧
    (∀ S K, K ≠ KEY_RESERVED →
      (ir_g_keycode_from_table (ir_setkeytable d src (some junk) kms).2 S = some K ↔
        ∃ e ∈ src.scan, apply_scanmask d.props e.scancode = S ∧ e.keycode = K ∧
          K ≠ KEY_UNKNOWN)) ∧
    (∀ S, ir_g_keycode_from_table (ir_setkeytable d src (some junk) kms).2 S =
        some KEY_RESERVED ↔
      ¬ ∃ e ∈ src.scan, apply_scanmask d.props e.scancode = S ∧
          e.keycode ≠ KEY_RESERVED ∧ e.keycode ≠ KEY_UNKNOWN) := by
  have hc := create_ok d.rc_tab src.name src.ir_type src.size junk hn hn2 h0
  obtain ⟨a1, a2, a3⟩ := create_shape d.rc_tab src.name src.ir_type src.size junk hn hn2
  have hent : entries (ir_create_table d.rc_tab src.name src.ir_type src.size
      (some junk)).2 = [] := by
    unfold entries
    rw [hc.2]
    rfl
  have hasc : ascending (entries (ir_create_table d.rc_tab src.name src.ir_type src.size
      (some junk)).2) := by
    rw [hent]
    exact List.Pairwise.nil
  have hdef : ir_setkeytable d src (some junk) kms =
      if (setkeytable_loop src kms src.size 0
          { d with rc_tab := (ir_create_table d.rc_tab src.name src.ir_type src.size
              (some junk)).2 }).1 ≠ 0
      then ((setkeytable_loop src kms src.size 0
          { d with rc_tab := (ir_create_table d.rc_tab src.name src.ir_type src.size
              (some junk)).2 }).1,
        { (setkeytable_loop src kms src.size 0
          { d with rc_tab := (ir_create_table d.rc_tab src.name src.ir_type src.size
              (some junk)).2 }).2 with
          rc_tab := ir_free_table (setkeytable_loop src kms src.size 0
            { d with rc_tab := (ir_create_table d.rc_tab src.name src.ir_type src.size
              (some junk)).2 }).2.rc_tab })
      else setkeytable_loop src kms src.size 0
          { d with rc_tab := (ir_create_table d.rc_tab src.name src.ir_type src.size
              (some junk)).2 } := rfl
  have hL := setkeytable_loop_distinct src kms d.props hlen hd src.size 0
    { d with rc_tab := (ir_create_table d.rc_tab src.name src.ir_type src.size
        (some junk)).2 } (by omega) hc.1 hasc rfl (by rw [hc.2]) a3
    (by
      intro x
      show x ∈ entries (ir_create_table d.rc_tab src.name src.ir_type src.size
        (some junk)).2 ↔ _
      rw [hent]
      constructor
      · intro hx; cases hx
      · rintro ⟨j, hj, _⟩; omega)
  obtain ⟨r1, r2, r3, r4, r5, r6⟩ := hL
  rw [hdef, if_neg (by rw [r1]; simp)]
  have hmem : ∀ x, x ∈ entries (setkeytable_loop src kms src.size 0
        { d with rc_tab := (ir_create_table d.rc_tab src.name src.ir_type src.size
            (some junk)).2 }).2.rc_tab ↔
      ∃ e ∈ src.scan, x = ⟨apply_scanmask d.props e.scancode, e.keycode⟩ ∧
        e.keycode ≠ KEY_RESERVED ∧ e.keycode ≠ KEY_UNKNOWN := by
    intro x
    rw [r6 x]
    constructor
    · rintro ⟨j, hj, hx, hk⟩
      refine ⟨src.scan.getD j default, (mem_iff_getD _ _).2 ⟨j, by omega, rfl⟩, hx, ?_, ?_⟩
      · intro hk1; exact hk (Or.inl hk1)
      · intro hk1; exact hk (Or.inr hk1)
    · rintro ⟨e, he, hx, hk1, hk2⟩
      obtain ⟨j, hj, hje⟩ := (mem_iff_getD _ _).1 he
      refine ⟨j, by omega, by rw [hje]; exact hx, ?_⟩
      rw [hje]
      rintro (hk | hk)
      · exact hk1 hk
      · exact hk2 hk
  refine ⟨r1, r5.trans a1, r4.trans a2, r2, r3, hmem, ?_, ?_⟩
  · intro S K hK
    rw [g_keycode_iff_mem _ S K r2 r3 hK, hmem]
    constructor
    · rintro ⟨e, he, hx, _, hk2⟩
      have h1 := congrArg ir_scancode.scancode hx
      have h2 := congrArg ir_scancode.keycode hx
      simp only [] at h1 h2
      exact ⟨e, he, h1.symm, h2.symm, by rw [h2]; exact hk2⟩
    · rintro ⟨e, he, h1, h2, h3⟩
      exact ⟨e, he, by rw [h1, h2], by rw [h2]; exact hK, by rw [h2]; exact h3⟩
  · intro S
    constructor
    · intro hg
      rintro ⟨e, he, h1, h2, h3⟩
      have hm := (hmem ⟨S, e.keycode⟩).2 ⟨e, he, by rw [h1], h2, h3⟩
      rw [g_keycode_of_mem _ S e.keycode r2 r3 hm] at hg
      exact h2 (Option.some.inj hg)
    · intro hno
      apply g_keycode_absent _ S r2 r3
      intro x hx hxs
      obtain ⟨e, he, hxe, h2, h3⟩ := (hmem x).1 hx
      apply hno
      refine ⟨e, he, ?_, h2, h3⟩
      rw [← hxs, hxe]

theorem setkeytable_installs_source_witness :
    ((zeroed_dev none).rc_tab.len = 0 ∧ 1 ≤ small_source.size ∧
      small_source.size ≤ 268435456 ∧ small_source.scan.length = small_source.size ∧
      (small_source.scan.map
        (fun e => apply_scanmask (zeroed_dev none).props e.scancode)).Nodup) ∧
    ((ir_setkeytable (zeroed_dev none) small_source (some fun _ => ⟨7, 7⟩) (fun _ => none)).1 = 0 ∧
    (ir_setkeytable (zeroed_dev none) small_source (some fun _ => ⟨7, 7⟩) (fun _ => none)).2.rc_tab.alloc =
      roundup_pow_of_two (small_source.size * SIZEOF_IR_SCANCODE) ∧
    (ir_setkeytable (zeroed_dev none) small_source (some fun _ => ⟨7, 7⟩) (fun _ => none)).2.rc_tab.size =
      roundup_pow_of_two (small_source.size * SIZEOF_IR_SCANCODE) / SIZEOF_IR_SCANCODE ∧
    table_ok (ir_setkeytable (zeroed_dev none) small_source (some fun _ => ⟨7, 7⟩) (fun _ => none)).2.rc_tab ∧
    ascending (entries (ir_setkeytable (zeroed_dev none) small_source (some fun _ => ⟨7, 7⟩) (fun _ => none)).2.rc_tab) ∧
    (∀ x, x ∈ entries (ir_setkeytable (zeroed_dev none) small_source (some fun _ => ⟨7, 7⟩) (fun _ => none)).2.rc_tab ↔
      ∃ e ∈ small_source.scan,
        x = ⟨apply_scanmask (zeroed_dev none).props e.scancode, e.keycode⟩ ∧
        e.keycode ≠ KEY_RESERVED ∧ e.keycode ≠ KEY_UNKNOWN) ∧
    (∀ S K, K ≠ KEY_RESERVED →
      (ir_g_keycode_from_table (ir_setkeytable (zeroed_dev none) small_source (some fun _ => ⟨7, 7⟩) (fun _ => none)).2 S = some K ↔
        ∃ e ∈ small_source.scan, apply_scanmask (zeroed_dev none).props e.scancode = S ∧
          e.keycode = K ∧ K ≠ KEY_UNKNOWN)) ∧
    (∀ S, ir_g_keycode_from_table (ir_setkeytable (zeroed_dev none) small_source (some fun _ => ⟨7, 7⟩) (fun _ => none)).2 S = some KEY_RESERVED ↔
      ¬ ∃ e ∈ small_source.scan, apply_scanmask (zeroed_dev none).props e.scancode = S ∧
          e.keycode ≠ KEY_RESERVED ∧ e.keycode ≠ KEY_UNKNOWN)) :=
  ⟨⟨by decide, by decide, by decide, by decide, by decide⟩,
    setkeytable_installs_source (zeroed_dev none) small_source (fun _ => ⟨7, 7⟩)
      (fun _ => none) (by decide) (by decide) (by decide) (by decide) (by decide)⟩

/-- C21, counterexample: a device with scan mask 0xff and the one-entry source
(0x1234, 30), whose masked scancodes are trivially pairwise distinct.  The
load returns 0, yet a lookup of 0x1234 yields `KEY_RESERVED` although the
source contains (0x1234, 30), and a lookup of 0x34 yields 30 although the
source has no entry with scancode 0x34: the table stores the masked scancode
and the lookup does not mask. -/
theorem setkeytable_lookup_unmasked :
    ((zeroed_dev (some ⟨255⟩)).rc_tab.len = 0 ∧ 1 ≤ wide_source.size ∧
      wide_source.scan.length = wide_source.size ∧
      (wide_source.scan.map
        (fun e => apply_scanmask (zeroed_dev (some ⟨255⟩)).props e.scancode)).Nodup) ∧
    (ir_setkeytable (zeroed_dev (some ⟨255⟩)) wide_source (some fun _ => ⟨7, 7⟩)
      (fun _ => none)).1 = 0 ∧
    entries (ir_setkeytable (zeroed_dev (some ⟨255⟩)) wide_source (some fun _ => ⟨7, 7⟩)
      (fun _ => none)).2.rc_tab = [⟨52, 30⟩] ∧
    (⟨4660, 30⟩ : ir_scancode) ∈ wide_source.scan ∧
    ir_g_keycode_from_table (ir_setkeytable (zeroed_dev (some ⟨255⟩)) wide_source (some fun _ => ⟨7, 7⟩)
      (fun _ => none)).2 4660 = some KEY_RESERVED ∧
    (∀ e ∈ wide_source.scan, e.scancode ≠ 52) ∧
    ir_g_keycode_from_table (ir_setkeytable (zeroed_dev (some ⟨255⟩)) wide_source (some fun _ => ⟨7, 7⟩)
      (fun _ => none)).2 52 = some 30 := by
  refine ⟨⟨by decide, by decide, by decide, by decide⟩, by decide, by decide, by decide,
    by decide, by decide, by decide⟩

end IrKeytable
